import Mathlib

/-!
# Shared / weak ownership: control blocks, SharedPtr, WeakPtr

A shallow embedding of `shared_ptr/shared.h` and `unique_ptr/weak.h`.

* A control block lives on a heap (`State.heap`), addressed by its index; `new` appends a block
  and an address is never handed out twice.
* The virtual calls `OnZeroStrong` and `OnZeroWeak` are recorded, in call order, in
  `State.trace`.  `delete this` leaves the block in the heap list: whether a block has been
  released is read off the trace.
* `SharedPtr` and `WeakPtr` objects live in two stores (`State.shared`, `State.weak`); an
  operation names the objects it works on by their index, so that `a = a` or `a.Swap(a)` can be
  expressed.  A slot holding `none` is an object whose destructor has run.
* The counters are C++ `int`s.  Signed overflow is undefined behaviour, so `++` and `--` are the
  mathematical operations on `Int`; the conversion `int → size_t` of `UseCount` is `toSizeT`.
* The template overloads (`SharedPtr<U>`, `WeakPtr<U>`) have the same bodies as the
  non-template ones and are embedded once.
* The managed type `T` is a parameter of the library.  The first part of the definitions takes
  its destructor to run no `SharedPtr` or `WeakPtr` code, so that `OnZeroStrong` is one step.
  The section "Managed objects that hold handles" embeds `MinusStrong`, and the `SharedPtr`
  methods that call it, for managed objects whose members include handles; without such
  members it is the first part again (`runT_nil`).
-/

namespace SmartPtrs

/-! ## Definitions -/

/-- Address of a control block: its index in the heap. -/
abbrev BlockId := Nat

/-- Address of a managed object: either an object the client allocated itself, or the storage
`holder` embedded in the make-shared control block at address `b`. -/
inductive Addr where
  | raw (n : Nat)
  | holder (b : BlockId)
  deriving DecidableEq, Repr

/-- A call of one of the two release hooks of the control block at address `b`. -/
inductive Event where
  | OnZeroStrong (b : BlockId)
  | OnZeroWeak (b : BlockId)
  deriving DecidableEq, Repr

/-- The exception thrown by the promoting constructor. -/
inductive BadWeakPtr where
  | mk
  deriving DecidableEq, Repr

/-- Conversion `int → size_t` (64 bit): a non-negative `int` keeps its value, a negative one
wraps modulo `2^64`. -/
def toSizeT (v : Int) : Nat :=
  if 0 ≤ v then v.toNat else (v % 18446744073709551616).toNat

/-! ### ControlBlockPointer -/

/-- The struct `ControlBlockPointer<T>`: `strong_`, `weak_`, `ptr_` (`none` is `nullptr`). -/
structure ControlBlockPointer where
  strong_ : Int
  weak_ : Int
  ptr_ : Option Addr
  deriving DecidableEq, Repr

/-- The constructor `ControlBlockPointer(T* ptr)`: both counters start at 0. -/
def ControlBlockPointer.new (ptr : Option Addr) : ControlBlockPointer :=
  { strong_ := 0, weak_ := 0, ptr_ := ptr }

/-- The hook `OnZeroStrong`: `delete ptr_; ptr_ = nullptr;`, for a managed type whose destructor
runs no handle code (`State.OnZeroStrong` is the general form). -/
def ControlBlockPointer.OnZeroStrong (this : BlockId) (c : ControlBlockPointer) :
    ControlBlockPointer × List Event :=
  ({ c with ptr_ := none }, [Event.OnZeroStrong this])

/-- The hook `OnZeroWeak`: `delete this;`. -/
def ControlBlockPointer.OnZeroWeak (this : BlockId) (c : ControlBlockPointer) :
    ControlBlockPointer × List Event :=
  (c, [Event.OnZeroWeak this])

/-- The method `MinusStrong`: `--strong_`, then the two tests in source order. -/
def ControlBlockPointer.MinusStrong (this : BlockId) (c : ControlBlockPointer) :
    ControlBlockPointer × List Event :=
  let c1 := { c with strong_ := c.strong_ - 1 }
  let r1 := if c1.strong_ = 0 then ControlBlockPointer.OnZeroStrong this c1 else (c1, [])
  let r2 := if r1.1.strong_ = 0 ∧ r1.1.weak_ = 0 then ControlBlockPointer.OnZeroWeak this r1.1
    else (r1.1, [])
  (r2.1, r1.2 ++ r2.2)

/-- The method `PlusStrong`: `++strong_`. -/
def ControlBlockPointer.PlusStrong (_this : BlockId) (c : ControlBlockPointer) :
    ControlBlockPointer × List Event :=
  ({ c with strong_ := c.strong_ + 1 }, [])

/-- The method `MinusWeak`: `--weak_`, then the test for releasing the block. -/
def ControlBlockPointer.MinusWeak (this : BlockId) (c : ControlBlockPointer) :
    ControlBlockPointer × List Event :=
  let c1 := { c with weak_ := c.weak_ - 1 }
  if c1.strong_ = 0 ∧ c1.weak_ = 0 then ControlBlockPointer.OnZeroWeak this c1 else (c1, [])

/-- The method `PlusWeak`: `++weak_`. -/
def ControlBlockPointer.PlusWeak (_this : BlockId) (c : ControlBlockPointer) :
    ControlBlockPointer × List Event :=
  ({ c with weak_ := c.weak_ + 1 }, [])

/-! ### ControlBlockMakeShared -/

/-- The struct `ControlBlockMakeShared<T>`: `strong_`, `weak_` and the storage `holder`;
`holder` is `true` while a constructed `T` lives in the storage. -/
structure ControlBlockMakeShared where
  strong_ : Int
  weak_ : Int
  holder : Bool
  deriving DecidableEq, Repr

/-- The constructor `ControlBlockMakeShared(Args&&...)`: counters 0, a `T` is constructed in
`holder` by placement new. -/
def ControlBlockMakeShared.new : ControlBlockMakeShared :=
  { strong_ := 0, weak_ := 0, holder := true }

/-- The hook `OnZeroStrong`: runs `~T()` on the storage, for a managed type whose destructor
runs no handle code (`State.OnZeroStrong` is the general form). -/
def ControlBlockMakeShared.OnZeroStrong (this : BlockId) (c : ControlBlockMakeShared) :
    ControlBlockMakeShared × List Event :=
  ({ c with holder := false }, [Event.OnZeroStrong this])

/-- The hook `OnZeroWeak`: `delete this;`. -/
def ControlBlockMakeShared.OnZeroWeak (this : BlockId) (c : ControlBlockMakeShared) :
    ControlBlockMakeShared × List Event :=
  (c, [Event.OnZeroWeak this])

/-- The method `MinusStrong`: `--strong_`, then the two tests in source order. -/
def ControlBlockMakeShared.MinusStrong (this : BlockId) (c : ControlBlockMakeShared) :
    ControlBlockMakeShared × List Event :=
  let c1 := { c with strong_ := c.strong_ - 1 }
  let r1 := if c1.strong_ = 0 then ControlBlockMakeShared.OnZeroStrong this c1 else (c1, [])
  let r2 := if r1.1.strong_ = 0 ∧ r1.1.weak_ = 0 then ControlBlockMakeShared.OnZeroWeak this r1.1
    else (r1.1, [])
  (r2.1, r1.2 ++ r2.2)

/-- The method `PlusStrong`: `++strong_`. -/
def ControlBlockMakeShared.PlusStrong (_this : BlockId) (c : ControlBlockMakeShared) :
    ControlBlockMakeShared × List Event :=
  ({ c with strong_ := c.strong_ + 1 }, [])

/-- The method `MinusWeak`: `--weak_`, then the test for releasing the block. -/
def ControlBlockMakeShared.MinusWeak (this : BlockId) (c : ControlBlockMakeShared) :
    ControlBlockMakeShared × List Event :=
  let c1 := { c with weak_ := c.weak_ - 1 }
  if c1.strong_ = 0 ∧ c1.weak_ = 0 then ControlBlockMakeShared.OnZeroWeak this c1 else (c1, [])

/-- The method `PlusWeak`: `++weak_`. -/
def ControlBlockMakeShared.PlusWeak (_this : BlockId) (c : ControlBlockMakeShared) :
    ControlBlockMakeShared × List Event :=
  ({ c with weak_ := c.weak_ + 1 }, [])

/-- The method `GetHolder` of the block at address `this`: the address of its storage. -/
def ControlBlockMakeShared.GetHolder (this : BlockId) : Option Addr :=
  some (Addr.holder this)

/-! ### ControlBlockBase: the two implementations behind one interface -/

/-- A `ControlBlockBase*` points to one of the two implementations. -/
inductive ControlBlockBase where
  | pointer (c : ControlBlockPointer)
  | makeShared (c : ControlBlockMakeShared)
  deriving DecidableEq, Repr

/-- Virtual `Strong()`. -/
def ControlBlockBase.Strong : ControlBlockBase → Int
  | .pointer c => c.strong_
  | .makeShared c => c.strong_

/-- Virtual `Weak()`. -/
def ControlBlockBase.Weak : ControlBlockBase → Int
  | .pointer c => c.weak_
  | .makeShared c => c.weak_

/-- Virtual `MinusStrong()`. -/
def ControlBlockBase.MinusStrong (this : BlockId) :
    ControlBlockBase → ControlBlockBase × List Event
  | .pointer c => (.pointer (c.MinusStrong this).1, (c.MinusStrong this).2)
  | .makeShared c => (.makeShared (c.MinusStrong this).1, (c.MinusStrong this).2)

/-- Virtual `PlusStrong()`. -/
def ControlBlockBase.PlusStrong (this : BlockId) :
    ControlBlockBase → ControlBlockBase × List Event
  | .pointer c => (.pointer (c.PlusStrong this).1, (c.PlusStrong this).2)
  | .makeShared c => (.makeShared (c.PlusStrong this).1, (c.PlusStrong this).2)

/-- Virtual `MinusWeak()`. -/
def ControlBlockBase.MinusWeak (this : BlockId) :
    ControlBlockBase → ControlBlockBase × List Event
  | .pointer c => (.pointer (c.MinusWeak this).1, (c.MinusWeak this).2)
  | .makeShared c => (.makeShared (c.MinusWeak this).1, (c.MinusWeak this).2)

/-- Virtual `PlusWeak()`. -/
def ControlBlockBase.PlusWeak (this : BlockId) :
    ControlBlockBase → ControlBlockBase × List Event
  | .pointer c => (.pointer (c.PlusWeak this).1, (c.PlusWeak this).2)
  | .makeShared c => (.makeShared (c.PlusWeak this).1, (c.PlusWeak this).2)

/-! ### Program state -/

/-- A `SharedPtr<T>` object: its members `block_` and `ptr_` (`none` is `nullptr`). -/
structure SharedPtr where
  block_ : Option BlockId
  ptr_ : Option Addr
  deriving DecidableEq, Repr

/-- A `WeakPtr<T>` object: its members `block_` and `ptr_` (`none` is `nullptr`). -/
structure WeakPtr where
  block_ : Option BlockId
  ptr_ : Option Addr
  deriving DecidableEq, Repr

/-- The state of a program: the heap of control blocks, the release hooks called so far (oldest
first), and the `SharedPtr` and `WeakPtr` objects (`none`: the object has been destroyed). -/
structure State where
  heap : List ControlBlockBase
  trace : List Event
  shared : List (Option SharedPtr)
  weak : List (Option WeakPtr)
  deriving DecidableEq, Repr

/-- The state of a program that has not created anything yet. -/
def State.init : State :=
  { heap := [], trace := [], shared := [], weak := [] }

/-- The virtual call `block->m()` on the block at address `b`: the block is updated in place
and the hooks it called are appended to the trace. -/
def State.invoke (s : State) (b : BlockId)
    (m : BlockId → ControlBlockBase → ControlBlockBase × List Event) : State :=
  match s.heap[b]? with
  | some c => { s with heap := s.heap.set b (m b c).1, trace := s.trace ++ (m b c).2 }
  | none => s

/-- The expression `new ControlBlockPointer<U>(ptr)` / `new ControlBlockMakeShared<T>(...)`: the
block is placed at the next free address, `s.heap.length`. -/
def State.alloc (s : State) (c : ControlBlockBase) : State :=
  { s with heap := s.heap ++ [c] }

/-- The value `block->Strong()` for the block at address `b`. -/
def State.Strong (s : State) (b : BlockId) : Int :=
  match s.heap[b]? with
  | some c => c.Strong
  | none => 0

/-- The value `block->Weak()` for the block at address `b`. -/
def State.Weak (s : State) (b : BlockId) : Int :=
  match s.heap[b]? with
  | some c => c.Weak
  | none => 0

/-- The `SharedPtr` object `i` is alive (constructed and not yet destroyed). -/
def State.liveS (s : State) (i : Nat) : Bool :=
  match s.shared[i]? with
  | some (some _) => true
  | _ => false

/-- The members of the `SharedPtr` object `i`. -/
def State.getS (s : State) (i : Nat) : SharedPtr :=
  match s.shared[i]? with
  | some (some h) => h
  | _ => { block_ := none, ptr_ := none }

/-- Overwrites the members of the `SharedPtr` object `i`. -/
def State.setS (s : State) (i : Nat) (h : SharedPtr) : State :=
  { s with shared := s.shared.set i (some h) }

/-- The assignment `ptr_ = p;` inside the `SharedPtr` object `i`. -/
def State.setSPtr (s : State) (i : Nat) (p : Option Addr) : State :=
  s.setS i { s.getS i with ptr_ := p }

/-- The assignment `block_ = b;` inside the `SharedPtr` object `i`. -/
def State.setSBlock (s : State) (i : Nat) (b : Option BlockId) : State :=
  s.setS i { s.getS i with block_ := b }

/-- Storage for a `SharedPtr` under construction, at index `s.shared.length`.  `SharedPtr` has
no default member initialisers; the indeterminate members are written before they are read and
are represented by null. -/
def State.newS (s : State) : State :=
  { s with shared := s.shared ++ [some { block_ := none, ptr_ := none }] }

/-- End of the lifetime of the `SharedPtr` object `i`. -/
def State.endS (s : State) (i : Nat) : State :=
  { s with shared := s.shared.set i none }

/-- The `WeakPtr` object `i` is alive (constructed and not yet destroyed). -/
def State.liveW (s : State) (i : Nat) : Bool :=
  match s.weak[i]? with
  | some (some _) => true
  | _ => false

/-- The members of the `WeakPtr` object `i`. -/
def State.getW (s : State) (i : Nat) : WeakPtr :=
  match s.weak[i]? with
  | some (some h) => h
  | _ => { block_ := none, ptr_ := none }

/-- Overwrites the members of the `WeakPtr` object `i`. -/
def State.setW (s : State) (i : Nat) (h : WeakPtr) : State :=
  { s with weak := s.weak.set i (some h) }

/-- The assignment `ptr_ = p;` inside the `WeakPtr` object `i`. -/
def State.setWPtr (s : State) (i : Nat) (p : Option Addr) : State :=
  s.setW i { s.getW i with ptr_ := p }

/-- The assignment `block_ = b;` inside the `WeakPtr` object `i`. -/
def State.setWBlock (s : State) (i : Nat) (b : Option BlockId) : State :=
  s.setW i { s.getW i with block_ := b }

/-- Storage for a `WeakPtr` under construction, at index `s.weak.length`, with the default
member initialisers `block_ = nullptr`, `ptr_ = nullptr`. -/
def State.newW (s : State) : State :=
  { s with weak := s.weak ++ [some { block_ := none, ptr_ := none }] }

/-- End of the lifetime of the `WeakPtr` object `i`. -/
def State.endW (s : State) (i : Nat) : State :=
  { s with weak := s.weak.set i none }

/-! ### SharedPtr -/

/-- Private `SharedPtr::PlusShared`. -/
def SharedPtr.PlusShared (this : Nat) (s : State) : State :=
  match (s.getS this).block_ with
  | some b => s.invoke b ControlBlockBase.PlusStrong
  | none => s

/-- Private `SharedPtr::MinusShared`. -/
def SharedPtr.MinusShared (this : Nat) (s : State) : State :=
  match (s.getS this).block_ with
  | some b => s.invoke b ControlBlockBase.MinusStrong
  | none => s

/-- The constructors `SharedPtr()` and `SharedPtr(std::nullptr_t)`.  Like every constructor
below, it creates the object at index `s.shared.length`. -/
def SharedPtr.ctorDefault (s : State) : State :=
  let this := s.shared.length
  let s := s.newS
  s.setS this { block_ := none, ptr_ := none }

/-- The constructor `SharedPtr(U* ptr)`. -/
def SharedPtr.ctorRaw (ptr : Option Addr) (s : State) : State :=
  let this := s.shared.length
  let s := s.newS
  let s := s.setSPtr this ptr
  let blk := s.heap.length
  let s := s.alloc (ControlBlockBase.pointer (ControlBlockPointer.new ptr))
  let s := s.setSBlock this (some blk)
  SharedPtr.PlusShared this s

/-- The copy constructors `SharedPtr(const SharedPtr&)` and `SharedPtr(const SharedPtr<U>&)`. -/
def SharedPtr.ctorCopy (other : Nat) (s : State) : State :=
  let this := s.shared.length
  let s := s.newS
  let s := s.setSPtr this (s.getS other).ptr_
  let s := s.setSBlock this (s.getS other).block_
  SharedPtr.PlusShared this s

/-- The move constructors `SharedPtr(SharedPtr&&)` and `SharedPtr(SharedPtr<U>&&)`. -/
def SharedPtr.ctorMove (other : Nat) (s : State) : State :=
  let this := s.shared.length
  let s := s.newS
  let s := s.setSPtr this (s.getS other).ptr_
  let s := s.setSBlock this (s.getS other).block_
  let s := s.setSPtr other none
  s.setSBlock other none

/-- The constructor `SharedPtr(ControlBlockBase* block_make_shared, T* ptr)` used by
`MakeShared`. -/
def SharedPtr.ctorBlock (block_make_shared : Option BlockId) (ptr : Option Addr) (s : State) :
    State :=
  let this := s.shared.length
  let s := s.newS
  let s := s.setSPtr this ptr
  let s := s.setSBlock this block_make_shared
  SharedPtr.PlusShared this s

/-- The aliasing constructor `SharedPtr(const SharedPtr<Y>& other, T* ptr)`. -/
def SharedPtr.ctorAlias (other : Nat) (ptr : Option Addr) (s : State) : State :=
  let this := s.shared.length
  let s := s.newS
  let s := s.setSPtr this ptr
  let s := s.setSBlock this (s.getS other).block_
  SharedPtr.PlusShared this s

/-- The copy assignment `operator=(const SharedPtr&)`, when `MinusShared()` destroys no handle
(`SharedPtr.assignCopyT` is the general form). -/
def SharedPtr.assignCopy (this other : Nat) (s : State) : State :=
  if (s.getS this).ptr_ ≠ (s.getS other).ptr_ then
    let s := SharedPtr.MinusShared this s
    let s := s.setSPtr this (s.getS other).ptr_
    let s := s.setSBlock this (s.getS other).block_
    SharedPtr.PlusShared this s
  else s

/-- The move assignments `operator=(SharedPtr&&)` and `operator=(SharedPtr<U>&&)`, when
`MinusShared()` destroys no handle (`SharedPtr.assignMoveT` is the general form). -/
def SharedPtr.assignMove (this other : Nat) (s : State) : State :=
  let s := SharedPtr.MinusShared this s
  let s := s.setSPtr this (s.getS other).ptr_
  let s := s.setSBlock this (s.getS other).block_
  let s := s.setSPtr other none
  s.setSBlock other none

/-- The destructor `~SharedPtr()`, followed by the end of the object. -/
def SharedPtr.dtor (this : Nat) (s : State) : State :=
  let s := SharedPtr.MinusShared this s
  s.endS this

/-- The modifier `Reset()`. -/
def SharedPtr.Reset (this : Nat) (s : State) : State :=
  let s := SharedPtr.MinusShared this s
  let s := s.setSPtr this none
  s.setSBlock this none

/-- The modifier `Reset(U* ptr)`. -/
def SharedPtr.ResetPtr (this : Nat) (ptr : Option Addr) (s : State) : State :=
  let s := SharedPtr.MinusShared this s
  let s := s.setSPtr this ptr
  let blk := s.heap.length
  let s := s.alloc (ControlBlockBase.pointer (ControlBlockPointer.new ptr))
  let s := s.setSBlock this (some blk)
  SharedPtr.PlusShared this s

/-- The modifier `Swap(SharedPtr& other)`, that is `std::swap(*this, other)`: a temporary is
move-constructed from `*this`, `*this` is move-assigned from `other`, `other` is move-assigned
from the temporary, and the temporary is destroyed. -/
def SharedPtr.Swap (this other : Nat) (s : State) : State :=
  let tmp := s.shared.length
  let s := SharedPtr.ctorMove this s
  let s := SharedPtr.assignMove this other s
  let s := SharedPtr.assignMove other tmp s
  SharedPtr.dtor tmp s

/-- The observer `Get()`. -/
def SharedPtr.Get (this : Nat) (s : State) : Option Addr :=
  (s.getS this).ptr_

/-- The observer `UseCount()`. -/
def SharedPtr.UseCount (this : Nat) (s : State) : Nat :=
  match (s.getS this).block_ with
  | none => 0
  | some b => toSizeT (s.Strong b)

/-- The conversion `operator bool()`. -/
def SharedPtr.toBool (this : Nat) (s : State) : Bool :=
  if (s.getS this).ptr_ = none then false else true

/-- The free `operator==` on two `SharedPtr`s. -/
def SharedPtr.eq (left right : Nat) (s : State) : Bool :=
  if SharedPtr.Get left s = SharedPtr.Get right s then true else false

/-- The factory `MakeShared<T>(args...)`: one allocation, then the `(block, ptr)`
constructor builds the returned object. -/
def MakeShared (s : State) : State :=
  let temp := s.heap.length
  let s := s.alloc (ControlBlockBase.makeShared ControlBlockMakeShared.new)
  SharedPtr.ctorBlock (some temp) (ControlBlockMakeShared.GetHolder temp) s

/-! ### WeakPtr -/

/-- Private `WeakPtr::MinusWeak`. -/
def WeakPtr.MinusWeak (this : Nat) (s : State) : State :=
  match (s.getW this).block_ with
  | some b => s.invoke b ControlBlockBase.MinusWeak
  | none => s

/-- Private `WeakPtr::PlusWeak`. -/
def WeakPtr.PlusWeak (this : Nat) (s : State) : State :=
  match (s.getW this).block_ with
  | some b => s.invoke b ControlBlockBase.PlusWeak
  | none => s

/-- The defaulted constructor `WeakPtr()`.  Like every constructor below, it creates the object
at index `s.weak.length`. -/
def WeakPtr.ctorDefault (s : State) : State :=
  s.newW

/-- The copy constructors `WeakPtr(const WeakPtr&)` and `WeakPtr(const WeakPtr<U>&)`. -/
def WeakPtr.ctorCopy (other : Nat) (s : State) : State :=
  let this := s.weak.length
  let s := s.newW
  let s := s.setWBlock this (s.getW other).block_
  let s := s.setWPtr this (s.getW other).ptr_
  WeakPtr.PlusWeak this s

/-- The move constructors `WeakPtr(WeakPtr&&)` and `WeakPtr(WeakPtr<U>&&)`. -/
def WeakPtr.ctorMove (other : Nat) (s : State) : State :=
  let this := s.weak.length
  let s := s.newW
  let s := s.setWBlock this (s.getW other).block_
  let s := s.setWPtr this (s.getW other).ptr_
  let s := s.setWPtr other none
  s.setWBlock other none

/-- The demoting constructor `WeakPtr(const SharedPtr<T>& other)`. -/
def WeakPtr.ctorDemote (other : Nat) (s : State) : State :=
  let this := s.weak.length
  let s := s.newW
  let s := s.setWBlock this (s.getS other).block_
  let s := s.setWPtr this (s.getS other).ptr_
  WeakPtr.PlusWeak this s

/-- The copy assignment `operator=(const WeakPtr&)`. -/
def WeakPtr.assignCopy (this other : Nat) (s : State) : State :=
  if (s.getW this).ptr_ ≠ (s.getW other).ptr_ then
    let s := WeakPtr.MinusWeak this s
    let s := s.setWPtr this (s.getW other).ptr_
    let s := s.setWBlock this (s.getW other).block_
    WeakPtr.PlusWeak this s
  else s

/-- The move assignments `operator=(WeakPtr&&)` and `operator=(WeakPtr<U>&&)`. -/
def WeakPtr.assignMove (this other : Nat) (s : State) : State :=
  let s := WeakPtr.MinusWeak this s
  let s := s.setWPtr this (s.getW other).ptr_
  let s := s.setWBlock this (s.getW other).block_
  let s := s.setWPtr other none
  s.setWBlock other none

/-- The destructor `~WeakPtr()`, followed by the end of the object. -/
def WeakPtr.dtor (this : Nat) (s : State) : State :=
  let s := WeakPtr.MinusWeak this s
  s.endW this

/-- The modifier `Reset()`. -/
def WeakPtr.Reset (this : Nat) (s : State) : State :=
  let s := WeakPtr.MinusWeak this s
  let s := s.setWPtr this none
  s.setWBlock this none

/-- The modifier `Swap(WeakPtr& other)`, that is `std::swap(*this, other)`. -/
def WeakPtr.Swap (this other : Nat) (s : State) : State :=
  let tmp := s.weak.length
  let s := WeakPtr.ctorMove this s
  let s := WeakPtr.assignMove this other s
  let s := WeakPtr.assignMove other tmp s
  WeakPtr.dtor tmp s

/-- The observer `UseCount()`. -/
def WeakPtr.UseCount (this : Nat) (s : State) : Nat :=
  match (s.getW this).block_ with
  | none => 0
  | some b => toSizeT (s.Strong b)

/-- The observer `Expired()`. -/
def WeakPtr.Expired (this : Nat) (s : State) : Bool :=
  if (s.getW this).block_ = none ∨ WeakPtr.UseCount this s = 0 then true else false

/-- The promoting constructor `SharedPtr(const WeakPtr<T>& other)`: it either completes, with
the new object at index `s.shared.length`, or throws `BadWeakPtr`, in which case no object has
been constructed and the state is the one before the call. -/
def SharedPtr.ctorPromote (other : Nat) (s : State) : Except BadWeakPtr State :=
  if ¬ (WeakPtr.Expired other s = true) then
    let this := s.shared.length
    let s := s.newS
    let s := s.setSPtr this (s.getW other).ptr_
    let s := s.setSBlock this (s.getW other).block_
    Except.ok (SharedPtr.PlusShared this s)
  else
    Except.error BadWeakPtr.mk

/-- The observer `Lock()`: the returned `SharedPtr` is the object at index `s.shared.length`. -/
def WeakPtr.Lock (this : Nat) (s : State) : Except BadWeakPtr State :=
  if WeakPtr.UseCount this s = 0 then
    Except.ok (SharedPtr.ctorDefault s)
  else
    SharedPtr.ctorPromote this s

/-! ### Programs: finite sequences of operations -/

/-- One operation of a client program.  Objects are named by their index in the store of their
kind; an operation that constructs an object places it at the next free index. -/
inductive Op where
  | sharedDefault
  | sharedRaw (ptr : Option Addr)
  | makeShared
  | sharedCopy (other : Nat)
  | sharedMove (other : Nat)
  | sharedAlias (other : Nat) (ptr : Option Addr)
  | sharedPromote (other : Nat)
  | sharedAssign (this other : Nat)
  | sharedMoveAssign (this other : Nat)
  | sharedDtor (this : Nat)
  | sharedReset (this : Nat)
  | sharedResetPtr (this : Nat) (ptr : Option Addr)
  | sharedSwap (this other : Nat)
  | weakDefault
  | weakCopy (other : Nat)
  | weakMove (other : Nat)
  | weakDemote (other : Nat)
  | weakAssign (this other : Nat)
  | weakMoveAssign (this other : Nat)
  | weakDtor (this : Nat)
  | weakReset (this : Nat)
  | weakSwap (this other : Nat)
  | weakLock (this : Nat)
  deriving DecidableEq, Repr

/-- Every object the operation names is alive.  A program may only name live objects (using a
destroyed object is undefined behaviour). -/
def Op.ready : Op → State → Bool
  | .sharedDefault, _ => true
  | .sharedRaw _, _ => true
  | .makeShared, _ => true
  | .sharedCopy o, s => s.liveS o
  | .sharedMove o, s => s.liveS o
  | .sharedAlias o _, s => s.liveS o
  | .sharedPromote o, s => s.liveW o
  | .sharedAssign t o, s => s.liveS t && s.liveS o
  | .sharedMoveAssign t o, s => s.liveS t && s.liveS o
  | .sharedDtor t, s => s.liveS t
  | .sharedReset t, s => s.liveS t
  | .sharedResetPtr t _, s => s.liveS t
  | .sharedSwap t o, s => s.liveS t && s.liveS o
  | .weakDefault, _ => true
  | .weakCopy o, s => s.liveW o
  | .weakMove o, s => s.liveW o
  | .weakDemote o, s => s.liveS o
  | .weakAssign t o, s => s.liveW t && s.liveW o
  | .weakMoveAssign t o, s => s.liveW t && s.liveW o
  | .weakDtor t, s => s.liveW t
  | .weakReset t, s => s.liveW t
  | .weakSwap t o, s => s.liveW t && s.liveW o
  | .weakLock t, s => s.liveW t

/-- The state after a call that may throw: a thrown `BadWeakPtr` is caught by the client and
leaves the state of before the call. -/
def orCaught (s : State) : Except BadWeakPtr State → State
  | .ok t => t
  | .error _ => s

/-- Runs one operation. -/
def Op.exec : Op → State → State
  | .sharedDefault, s => SharedPtr.ctorDefault s
  | .sharedRaw p, s => SharedPtr.ctorRaw p s
  | .makeShared, s => MakeShared s
  | .sharedCopy o, s => SharedPtr.ctorCopy o s
  | .sharedMove o, s => SharedPtr.ctorMove o s
  | .sharedAlias o p, s => SharedPtr.ctorAlias o p s
  | .sharedPromote o, s => orCaught s (SharedPtr.ctorPromote o s)
  | .sharedAssign t o, s => SharedPtr.assignCopy t o s
  | .sharedMoveAssign t o, s => SharedPtr.assignMove t o s
  | .sharedDtor t, s => SharedPtr.dtor t s
  | .sharedReset t, s => SharedPtr.Reset t s
  | .sharedResetPtr t p, s => SharedPtr.ResetPtr t p s
  | .sharedSwap t o, s => SharedPtr.Swap t o s
  | .weakDefault, s => WeakPtr.ctorDefault s
  | .weakCopy o, s => WeakPtr.ctorCopy o s
  | .weakMove o, s => WeakPtr.ctorMove o s
  | .weakDemote o, s => WeakPtr.ctorDemote o s
  | .weakAssign t o, s => WeakPtr.assignCopy t o s
  | .weakMoveAssign t o, s => WeakPtr.assignMove t o s
  | .weakDtor t, s => WeakPtr.dtor t s
  | .weakReset t, s => WeakPtr.Reset t s
  | .weakSwap t o, s => WeakPtr.Swap t o s
  | .weakLock t, s => orCaught s (WeakPtr.Lock t s)

/-- One step of a program: an operation that names a destroyed or never constructed object is
not part of any program and is skipped. -/
def step (s : State) (op : Op) : State :=
  if op.ready s then op.exec s else s

/-- Runs a program from state `s`. -/
def run (ops : List Op) (s : State) : State :=
  ops.foldl step s

/-! ### Counting handles, and the invariant of reachable states -/

/-- The slot holds a live `SharedPtr` whose `block_` is `b`. -/
def holdsS (b : BlockId) : Option SharedPtr → Bool
  | some h => decide (h.block_ = some b)
  | none => false

/-- The slot holds a live `WeakPtr` whose `block_` is `b`. -/
def holdsW (b : BlockId) : Option WeakPtr → Bool
  | some h => decide (h.block_ = some b)
  | none => false

/-- Number of live `SharedPtr` objects whose `block_` is `b`. -/
def State.countS (s : State) (b : BlockId) : Nat :=
  s.shared.countP (holdsS b)

/-- Number of live `WeakPtr` objects whose `block_` is `b`. -/
def State.countW (s : State) (b : BlockId) : Nat :=
  s.weak.countP (holdsW b)

/-- The object managed by block `b` has been released: `OnZeroStrong` was called on `b`. -/
def State.objectReleased (s : State) (b : BlockId) : Prop :=
  Event.OnZeroStrong b ∈ s.trace

/-- The block `b` has been released: `OnZeroWeak` was called on `b`. -/
def State.blockReleased (s : State) (b : BlockId) : Prop :=
  Event.OnZeroWeak b ∈ s.trace

/-- In the trace, every release of a block comes after the release of its object. -/
def objectFirst (tr : List Event) : Prop :=
  ∀ pre post b, tr = pre ++ Event.OnZeroWeak b :: post → Event.OnZeroStrong b ∈ pre

/-- The invariant kept by every operation: the counters of every block count the live handles
that point to it, the object of a block has been released exactly when its strong counter is
zero, the block itself exactly when both counters are zero, no hook is called twice on a block,
and the object goes first. -/
structure Inv (s : State) : Prop where
  strong_eq : ∀ b, s.Strong b = s.countS b
  weak_eq : ∀ b, s.Weak b = s.countW b
  obj_iff : ∀ b, Event.OnZeroStrong b ∈ s.trace ↔ (b < s.heap.length ∧ s.Strong b = 0)
  blk_iff : ∀ b, Event.OnZeroWeak b ∈ s.trace ↔
    (b < s.heap.length ∧ s.Strong b = 0 ∧ s.Weak b = 0)
  nodup : s.trace.Nodup
  ordered : objectFirst s.trace

/-- Every hook call recorded in `s` is still recorded in `t`: the trace only grows. -/
def State.keeps (s t : State) : Prop :=
  ∀ e, e ∈ s.trace → e ∈ t.trace

/-- Whether the object of a block has been released can be read off the trace. -/
instance decObjectReleased (s : State) (b : BlockId) : Decidable (s.objectReleased b) :=
  inferInstanceAs (Decidable (Event.OnZeroStrong b ∈ s.trace))

/-- Whether a block has been released can be read off the trace. -/
instance decBlockReleased (s : State) (b : BlockId) : Decidable (s.blockReleased b) :=
  inferInstanceAs (Decidable (Event.OnZeroWeak b ∈ s.trace))

/-- The members of a `SharedPtr` are paired: the observed address is null exactly when the
block is. -/
def pairedS (h : SharedPtr) : Prop :=
  h.ptr_ = none ↔ h.block_ = none

/-- The members of a `WeakPtr` are paired: the observed address is null exactly when the block
is. -/
def pairedW (h : WeakPtr) : Prop :=
  h.ptr_ = none ↔ h.block_ = none

/-- Every live handle of the state has paired members. -/
def State.Paired (s : State) : Prop :=
  (∀ h, some h ∈ s.shared → pairedS h) ∧ (∀ h, some h ∈ s.weak → pairedW h)

/-- The operation cannot unpair a handle: it wraps no null raw pointer (`SharedPtr(U*)`,
`Reset(U*)`), and an aliasing construction passes a null address exactly when its source has a
null block. -/
def Op.pairing : Op → State → Bool
  | .sharedRaw p, _ => p.isSome
  | .sharedResetPtr _ p, _ => p.isSome
  | .sharedAlias o p, s => p.isSome == (s.getS o).block_.isSome
  | _, _ => true

/-- Every operation of the program satisfies `Op.pairing` in the state it is run in. -/
def pairingRun : List Op → State → Bool
  | [], _ => true
  | op :: rest, s => op.pairing s && pairingRun rest (step s op)

/-- The operation is one of the `WeakPtr` operations other than `Lock`: construction (default,
copy, move, demotion), assignment (copy, move), destruction, `Reset` and `Swap`. -/
def Op.weakOnly : Op → Bool
  | .weakDefault => true
  | .weakCopy _ => true
  | .weakMove _ => true
  | .weakDemote _ => true
  | .weakAssign _ _ => true
  | .weakMoveAssign _ _ => true
  | .weakDtor _ => true
  | .weakReset _ => true
  | .weakSwap _ _ => true
  | _ => false

/-- From `s` to `t` no strong counter has changed and `OnZeroStrong` has not been called. -/
def State.sameStrong (s t : State) : Prop :=
  (∀ x, t.Strong x = s.Strong x) ∧
    (∀ x, Event.OnZeroStrong x ∈ t.trace → Event.OnZeroStrong x ∈ s.trace)

/-! ### Managed objects that hold handles

The definitions above take the destructor of the managed type `T` to run no `SharedPtr` or
`WeakPtr` code: `OnZeroStrong` is one step.  In `shared.h` the statement `delete ptr_` (and the
call `~T()` of the make-shared block) runs `~T` *inside* `MinusStrong`, and `~T` destroys the
`SharedPtr` and `WeakPtr` members of the object, which call `MinusStrong` and `MinusWeak` again,
possibly on the same block.  This section embeds `MinusStrong` and the `SharedPtr` methods that
call it for such managed types.

* `Members` lists, for the addresses of such objects, which handle objects are members of the
  object stored there.  The destructor `~T` is the implicit one: it destroys the members that
  are alive, in reverse order of declaration.
* A handle destroyed with its object is dead afterwards (its slot is `none`), like any other
  destroyed handle.
* As before `delete this` leaves the block in the heap list, with the counters it had: a read
  or write of a released block (undefined behaviour in C++) sees those values.
* The nesting of destructor calls is cut off by a fuel argument; `heap.length + 1` is
  enough (`MinusStrongFuel_stable`), and the functions without a fuel argument use that. -/

/-- A member of a managed object: the `SharedPtr` object `i` or the `WeakPtr` object `j`. -/
inductive Member where
  | shared (i : Nat)
  | weak (j : Nat)
  deriving DecidableEq, Repr

/-- The managed objects of a program: the addresses of the objects that have handle members,
each with its members in declaration order. -/
abbrev Members := List (Addr × List Member)

/-- The members of the object at address `a` (none when the object is not listed). -/
def Members.of : Members → Addr → List Member
  | [], _ => []
  | (a', ms) :: rest, a => if a = a' then ms else Members.of rest a

/-- The statement `--strong_;` of either control block. -/
def ControlBlockBase.decStrong : ControlBlockBase → ControlBlockBase
  | .pointer c => .pointer { c with strong_ := c.strong_ - 1 }
  | .makeShared c => .makeShared { c with strong_ := c.strong_ - 1 }

/-- What `OnZeroStrong` does to the block after the object is destroyed: `ptr_ = nullptr;` in
`ControlBlockPointer`; in `ControlBlockMakeShared` the storage no longer holds an object. -/
def ControlBlockBase.afterDestroy : ControlBlockBase → ControlBlockBase
  | .pointer c => .pointer { c with ptr_ := none }
  | .makeShared c => .makeShared { c with holder := false }

/-- The object `OnZeroStrong` destroys: `ptr_` of a `ControlBlockPointer` (`delete nullptr`
destroys nothing), the storage `holder` of a `ControlBlockMakeShared`. -/
def ControlBlockBase.managed (this : BlockId) : ControlBlockBase → Option Addr
  | .pointer c => c.ptr_
  | .makeShared _ => ControlBlockMakeShared.GetHolder this

/-- A write to the fields of the block at address `b`. -/
def State.update (s : State) (b : BlockId) (f : ControlBlockBase → ControlBlockBase) : State :=
  match s.heap[b]? with
  | some c => { s with heap := s.heap.set b (f c) }
  | none => s

/-- Records the call of a release hook. -/
def State.emit (s : State) (e : Event) : State :=
  { s with trace := s.trace ++ [e] }

/-- The destructor of one member, run by `~T()`: `~SharedPtr()` is `MinusShared()`, that is
`block_->MinusStrong()` when `block_` is not null, here the function `minusStrong`;
`~WeakPtr()` is `MinusWeak()`.  The member's lifetime ends with it.  A member that is not alive
(never constructed in this program) is skipped. -/
def Member.destroy (minusStrong : BlockId → State → State) (s : State) : Member → State
  | .shared i =>
    if s.liveS i = true then
      let s := match (s.getS i).block_ with
        | some b => minusStrong b s
        | none => s
      s.endS i
    else s
  | .weak j => if s.liveW j = true then WeakPtr.dtor j s else s

/-- The implicit destructor `~T()` of the object at `p`, as run by `delete ptr_` and by
`reinterpret_cast<T*>(&holder)->~T()`: the members are destroyed in reverse order of
declaration.  For `p = nullptr` nothing is destroyed. -/
def destroyT (M : Members) (minusStrong : BlockId → State → State) (p : Option Addr)
    (s : State) : State :=
  match p with
  | some a => (Members.of M a).reverse.foldl (Member.destroy minusStrong) s
  | none => s

/-- The hook `OnZeroStrong` of the block at address `this`, for both implementations:
`delete ptr_; ptr_ = nullptr;` and `reinterpret_cast<T*>(&holder)->~T();`.  The call is recorded
first, then `~T()` runs, then the block is written. -/
def State.OnZeroStrong (M : Members) (minusStrong : BlockId → State → State) (this : BlockId)
    (s : State) : State :=
  match s.heap[this]? with
  | some c =>
    let s := s.emit (Event.OnZeroStrong this)
    let s := destroyT M minusStrong (c.managed this) s
    s.update this ControlBlockBase.afterDestroy
  | none => s

/-- The hook `OnZeroWeak` of the block at address `this`: `delete this;`. -/
def State.OnZeroWeak (this : BlockId) (s : State) : State :=
  s.emit (Event.OnZeroWeak this)

/-- The statement `if (strong_ == 0) { OnZeroStrong(); }` of `MinusStrong`. -/
def State.ifZeroStrong (M : Members) (minusStrong : BlockId → State → State) (this : BlockId)
    (s : State) : State :=
  if s.Strong this = 0 then s.OnZeroStrong M minusStrong this else s

/-- The statement `if (strong_ == 0 && weak_ == 0) { OnZeroWeak(); }` of `MinusStrong`: the
counters are read as they are after `OnZeroStrong()` has returned. -/
def State.ifZeroBoth (this : BlockId) (s : State) : State :=
  if s.Strong this = 0 ∧ s.Weak this = 0 then s.OnZeroWeak this else s

/-- The virtual call `block->MinusStrong()` on the block at address `this`, the two bodies
being the same: `--strong_`, then the two tests in source order.  The destructor calls nested
inside `OnZeroStrong` get one unit of fuel less. -/
def MinusStrongFuel (M : Members) : Nat → BlockId → State → State
  | 0, _, s => s
  | fuel + 1, this, s =>
    match s.heap[this]? with
    | some _ =>
      let s := s.update this ControlBlockBase.decStrong
      let s := s.ifZeroStrong M (MinusStrongFuel M fuel) this
      s.ifZeroBoth this
    | none => s

/-- The virtual call `block->MinusStrong()` on the block at address `this`. -/
def State.MinusStrong (M : Members) (this : BlockId) (s : State) : State :=
  MinusStrongFuel M (s.heap.length + 1) this s

/-- Private `SharedPtr::MinusShared`. -/
def SharedPtr.MinusSharedT (M : Members) (this : Nat) (s : State) : State :=
  match (s.getS this).block_ with
  | some b => s.MinusStrong M b
  | none => s

/-- The copy assignment `operator=(const SharedPtr&)`.  When `MinusShared()` has destroyed
`other` (a member of the object just released), the code reads freed memory; here a dead
handle reads as null. -/
def SharedPtr.assignCopyT (M : Members) (this other : Nat) (s : State) : State :=
  if (s.getS this).ptr_ ≠ (s.getS other).ptr_ then
    let s := SharedPtr.MinusSharedT M this s
    let s := s.setSPtr this (s.getS other).ptr_
    let s := s.setSBlock this (s.getS other).block_
    SharedPtr.PlusShared this s
  else s

/-- The move assignments `operator=(SharedPtr&&)` and `operator=(SharedPtr<U>&&)`. -/
def SharedPtr.assignMoveT (M : Members) (this other : Nat) (s : State) : State :=
  let s := SharedPtr.MinusSharedT M this s
  let s := s.setSPtr this (s.getS other).ptr_
  let s := s.setSBlock this (s.getS other).block_
  let s := s.setSPtr other none
  s.setSBlock other none

/-- The destructor `~SharedPtr()`, followed by the end of the object. -/
def SharedPtr.dtorT (M : Members) (this : Nat) (s : State) : State :=
  let s := SharedPtr.MinusSharedT M this s
  s.endS this

/-- The modifier `Reset()`. -/
def SharedPtr.ResetT (M : Members) (this : Nat) (s : State) : State :=
  let s := SharedPtr.MinusSharedT M this s
  let s := s.setSPtr this none
  s.setSBlock this none

/-- The modifier `Reset(U* ptr)`. -/
def SharedPtr.ResetPtrT (M : Members) (this : Nat) (ptr : Option Addr) (s : State) : State :=
  let s := SharedPtr.MinusSharedT M this s
  let s := s.setSPtr this ptr
  let blk := s.heap.length
  let s := s.alloc (ControlBlockBase.pointer (ControlBlockPointer.new ptr))
  let s := s.setSBlock this (some blk)
  SharedPtr.PlusShared this s

/-- The modifier `Swap(SharedPtr& other)`, that is `std::swap(*this, other)`. -/
def SharedPtr.SwapT (M : Members) (this other : Nat) (s : State) : State :=
  let tmp := s.shared.length
  let s := SharedPtr.ctorMove this s
  let s := SharedPtr.assignMoveT M this other s
  let s := SharedPtr.assignMoveT M other tmp s
  SharedPtr.dtorT M tmp s

/-- Runs one operation of a program whose managed objects have the members `M`. -/
def Op.execT (M : Members) : Op → State → State
  | .sharedAssign t o, s => SharedPtr.assignCopyT M t o s
  | .sharedMoveAssign t o, s => SharedPtr.assignMoveT M t o s
  | .sharedDtor t, s => SharedPtr.dtorT M t s
  | .sharedReset t, s => SharedPtr.ResetT M t s
  | .sharedResetPtr t p, s => SharedPtr.ResetPtrT M t p s
  | .sharedSwap t o, s => SharedPtr.SwapT M t o s
  | op, s => op.exec s

/-- One step of such a program; an operation that names a dead object is skipped. -/
def stepT (M : Members) (s : State) (op : Op) : State :=
  if op.ready s then op.execT M s else s

/-- Runs such a program from state `s`. -/
def runT (M : Members) (ops : List Op) (s : State) : State :=
  ops.foldl (stepT M) s

/-- The block an event is about. -/
def Event.block : Event → BlockId
  | .OnZeroStrong b => b
  | .OnZeroWeak b => b

/-- The hook calls made so far on the block `b`, oldest first. -/
def State.about (s : State) (b : BlockId) : List Event :=
  s.trace.filter (fun e => decide (e.block = b))

/-- The member is alive and its `block_` is `b`. -/
def Member.refers (s : State) (b : BlockId) : Member → Bool
  | .shared i => s.liveS i && decide ((s.getS i).block_ = some b)
  | .weak j => s.liveW j && decide ((s.getW j).block_ = some b)

/-- No handle stored inside a managed object refers to the block `b`. -/
def Members.away (M : Members) (b : BlockId) (s : State) : Prop :=
  ∀ e ∈ M, ∀ m ∈ e.2, m.refers s b = false

/-- Whether a member handle refers to `b` can be computed. -/
instance decAway (M : Members) (b : BlockId) (s : State) : Decidable (M.away b s) :=
  inferInstanceAs (Decidable (∀ e ∈ M, ∀ m ∈ e.2, m.refers s b = false))

/-- Number of blocks whose strong counter is at least 1. -/
def State.owned (s : State) : Nat :=
  s.heap.countP (fun c => decide (1 ≤ c.Strong))

/-- From `s` to `t` only destructors have run: the stores keep their sizes, a handle that is
alive in `t` is the same handle in `s`, no strong counter has grown, and the trace has only
been extended. -/
structure State.Cascade (s t : State) : Prop where
  heap_len : t.heap.length = s.heap.length
  shared_len : t.shared.length = s.shared.length
  weak_len : t.weak.length = s.weak.length
  shared_of_live : ∀ i, t.liveS i = true → t.shared[i]? = s.shared[i]?
  weak_of_live : ∀ j, t.liveW j = true → t.weak[j]? = s.weak[j]?
  strong_le : ∀ x, t.Strong x ≤ s.Strong x
  trace_ext : ∃ l, t.trace = s.trace ++ l

/-- Example layout: the object at address 1 has one member, the `WeakPtr` object 0, as in
`struct Node { WeakPtr<Node> self; };`. -/
def selfObserver : Members :=
  [(Addr.raw 1, [Member.weak 0])]

/-- Example program for `selfObserver`: `Node* n = new Node;` (its member `self` is the
`WeakPtr` object 0), `SharedPtr<Node> p(n);`, `n->self = p;` (a temporary `WeakPtr` is
constructed from `p`, move-assigned to the member and destroyed). -/
def selfObserverProgram : List Op :=
  [Op.weakDefault, Op.sharedRaw (some (Addr.raw 1)), Op.weakDemote 0, Op.weakMoveAssign 0 1,
    Op.weakDtor 1]

/-- Example layout: two list nodes `struct Node { SharedPtr<Node> next; };` at the addresses 1
and 2, whose members `next` are the `SharedPtr` objects 0 and 1. -/
def listNodes : Members :=
  [(Addr.raw 1, [Member.shared 0]), (Addr.raw 2, [Member.shared 1])]

/-- Example program for `listNodes`: both nodes are created (members 0 and 1), `head` (object
2) wraps the first node, `c` (object 3) wraps the second, and `head->next = c;`. -/
def listProgram : List Op :=
  [Op.sharedDefault, Op.sharedDefault, Op.sharedRaw (some (Addr.raw 1)),
    Op.sharedRaw (some (Addr.raw 2)), Op.sharedAssign 0 3]

/-! ### UniquePtr (`unique_ptr/unique.h`, `unique_ptr/compressed_pair.h`)

The array specialisation `UniquePtr<T[], Deleter>` has the same bodies as the primary template
and is embedded once.  `UniquePtr` objects live in a store of their own, named by index, so that
`u = std::move(u)` can be expressed; every call `deleter(ptr)` is recorded, in call order. -/

/-- The class `CompressedPair<F, S>`: the two stored values (the empty-base specialisation of
`CompressedPairElement` changes the layout only). -/
structure CompressedPair (F S : Type) where
  first : F
  second : S
  deriving DecidableEq, Repr

/-- The accessor `GetFirst()`. -/
def CompressedPair.GetFirst {F S : Type} (p : CompressedPair F S) : F :=
  p.first

/-- The accessor `GetSecond()`. -/
def CompressedPair.GetSecond {F S : Type} (p : CompressedPair F S) : S :=
  p.second

/-- A deleter object, identified by its state; `Deleter()` is the default-constructed one. -/
structure Deleter where
  id : Nat
  deriving DecidableEq, Repr

/-- The expression `Deleter()`. -/
def Deleter.default : Deleter :=
  { id := 0 }

/-- One call `deleter(ptr)` of a deleter object on a pointer. -/
structure DeleterCall where
  deleter : Deleter
  ptr : Option Addr
  deriving DecidableEq, Repr

/-- A `UniquePtr<T, Deleter>` object: its member `ptr_`, the pair of the owned pointer (`none`
is `nullptr`) and the deleter. -/
structure UniquePtr where
  ptr_ : CompressedPair (Option Addr) Deleter
  deriving DecidableEq, Repr

/-- The state of a program using `UniquePtr`: the objects (`none`: destroyed) and the deleter
calls made so far (oldest first). -/
structure UState where
  unique : List (Option UniquePtr)
  calls : List DeleterCall
  deriving DecidableEq, Repr

/-- The state of a program that has not created anything yet. -/
def UState.init : UState :=
  { unique := [], calls := [] }

/-- The `UniquePtr` object `i` is alive (constructed and not yet destroyed). -/
def UState.liveU (s : UState) (i : Nat) : Bool :=
  match s.unique[i]? with
  | some (some _) => true
  | _ => false

/-- The members of the `UniquePtr` object `i`. -/
def UState.getU (s : UState) (i : Nat) : UniquePtr :=
  match s.unique[i]? with
  | some (some h) => h
  | _ => { ptr_ := { first := none, second := Deleter.default } }

/-- Overwrites the members of the `UniquePtr` object `i`. -/
def UState.setU (s : UState) (i : Nat) (h : UniquePtr) : UState :=
  { s with unique := s.unique.set i (some h) }

/-- The assignment `ptr_.GetFirst() = p;` inside the `UniquePtr` object `i`. -/
def UState.setFirst (s : UState) (i : Nat) (p : Option Addr) : UState :=
  s.setU i { ptr_ := { (s.getU i).ptr_ with first := p } }

/-- The assignment `ptr_.GetSecond() = d;` inside the `UniquePtr` object `i`. -/
def UState.setSecond (s : UState) (i : Nat) (d : Deleter) : UState :=
  s.setU i { ptr_ := { (s.getU i).ptr_ with second := d } }

/-- A new `UniquePtr` object at index `s.unique.length`, its member `ptr_` initialised with
`(p, d)`. -/
def UState.newU (s : UState) (p : Option Addr) (d : Deleter) : UState :=
  { s with unique := s.unique ++ [some { ptr_ := { first := p, second := d } }] }

/-- End of the lifetime of the `UniquePtr` object `i`. -/
def UState.endU (s : UState) (i : Nat) : UState :=
  { s with unique := s.unique.set i none }

/-- The call `d(p)` of a deleter. -/
def UState.call (s : UState) (d : Deleter) (p : Option Addr) : UState :=
  { s with calls := s.calls ++ [{ deleter := d, ptr := p }] }

/-- The observer `Get()`. -/
def UniquePtr.Get (this : Nat) (s : UState) : Option Addr :=
  (s.getU this).ptr_.GetFirst

/-- The observer `GetDeleter()`. -/
def UniquePtr.GetDeleter (this : Nat) (s : UState) : Deleter :=
  (s.getU this).ptr_.GetSecond

/-- The conversion `operator bool()`. -/
def UniquePtr.toBool (this : Nat) (s : UState) : Bool :=
  if (s.getU this).ptr_.GetFirst = none then false else true

/-- The modifier `Release()`: returns the old pointer and the new state. -/
def UniquePtr.Release (this : Nat) (s : UState) : Option Addr × UState :=
  let prev := (s.getU this).ptr_.GetFirst
  let s := s.setFirst this none
  (prev, s)

/-- The modifier `Reset(T* ptr = nullptr)`. -/
def UniquePtr.Reset (this : Nat) (ptr : Option Addr) (s : UState) : UState :=
  let prev := (s.getU this).ptr_.GetFirst
  let s := s.setFirst this ptr
  if prev ≠ none then s.call (s.getU this).ptr_.GetSecond prev else s

/-- The constructor `UniquePtr(T* ptr = nullptr)`; the object is created at index
`s.unique.length`. -/
def UniquePtr.ctor (ptr : Option Addr) (s : UState) : UState :=
  s.newU ptr Deleter.default

/-- The constructor `UniquePtr(T* ptr, Deleter deleter)`. -/
def UniquePtr.ctorDeleter (ptr : Option Addr) (deleter : Deleter) (s : UState) : UState :=
  s.newU ptr deleter

/-- The move constructors `UniquePtr(UniquePtr&&)` and `UniquePtr(UniquePtr<U, E>&&)`: `ptr_`
is initialised with `other.Release()` and the deleter of `other`. -/
def UniquePtr.ctorMove (other : Nat) (s : UState) : UState :=
  let r := UniquePtr.Release other s
  r.2.newU r.1 (UniquePtr.GetDeleter other r.2)

/-- The move assignments `operator=(UniquePtr&&)` and `operator=(UniquePtr<U, E>&&)`:
`Reset(other.Release())`, then the deleter of `other` is assigned. -/
def UniquePtr.assignMove (this other : Nat) (s : UState) : UState :=
  let r := UniquePtr.Release other s
  let s := UniquePtr.Reset this r.1 r.2
  s.setSecond this (UniquePtr.GetDeleter other s)

/-- The assignment `operator=(std::nullptr_t)`. -/
def UniquePtr.assignNull (this : Nat) (s : UState) : UState :=
  UniquePtr.Reset this none s

/-- The destructor `~UniquePtr()`, followed by the end of the object. -/
def UniquePtr.dtor (this : Nat) (s : UState) : UState :=
  let s := UniquePtr.Reset this none s
  s.endU this

/-- The modifier `Swap(UniquePtr& other)`, that is `std::swap(*this, other)`. -/
def UniquePtr.Swap (this other : Nat) (s : UState) : UState :=
  let tmp := s.unique.length
  let s := UniquePtr.ctorMove this s
  let s := UniquePtr.assignMove this other s
  let s := UniquePtr.assignMove other tmp s
  UniquePtr.dtor tmp s

/-! ## Theorems -/

/-! ### The control-block methods -/

theorem toSizeT_natCast (n : Nat) : toSizeT (n : Int) = n := by
  simp [toSizeT]

theorem toSizeT_eq_zero (v : Int) (h : -2147483648 ≤ v) : toSizeT v = 0 ↔ v = 0 := by
  unfold toSizeT
  split_ifs with h0
  · omega
  · constructor
    · intro h1
      have : v % 18446744073709551616 = v + 18446744073709551616 := by omega
      omega
    · intro h1; omega

theorem strong_MinusStrong (b : BlockId) (c : ControlBlockBase) :
    (c.MinusStrong b).1.Strong = c.Strong - 1 := by
  cases c <;>
    simp only [ControlBlockBase.MinusStrong, ControlBlockBase.Strong,
      ControlBlockPointer.MinusStrong, ControlBlockPointer.OnZeroStrong,
      ControlBlockPointer.OnZeroWeak, ControlBlockMakeShared.MinusStrong,
      ControlBlockMakeShared.OnZeroStrong, ControlBlockMakeShared.OnZeroWeak] <;>
    split_ifs <;> rfl

theorem weak_MinusStrong (b : BlockId) (c : ControlBlockBase) :
    (c.MinusStrong b).1.Weak = c.Weak := by
  cases c <;>
    simp only [ControlBlockBase.MinusStrong, ControlBlockBase.Weak,
      ControlBlockPointer.MinusStrong, ControlBlockPointer.OnZeroStrong,
      ControlBlockPointer.OnZeroWeak, ControlBlockMakeShared.MinusStrong,
      ControlBlockMakeShared.OnZeroStrong, ControlBlockMakeShared.OnZeroWeak] <;>
    split_ifs <;> rfl

theorem events_MinusStrong (b : BlockId) (c : ControlBlockBase) :
    (c.MinusStrong b).2 =
      (if c.Strong - 1 = 0 then [Event.OnZeroStrong b] else []) ++
      (if c.Strong - 1 = 0 ∧ c.Weak = 0 then [Event.OnZeroWeak b] else []) := by
  cases c <;>
    simp only [ControlBlockBase.MinusStrong, ControlBlockBase.Strong, ControlBlockBase.Weak,
      ControlBlockPointer.MinusStrong, ControlBlockPointer.OnZeroStrong,
      ControlBlockPointer.OnZeroWeak, ControlBlockMakeShared.MinusStrong,
      ControlBlockMakeShared.OnZeroStrong, ControlBlockMakeShared.OnZeroWeak] <;>
    split_ifs <;> simp_all

theorem strong_PlusStrong (b : BlockId) (c : ControlBlockBase) :
    (c.PlusStrong b).1.Strong = c.Strong + 1 := by
  cases c <;> rfl

theorem weak_PlusStrong (b : BlockId) (c : ControlBlockBase) :
    (c.PlusStrong b).1.Weak = c.Weak := by
  cases c <;> rfl

theorem events_PlusStrong (b : BlockId) (c : ControlBlockBase) :
    (c.PlusStrong b).2 = [] := by
  cases c <;> rfl

theorem strong_PlusWeak (b : BlockId) (c : ControlBlockBase) :
    (c.PlusWeak b).1.Strong = c.Strong := by
  cases c <;> rfl

theorem weak_PlusWeak (b : BlockId) (c : ControlBlockBase) :
    (c.PlusWeak b).1.Weak = c.Weak + 1 := by
  cases c <;> rfl

theorem events_PlusWeak (b : BlockId) (c : ControlBlockBase) :
    (c.PlusWeak b).2 = [] := by
  cases c <;> rfl

theorem strong_MinusWeak (b : BlockId) (c : ControlBlockBase) :
    (c.MinusWeak b).1.Strong = c.Strong := by
  cases c <;>
    simp only [ControlBlockBase.MinusWeak, ControlBlockBase.Strong,
      ControlBlockPointer.MinusWeak, ControlBlockPointer.OnZeroWeak,
      ControlBlockMakeShared.MinusWeak, ControlBlockMakeShared.OnZeroWeak] <;>
    split_ifs <;> rfl

theorem weak_MinusWeak (b : BlockId) (c : ControlBlockBase) :
    (c.MinusWeak b).1.Weak = c.Weak - 1 := by
  cases c <;>
    simp only [ControlBlockBase.MinusWeak, ControlBlockBase.Weak,
      ControlBlockPointer.MinusWeak, ControlBlockPointer.OnZeroWeak,
      ControlBlockMakeShared.MinusWeak, ControlBlockMakeShared.OnZeroWeak] <;>
    split_ifs <;> rfl

theorem events_MinusWeak (b : BlockId) (c : ControlBlockBase) :
    (c.MinusWeak b).2 =
      if c.Strong = 0 ∧ c.Weak - 1 = 0 then [Event.OnZeroWeak b] else [] := by
  cases c <;>
    simp only [ControlBlockBase.MinusWeak, ControlBlockBase.Strong, ControlBlockBase.Weak,
      ControlBlockPointer.MinusWeak, ControlBlockPointer.OnZeroWeak,
      ControlBlockMakeShared.MinusWeak, ControlBlockMakeShared.OnZeroWeak] <;>
    split_ifs <;> simp_all

/-- The one-step `MinusStrong` of the block alone (the destructor of the managed object runs no
handle code): with strong counter `s ≥ 1` and weak counter `w` it leaves the strong counter at
`s - 1` (still non-negative) and the weak counter at `w`; the hooks it calls are, in order:
`OnZeroStrong` then `OnZeroWeak` when `s - 1 = 0` and `w = 0`, `OnZeroStrong` alone when
`s - 1 = 0` and `w ≠ 0`, and none when `s - 1 ≠ 0`.  The same holds for `ControlBlockPointer`
and for `ControlBlockMakeShared`. -/
theorem MinusStrong_plain (this : BlockId) (p : ControlBlockPointer) (m : ControlBlockMakeShared)
    (hp : 1 ≤ p.strong_) (hm : 1 ≤ m.strong_) :
    ((p.MinusStrong this).1.strong_ = p.strong_ - 1 ∧ 0 ≤ (p.MinusStrong this).1.strong_ ∧
      (p.MinusStrong this).1.weak_ = p.weak_ ∧
      (p.MinusStrong this).2 =
        (if p.strong_ - 1 = 0 then
          (if p.weak_ = 0 then [Event.OnZeroStrong this, Event.OnZeroWeak this]
            else [Event.OnZeroStrong this])
          else [])) ∧
    ((m.MinusStrong this).1.strong_ = m.strong_ - 1 ∧ 0 ≤ (m.MinusStrong this).1.strong_ ∧
      (m.MinusStrong this).1.weak_ = m.weak_ ∧
      (m.MinusStrong this).2 =
        (if m.strong_ - 1 = 0 then
          (if m.weak_ = 0 then [Event.OnZeroStrong this, Event.OnZeroWeak this]
            else [Event.OnZeroStrong this])
          else [])) := by
  have e1 : (p.MinusStrong this).1.strong_ = p.strong_ - 1 := by
    simp only [ControlBlockPointer.MinusStrong, ControlBlockPointer.OnZeroStrong,
      ControlBlockPointer.OnZeroWeak]
    split_ifs <;> rfl
  have e2 : (m.MinusStrong this).1.strong_ = m.strong_ - 1 := by
    simp only [ControlBlockMakeShared.MinusStrong, ControlBlockMakeShared.OnZeroStrong,
      ControlBlockMakeShared.OnZeroWeak]
    split_ifs <;> rfl
  refine ⟨⟨e1, by rw [e1]; omega, ?_, ?_⟩, ⟨e2, by rw [e2]; omega, ?_, ?_⟩⟩
  · simp only [ControlBlockPointer.MinusStrong, ControlBlockPointer.OnZeroStrong,
      ControlBlockPointer.OnZeroWeak]
    split_ifs <;> rfl
  · simp only [ControlBlockPointer.MinusStrong, ControlBlockPointer.OnZeroStrong,
      ControlBlockPointer.OnZeroWeak]
    split_ifs <;> simp_all
  · simp only [ControlBlockMakeShared.MinusStrong, ControlBlockMakeShared.OnZeroStrong,
      ControlBlockMakeShared.OnZeroWeak]
    split_ifs <;> rfl
  · simp only [ControlBlockMakeShared.MinusStrong, ControlBlockMakeShared.OnZeroStrong,
      ControlBlockMakeShared.OnZeroWeak]
    split_ifs <;> simp_all

/-- C4: `MinusWeak` leaves the weak counter at `w - 1` (non-negative when `w ≥ 1`) and the
strong counter at `s`; it calls `OnZeroWeak` exactly when `w - 1 = 0` and `s = 0`, and never
`OnZeroStrong`.  `PlusStrong` and `PlusWeak`, on every block (also one whose counters are both
zero), add one to their own counter, keep every other field and call no hook.  The same holds
for `ControlBlockPointer` and for `ControlBlockMakeShared`. -/
theorem C4_MinusWeak_Plus (this : BlockId) (p : ControlBlockPointer)
    (m : ControlBlockMakeShared) :
    ((p.MinusWeak this).1.weak_ = p.weak_ - 1 ∧
      (1 ≤ p.weak_ → 0 ≤ (p.MinusWeak this).1.weak_) ∧
      (p.MinusWeak this).1.strong_ = p.strong_ ∧
      (p.MinusWeak this).2 =
        (if p.weak_ - 1 = 0 ∧ p.strong_ = 0 then [Event.OnZeroWeak this] else []) ∧
      Event.OnZeroStrong this ∉ (p.MinusWeak this).2) ∧
    ((m.MinusWeak this).1.weak_ = m.weak_ - 1 ∧
      (1 ≤ m.weak_ → 0 ≤ (m.MinusWeak this).1.weak_) ∧
      (m.MinusWeak this).1.strong_ = m.strong_ ∧
      (m.MinusWeak this).2 =
        (if m.weak_ - 1 = 0 ∧ m.strong_ = 0 then [Event.OnZeroWeak this] else []) ∧
      Event.OnZeroStrong this ∉ (m.MinusWeak this).2) ∧
    (p.PlusStrong this = ({ p with strong_ := p.strong_ + 1 }, []) ∧
      p.PlusWeak this = ({ p with weak_ := p.weak_ + 1 }, [])) ∧
    (m.PlusStrong this = ({ m with strong_ := m.strong_ + 1 }, []) ∧
      m.PlusWeak this = ({ m with weak_ := m.weak_ + 1 }, [])) := by
  have e1 : (p.MinusWeak this).1.weak_ = p.weak_ - 1 := by
    simp only [ControlBlockPointer.MinusWeak, ControlBlockPointer.OnZeroWeak]
    split_ifs <;> rfl
  have e2 : (m.MinusWeak this).1.weak_ = m.weak_ - 1 := by
    simp only [ControlBlockMakeShared.MinusWeak, ControlBlockMakeShared.OnZeroWeak]
    split_ifs <;> rfl
  have e3 : (p.MinusWeak this).2 =
      (if p.weak_ - 1 = 0 ∧ p.strong_ = 0 then [Event.OnZeroWeak this] else []) := by
    simp only [ControlBlockPointer.MinusWeak, ControlBlockPointer.OnZeroWeak]
    split_ifs <;> simp_all
  have e4 : (m.MinusWeak this).2 =
      (if m.weak_ - 1 = 0 ∧ m.strong_ = 0 then [Event.OnZeroWeak this] else []) := by
    simp only [ControlBlockMakeShared.MinusWeak, ControlBlockMakeShared.OnZeroWeak]
    split_ifs <;> simp_all
  refine ⟨⟨e1, fun hp => by rw [e1]; omega, ?_, e3, ?_⟩,
    ⟨e2, fun hm => by rw [e2]; omega, ?_, e4, ?_⟩, ⟨rfl, rfl⟩, ⟨rfl, rfl⟩⟩
  · simp only [ControlBlockPointer.MinusWeak, ControlBlockPointer.OnZeroWeak]
    split_ifs <;> rfl
  · rw [e3]; split_ifs <;> simp
  · simp only [ControlBlockMakeShared.MinusWeak, ControlBlockMakeShared.OnZeroWeak]
    split_ifs <;> rfl
  · rw [e4]; split_ifs <;> simp

/-- C4 on fresh blocks (both counters zero): `PlusWeak` makes the weak counter 1 and
`PlusStrong` the strong counter 1, with no hook; `MinusWeak` at the last weak reference of a
block whose object is gone releases the block, and leaves a non-negative counter. -/
theorem C4_MinusWeak_Plus_witness :
    ((ControlBlockPointer.new (some (Addr.raw 7))).PlusWeak 3 =
      ({ strong_ := 0, weak_ := 1, ptr_ := some (Addr.raw 7) }, [])) ∧
    (ControlBlockMakeShared.new.PlusStrong 3 =
      ({ strong_ := 1, weak_ := 0, holder := true }, [])) ∧
    ((ControlBlockPointer.mk 0 1 none).MinusWeak 3).2 = [Event.OnZeroWeak 3] ∧
    0 ≤ ((ControlBlockPointer.mk 0 1 none).MinusWeak 3).1.weak_ :=
  ⟨(C4_MinusWeak_Plus 3 (ControlBlockPointer.new (some (Addr.raw 7)))
      ControlBlockMakeShared.new).2.2.1.2,
    (C4_MinusWeak_Plus 3 (ControlBlockPointer.new (some (Addr.raw 7)))
      ControlBlockMakeShared.new).2.2.2.1,
    (C4_MinusWeak_Plus 3 (ControlBlockPointer.mk 0 1 none)
      (ControlBlockMakeShared.mk 2 1 true)).1.2.2.2.1,
    (C4_MinusWeak_Plus 3 (ControlBlockPointer.mk 0 1 none)
      (ControlBlockMakeShared.mk 2 1 true)).1.2.1 (by decide)⟩

/-! ### Stores and heap: what each primitive changes -/

theorem countP_set_int {α : Type} (p : α → Bool) (l : List α) (i : Nat) (a : α)
    (h : i < l.length) :
    ((l.set i a).countP p : Int) =
      l.countP p - (if p l[i] = true then 1 else 0) + (if p a = true then 1 else 0) := by
  have h1 := List.countP_set p l i a h
  have h2 : (if p l[i] = true then 1 else 0) ≤ l.countP p := by
    split_ifs with hp
    · exact List.countP_pos_iff.mpr ⟨l[i], List.getElem_mem h, hp⟩
    · omega
  rw [h1]
  split_ifs at h2 ⊢ <;> omega

theorem liveS_iff (s : State) (i : Nat) :
    s.liveS i = true ↔ ∃ h, s.shared[i]? = some (some h) := by
  unfold State.liveS
  split <;> simp_all

theorem liveW_iff (s : State) (i : Nat) :
    s.liveW i = true ↔ ∃ h, s.weak[i]? = some (some h) := by
  unfold State.liveW
  split <;> simp_all

theorem liveS_get {s : State} {i : Nat} (h : s.liveS i = true) :
    s.shared[i]? = some (some (s.getS i)) := by
  obtain ⟨x, hx⟩ := (liveS_iff s i).mp h
  simp [State.getS, hx]

theorem liveW_get {s : State} {i : Nat} (h : s.liveW i = true) :
    s.weak[i]? = some (some (s.getW i)) := by
  obtain ⟨x, hx⟩ := (liveW_iff s i).mp h
  simp [State.getW, hx]

theorem liveS_lt {s : State} {i : Nat} (h : s.liveS i = true) : i < s.shared.length := by
  have := liveS_get h
  exact (List.getElem?_eq_some_iff.mp this).1

theorem liveW_lt {s : State} {i : Nat} (h : s.liveW i = true) : i < s.weak.length := by
  have := liveW_get h
  exact (List.getElem?_eq_some_iff.mp this).1

theorem countS_pos {s : State} {i : Nat} {b : BlockId} (h : s.liveS i = true)
    (hb : (s.getS i).block_ = some b) : 1 ≤ s.countS b := by
  have hg := liveS_get h
  have hm : some (s.getS i) ∈ s.shared := List.getElem?_mem hg
  exact List.countP_pos_iff.mpr ⟨_, hm, by simp [holdsS, hb]⟩

theorem countW_pos {s : State} {i : Nat} {b : BlockId} (h : s.liveW i = true)
    (hb : (s.getW i).block_ = some b) : 1 ≤ s.countW b := by
  have hg := liveW_get h
  have hm : some (s.getW i) ∈ s.weak := List.getElem?_mem hg
  exact List.countP_pos_iff.mpr ⟨_, hm, by simp [holdsW, hb]⟩

theorem countS_setS {s : State} {i : Nat} (h : s.liveS i = true) (x : SharedPtr)
    (b : BlockId) :
    ((s.setS i x).countS b : Int) =
      s.countS b - (if (s.getS i).block_ = some b then 1 else 0) +
        (if x.block_ = some b then 1 else 0) := by
  have hlt := liveS_lt h
  have hg := liveS_get h
  have hi : s.shared[i] = some (s.getS i) := by
    have := List.getElem?_eq_getElem hlt
    rw [this] at hg
    exact Option.some.inj hg
  simp only [State.countS, State.setS]
  rw [countP_set_int _ _ _ _ hlt, hi]
  simp [holdsS]

theorem countW_setW {s : State} {i : Nat} (h : s.liveW i = true) (x : WeakPtr)
    (b : BlockId) :
    ((s.setW i x).countW b : Int) =
      s.countW b - (if (s.getW i).block_ = some b then 1 else 0) +
        (if x.block_ = some b then 1 else 0) := by
  have hlt := liveW_lt h
  have hg := liveW_get h
  have hi : s.weak[i] = some (s.getW i) := by
    have := List.getElem?_eq_getElem hlt
    rw [this] at hg
    exact Option.some.inj hg
  simp only [State.countW, State.setW]
  rw [countP_set_int _ _ _ _ hlt, hi]
  simp [holdsW]

theorem countS_endS {s : State} {i : Nat} (h : s.liveS i = true) (b : BlockId) :
    ((s.endS i).countS b : Int) =
      s.countS b - (if (s.getS i).block_ = some b then 1 else 0) := by
  have hlt := liveS_lt h
  have hg := liveS_get h
  have hi : s.shared[i] = some (s.getS i) := by
    have := List.getElem?_eq_getElem hlt
    rw [this] at hg
    exact Option.some.inj hg
  simp only [State.countS, State.endS]
  rw [countP_set_int _ _ _ _ hlt, hi]
  simp [holdsS]

theorem countW_endW {s : State} {i : Nat} (h : s.liveW i = true) (b : BlockId) :
    ((s.endW i).countW b : Int) =
      s.countW b - (if (s.getW i).block_ = some b then 1 else 0) := by
  have hlt := liveW_lt h
  have hg := liveW_get h
  have hi : s.weak[i] = some (s.getW i) := by
    have := List.getElem?_eq_getElem hlt
    rw [this] at hg
    exact Option.some.inj hg
  simp only [State.countW, State.endW]
  rw [countP_set_int _ _ _ _ hlt, hi]
  simp [holdsW]

theorem countS_newS (s : State) (b : BlockId) : s.newS.countS b = s.countS b := by
  simp [State.countS, State.newS, holdsS]

theorem countW_newW (s : State) (b : BlockId) : s.newW.countW b = s.countW b := by
  simp [State.countW, State.newW, holdsW]

theorem getS_setS {s : State} {i : Nat} (h : i < s.shared.length) (x : SharedPtr) (j : Nat) :
    (s.setS i x).getS j = if j = i then x else s.getS j := by
  unfold State.getS State.setS
  by_cases hji : j = i
  · subst hji; simp [h]
  · simp [hji, List.getElem?_set_ne (Ne.symm hji)]

theorem getW_setW {s : State} {i : Nat} (h : i < s.weak.length) (x : WeakPtr) (j : Nat) :
    (s.setW i x).getW j = if j = i then x else s.getW j := by
  unfold State.getW State.setW
  by_cases hji : j = i
  · subst hji; simp [h]
  · simp [hji, List.getElem?_set_ne (Ne.symm hji)]

theorem liveS_setS {s : State} {i : Nat} (h : s.liveS i = true) (x : SharedPtr) (j : Nat) :
    (s.setS i x).liveS j = s.liveS j := by
  have hlt := liveS_lt h
  by_cases hji : j = i
  · subst hji
    rw [h]; simp [State.liveS, State.setS, hlt]
  · simp [State.liveS, State.setS, List.getElem?_set_ne (Ne.symm hji)]

theorem liveW_setW {s : State} {i : Nat} (h : s.liveW i = true) (x : WeakPtr) (j : Nat) :
    (s.setW i x).liveW j = s.liveW j := by
  have hlt := liveW_lt h
  by_cases hji : j = i
  · subst hji
    rw [h]; simp [State.liveW, State.setW, hlt]
  · simp [State.liveW, State.setW, List.getElem?_set_ne (Ne.symm hji)]

theorem getS_newS (s : State) (j : Nat) : s.newS.getS j = s.getS j := by
  unfold State.getS State.newS
  rcases Nat.lt_trichotomy j s.shared.length with h | h | h
  · simp [List.getElem?_append_left h]
  · subst h; simp
  · have h1 : s.shared.length ≤ j := by omega
    have h2 : s.shared[j]? = none := List.getElem?_eq_none h1
    have h3 : (s.shared ++ [some ({ block_ := none, ptr_ := none } : SharedPtr)])[j]? = none :=
      List.getElem?_eq_none (by simp; omega)
    simp [h2, h3]

theorem getW_newW (s : State) (j : Nat) : s.newW.getW j = s.getW j := by
  unfold State.getW State.newW
  rcases Nat.lt_trichotomy j s.weak.length with h | h | h
  · simp [List.getElem?_append_left h]
  · subst h; simp
  · have h1 : s.weak.length ≤ j := by omega
    have h2 : s.weak[j]? = none := List.getElem?_eq_none h1
    have h3 : (s.weak ++ [some ({ block_ := none, ptr_ := none } : WeakPtr)])[j]? = none :=
      List.getElem?_eq_none (by simp; omega)
    simp [h2, h3]

theorem liveS_newS_self (s : State) : s.newS.liveS s.shared.length = true := by
  simp [State.liveS, State.newS]

theorem liveW_newW_self (s : State) : s.newW.liveW s.weak.length = true := by
  simp [State.liveW, State.newW]

theorem liveS_newS {s : State} {j : Nat} (h : s.liveS j = true) : s.newS.liveS j = true := by
  have hlt := liveS_lt h
  have hg := liveS_get h
  simp [State.liveS, State.newS, List.getElem?_append_left hlt, hg]

theorem liveW_newW {s : State} {j : Nat} (h : s.liveW j = true) : s.newW.liveW j = true := by
  have hlt := liveW_lt h
  have hg := liveW_get h
  simp [State.liveW, State.newW, List.getElem?_append_left hlt, hg]


/-! ### Frame lemmas: the parts of the state a primitive does not touch -/

@[simp]
theorem heap_setS (s : State) (i : Nat) (x : SharedPtr) : (s.setS i x).heap = s.heap := rfl

@[simp]
theorem trace_setS (s : State) (i : Nat) (x : SharedPtr) : (s.setS i x).trace = s.trace := rfl

@[simp]
theorem weak_setS (s : State) (i : Nat) (x : SharedPtr) : (s.setS i x).weak = s.weak := rfl

@[simp]
theorem Strong_setS (s : State) (i : Nat) (x : SharedPtr) (b : BlockId) : (s.setS i x).Strong b = s.Strong b := rfl

@[simp]
theorem Weak_setS (s : State) (i : Nat) (x : SharedPtr) (b : BlockId) : (s.setS i x).Weak b = s.Weak b := rfl

@[simp]
theorem countW_setS (s : State) (i : Nat) (x : SharedPtr) (b : BlockId) : (s.setS i x).countW b = s.countW b := rfl

@[simp]
theorem getW_setS (s : State) (i : Nat) (x : SharedPtr) (j : Nat) : (s.setS i x).getW j = s.getW j := rfl

@[simp]
theorem liveW_setS (s : State) (i : Nat) (x : SharedPtr) (j : Nat) : (s.setS i x).liveW j = s.liveW j := rfl

@[simp]
theorem heap_newS (s : State) : (s.newS).heap = s.heap := rfl

@[simp]
theorem trace_newS (s : State) : (s.newS).trace = s.trace := rfl

@[simp]
theorem weak_newS (s : State) : (s.newS).weak = s.weak := rfl

@[simp]
theorem Strong_newS (s : State) (b : BlockId) : (s.newS).Strong b = s.Strong b := rfl

@[simp]
theorem Weak_newS (s : State) (b : BlockId) : (s.newS).Weak b = s.Weak b := rfl

@[simp]
theorem countW_newS (s : State) (b : BlockId) : (s.newS).countW b = s.countW b := rfl

@[simp]
theorem getW_newS (s : State) (j : Nat) : (s.newS).getW j = s.getW j := rfl

@[simp]
theorem liveW_newS (s : State) (j : Nat) : (s.newS).liveW j = s.liveW j := rfl

@[simp]
theorem heap_endS (s : State) (i : Nat) : (s.endS i).heap = s.heap := rfl

@[simp]
theorem trace_endS (s : State) (i : Nat) : (s.endS i).trace = s.trace := rfl

@[simp]
theorem weak_endS (s : State) (i : Nat) : (s.endS i).weak = s.weak := rfl

@[simp]
theorem Strong_endS (s : State) (i : Nat) (b : BlockId) : (s.endS i).Strong b = s.Strong b := rfl

@[simp]
theorem Weak_endS (s : State) (i : Nat) (b : BlockId) : (s.endS i).Weak b = s.Weak b := rfl

@[simp]
theorem countW_endS (s : State) (i : Nat) (b : BlockId) : (s.endS i).countW b = s.countW b := rfl

@[simp]
theorem getW_endS (s : State) (i : Nat) (j : Nat) : (s.endS i).getW j = s.getW j := rfl

@[simp]
theorem liveW_endS (s : State) (i : Nat) (j : Nat) : (s.endS i).liveW j = s.liveW j := rfl

@[simp]
theorem heap_setW (s : State) (i : Nat) (x : WeakPtr) : (s.setW i x).heap = s.heap := rfl

@[simp]
theorem trace_setW (s : State) (i : Nat) (x : WeakPtr) : (s.setW i x).trace = s.trace := rfl

@[simp]
theorem shared_setW (s : State) (i : Nat) (x : WeakPtr) : (s.setW i x).shared = s.shared := rfl

@[simp]
theorem Strong_setW (s : State) (i : Nat) (x : WeakPtr) (b : BlockId) : (s.setW i x).Strong b = s.Strong b := rfl

@[simp]
theorem Weak_setW (s : State) (i : Nat) (x : WeakPtr) (b : BlockId) : (s.setW i x).Weak b = s.Weak b := rfl

@[simp]
theorem countS_setW (s : State) (i : Nat) (x : WeakPtr) (b : BlockId) : (s.setW i x).countS b = s.countS b := rfl

@[simp]
theorem getS_setW (s : State) (i : Nat) (x : WeakPtr) (j : Nat) : (s.setW i x).getS j = s.getS j := rfl

@[simp]
theorem liveS_setW (s : State) (i : Nat) (x : WeakPtr) (j : Nat) : (s.setW i x).liveS j = s.liveS j := rfl

@[simp]
theorem heap_newW (s : State) : (s.newW).heap = s.heap := rfl

@[simp]
theorem trace_newW (s : State) : (s.newW).trace = s.trace := rfl

@[simp]
theorem shared_newW (s : State) : (s.newW).shared = s.shared := rfl

@[simp]
theorem Strong_newW (s : State) (b : BlockId) : (s.newW).Strong b = s.Strong b := rfl

@[simp]
theorem Weak_newW (s : State) (b : BlockId) : (s.newW).Weak b = s.Weak b := rfl

@[simp]
theorem countS_newW (s : State) (b : BlockId) : (s.newW).countS b = s.countS b := rfl

@[simp]
theorem getS_newW (s : State) (j : Nat) : (s.newW).getS j = s.getS j := rfl

@[simp]
theorem liveS_newW (s : State) (j : Nat) : (s.newW).liveS j = s.liveS j := rfl

@[simp]
theorem heap_endW (s : State) (i : Nat) : (s.endW i).heap = s.heap := rfl

@[simp]
theorem trace_endW (s : State) (i : Nat) : (s.endW i).trace = s.trace := rfl

@[simp]
theorem shared_endW (s : State) (i : Nat) : (s.endW i).shared = s.shared := rfl

@[simp]
theorem Strong_endW (s : State) (i : Nat) (b : BlockId) : (s.endW i).Strong b = s.Strong b := rfl

@[simp]
theorem Weak_endW (s : State) (i : Nat) (b : BlockId) : (s.endW i).Weak b = s.Weak b := rfl

@[simp]
theorem countS_endW (s : State) (i : Nat) (b : BlockId) : (s.endW i).countS b = s.countS b := rfl

@[simp]
theorem getS_endW (s : State) (i : Nat) (j : Nat) : (s.endW i).getS j = s.getS j := rfl

@[simp]
theorem liveS_endW (s : State) (i : Nat) (j : Nat) : (s.endW i).liveS j = s.liveS j := rfl

@[simp]
theorem trace_alloc (s : State) (c : ControlBlockBase) : (s.alloc c).trace = s.trace := rfl

@[simp]
theorem shared_alloc (s : State) (c : ControlBlockBase) : (s.alloc c).shared = s.shared := rfl

@[simp]
theorem weak_alloc (s : State) (c : ControlBlockBase) : (s.alloc c).weak = s.weak := rfl

@[simp]
theorem countS_alloc (s : State) (c : ControlBlockBase) (b : BlockId) : (s.alloc c).countS b = s.countS b := rfl

@[simp]
theorem countW_alloc (s : State) (c : ControlBlockBase) (b : BlockId) : (s.alloc c).countW b = s.countW b := rfl

@[simp]
theorem getS_alloc (s : State) (c : ControlBlockBase) (j : Nat) : (s.alloc c).getS j = s.getS j := rfl

@[simp]
theorem getW_alloc (s : State) (c : ControlBlockBase) (j : Nat) : (s.alloc c).getW j = s.getW j := rfl

@[simp]
theorem liveS_alloc (s : State) (c : ControlBlockBase) (j : Nat) : (s.alloc c).liveS j = s.liveS j := rfl

@[simp]
theorem liveW_alloc (s : State) (c : ControlBlockBase) (j : Nat) : (s.alloc c).liveW j = s.liveW j := rfl

@[simp]
theorem shared_invoke (s : State) (a : BlockId) (m : BlockId → ControlBlockBase → ControlBlockBase × List Event) :
    (s.invoke a m).shared = s.shared := by
  unfold State.invoke; split <;> rfl

@[simp]
theorem weak_invoke (s : State) (a : BlockId) (m : BlockId → ControlBlockBase → ControlBlockBase × List Event) :
    (s.invoke a m).weak = s.weak := by
  unfold State.invoke; split <;> rfl

@[simp]
theorem countS_invoke (s : State) (a : BlockId) (m : BlockId → ControlBlockBase → ControlBlockBase × List Event) (b : BlockId) :
    (s.invoke a m).countS b = s.countS b := by
  unfold State.invoke; split <;> rfl

@[simp]
theorem countW_invoke (s : State) (a : BlockId) (m : BlockId → ControlBlockBase → ControlBlockBase × List Event) (b : BlockId) :
    (s.invoke a m).countW b = s.countW b := by
  unfold State.invoke; split <;> rfl

@[simp]
theorem getS_invoke (s : State) (a : BlockId) (m : BlockId → ControlBlockBase → ControlBlockBase × List Event) (j : Nat) :
    (s.invoke a m).getS j = s.getS j := by
  unfold State.invoke; split <;> rfl

@[simp]
theorem getW_invoke (s : State) (a : BlockId) (m : BlockId → ControlBlockBase → ControlBlockBase × List Event) (j : Nat) :
    (s.invoke a m).getW j = s.getW j := by
  unfold State.invoke; split <;> rfl

@[simp]
theorem liveS_invoke (s : State) (a : BlockId) (m : BlockId → ControlBlockBase → ControlBlockBase × List Event) (j : Nat) :
    (s.invoke a m).liveS j = s.liveS j := by
  unfold State.invoke; split <;> rfl

@[simp]
theorem liveW_invoke (s : State) (a : BlockId) (m : BlockId → ControlBlockBase → ControlBlockBase × List Event) (j : Nat) :
    (s.invoke a m).liveW j = s.liveW j := by
  unfold State.invoke; split <;> rfl


/-! ### Heap lemmas: what a call on a block, or an allocation, changes -/

@[simp]
theorem length_invoke (s : State) (a : BlockId)
    (m : BlockId → ControlBlockBase → ControlBlockBase × List Event) :
    (s.invoke a m).heap.length = s.heap.length := by
  unfold State.invoke; split <;> simp

theorem Strong_eq_zero_of_le {s : State} {b : BlockId} (h : s.heap.length ≤ b) :
    s.Strong b = 0 := by
  simp [State.Strong, List.getElem?_eq_none h]

theorem Weak_eq_zero_of_le {s : State} {b : BlockId} (h : s.heap.length ≤ b) :
    s.Weak b = 0 := by
  simp [State.Weak, List.getElem?_eq_none h]

theorem lt_of_Strong_ne {s : State} {b : BlockId} (h : s.Strong b ≠ 0) : b < s.heap.length := by
  by_contra hc
  exact h (Strong_eq_zero_of_le (Nat.le_of_not_lt hc))

theorem lt_of_Weak_ne {s : State} {b : BlockId} (h : s.Weak b ≠ 0) : b < s.heap.length := by
  by_contra hc
  exact h (Weak_eq_zero_of_le (Nat.le_of_not_lt hc))

theorem Strong_invoke {s : State} {a : BlockId} (ha : a < s.heap.length)
    (m : BlockId → ControlBlockBase → ControlBlockBase × List Event) (b : BlockId) :
    (s.invoke a m).Strong b = if b = a then (m a s.heap[a]).1.Strong else s.Strong b := by
  unfold State.invoke State.Strong
  rw [List.getElem?_eq_getElem ha]
  by_cases hb : b = a
  · subst hb; simp [ha]
  · simp [hb, List.getElem?_set_ne (Ne.symm hb)]

theorem Weak_invoke {s : State} {a : BlockId} (ha : a < s.heap.length)
    (m : BlockId → ControlBlockBase → ControlBlockBase × List Event) (b : BlockId) :
    (s.invoke a m).Weak b = if b = a then (m a s.heap[a]).1.Weak else s.Weak b := by
  unfold State.invoke State.Weak
  rw [List.getElem?_eq_getElem ha]
  by_cases hb : b = a
  · subst hb; simp [ha]
  · simp [hb, List.getElem?_set_ne (Ne.symm hb)]

theorem trace_invoke {s : State} {a : BlockId} (ha : a < s.heap.length)
    (m : BlockId → ControlBlockBase → ControlBlockBase × List Event) :
    (s.invoke a m).trace = s.trace ++ (m a s.heap[a]).2 := by
  unfold State.invoke
  rw [List.getElem?_eq_getElem ha]

theorem invoke_of_le {s : State} {a : BlockId} (ha : s.heap.length ≤ a)
    (m : BlockId → ControlBlockBase → ControlBlockBase × List Event) :
    s.invoke a m = s := by
  unfold State.invoke
  rw [List.getElem?_eq_none ha]

theorem Strong_get {s : State} {a : BlockId} (ha : a < s.heap.length) :
    s.heap[a].Strong = s.Strong a := by
  simp [State.Strong, List.getElem?_eq_getElem ha]

theorem Weak_get {s : State} {a : BlockId} (ha : a < s.heap.length) :
    s.heap[a].Weak = s.Weak a := by
  simp [State.Weak, List.getElem?_eq_getElem ha]

theorem Strong_PlusStrong (s : State) (a b : BlockId) (ha : a < s.heap.length) :
    (s.invoke a ControlBlockBase.PlusStrong).Strong b =
      s.Strong b + (if b = a then 1 else 0) := by
  rw [Strong_invoke ha, strong_PlusStrong, Strong_get ha]
  split_ifs with h
  · subst h; rfl
  · simp

theorem Weak_PlusStrong (s : State) (a b : BlockId) :
    (s.invoke a ControlBlockBase.PlusStrong).Weak b = s.Weak b := by
  rcases Nat.lt_or_ge a s.heap.length with ha | ha
  · rw [Weak_invoke ha, weak_PlusStrong, Weak_get ha]
    split_ifs with h
    · subst h; rfl
    · rfl
  · rw [invoke_of_le ha]

theorem trace_PlusStrong (s : State) (a : BlockId) :
    (s.invoke a ControlBlockBase.PlusStrong).trace = s.trace := by
  rcases Nat.lt_or_ge a s.heap.length with ha | ha
  · rw [trace_invoke ha, events_PlusStrong]; simp
  · rw [invoke_of_le ha]

theorem Strong_PlusWeak (s : State) (a b : BlockId) :
    (s.invoke a ControlBlockBase.PlusWeak).Strong b = s.Strong b := by
  rcases Nat.lt_or_ge a s.heap.length with ha | ha
  · rw [Strong_invoke ha, strong_PlusWeak, Strong_get ha]
    split_ifs with h
    · subst h; rfl
    · rfl
  · rw [invoke_of_le ha]

theorem Weak_PlusWeak (s : State) (a b : BlockId) (ha : a < s.heap.length) :
    (s.invoke a ControlBlockBase.PlusWeak).Weak b = s.Weak b + (if b = a then 1 else 0) := by
  rw [Weak_invoke ha, weak_PlusWeak, Weak_get ha]
  split_ifs with h
  · subst h; rfl
  · simp

theorem trace_PlusWeak (s : State) (a : BlockId) :
    (s.invoke a ControlBlockBase.PlusWeak).trace = s.trace := by
  rcases Nat.lt_or_ge a s.heap.length with ha | ha
  · rw [trace_invoke ha, events_PlusWeak]; simp
  · rw [invoke_of_le ha]

theorem Strong_MinusStrong (s : State) (a b : BlockId) (ha : a < s.heap.length) :
    (s.invoke a ControlBlockBase.MinusStrong).Strong b =
      s.Strong b - (if b = a then 1 else 0) := by
  rw [Strong_invoke ha, strong_MinusStrong, Strong_get ha]
  split_ifs with h
  · subst h; rfl
  · simp

theorem Weak_MinusStrong (s : State) (a b : BlockId) :
    (s.invoke a ControlBlockBase.MinusStrong).Weak b = s.Weak b := by
  rcases Nat.lt_or_ge a s.heap.length with ha | ha
  · rw [Weak_invoke ha, weak_MinusStrong, Weak_get ha]
    split_ifs with h
    · subst h; rfl
    · rfl
  · rw [invoke_of_le ha]

theorem trace_MinusStrong (s : State) (a : BlockId) (ha : a < s.heap.length) :
    (s.invoke a ControlBlockBase.MinusStrong).trace =
      s.trace ++ ((if s.Strong a - 1 = 0 then [Event.OnZeroStrong a] else []) ++
        (if s.Strong a - 1 = 0 ∧ s.Weak a = 0 then [Event.OnZeroWeak a] else [])) := by
  rw [trace_invoke ha, events_MinusStrong, Strong_get ha, Weak_get ha]

theorem Strong_MinusWeak (s : State) (a b : BlockId) :
    (s.invoke a ControlBlockBase.MinusWeak).Strong b = s.Strong b := by
  rcases Nat.lt_or_ge a s.heap.length with ha | ha
  · rw [Strong_invoke ha, strong_MinusWeak, Strong_get ha]
    split_ifs with h
    · subst h; rfl
    · rfl
  · rw [invoke_of_le ha]

theorem Weak_MinusWeak (s : State) (a b : BlockId) (ha : a < s.heap.length) :
    (s.invoke a ControlBlockBase.MinusWeak).Weak b = s.Weak b - (if b = a then 1 else 0) := by
  rw [Weak_invoke ha, weak_MinusWeak, Weak_get ha]
  split_ifs with h
  · subst h; rfl
  · simp

theorem trace_MinusWeak (s : State) (a : BlockId) (ha : a < s.heap.length) :
    (s.invoke a ControlBlockBase.MinusWeak).trace =
      s.trace ++ (if s.Strong a = 0 ∧ s.Weak a - 1 = 0 then [Event.OnZeroWeak a] else []) := by
  rw [trace_invoke ha, events_MinusWeak, Strong_get ha, Weak_get ha]

@[simp]
theorem length_alloc (s : State) (c : ControlBlockBase) :
    (s.alloc c).heap.length = s.heap.length + 1 := by
  simp [State.alloc]

theorem Strong_alloc (s : State) (c : ControlBlockBase) (b : BlockId) :
    (s.alloc c).Strong b = if b = s.heap.length then c.Strong else s.Strong b := by
  unfold State.alloc State.Strong
  rcases Nat.lt_trichotomy b s.heap.length with h | h | h
  · simp [List.getElem?_append_left h, Nat.ne_of_lt h]
  · subst h; simp
  · have h1 : (s.heap ++ [c])[b]? = none := List.getElem?_eq_none (by simp; omega)
    have h2 : s.heap[b]? = none := List.getElem?_eq_none (by omega)
    simp [h1, h2, Nat.ne_of_gt h]

theorem Weak_alloc (s : State) (c : ControlBlockBase) (b : BlockId) :
    (s.alloc c).Weak b = if b = s.heap.length then c.Weak else s.Weak b := by
  unfold State.alloc State.Weak
  rcases Nat.lt_trichotomy b s.heap.length with h | h | h
  · simp [List.getElem?_append_left h, Nat.ne_of_lt h]
  · subst h; simp
  · have h1 : (s.heap ++ [c])[b]? = none := List.getElem?_eq_none (by simp; omega)
    have h2 : s.heap[b]? = none := List.getElem?_eq_none (by omega)
    simp [h1, h2, Nat.ne_of_gt h]

/-! ### Preservation of the invariant by the building blocks of the operations -/

theorem objectFirst_nil : objectFirst [] := by
  intro pre post b h
  simp at h

theorem objectFirst_snoc {tr : List Event} {e : Event} (h : objectFirst tr)
    (he : ∀ b, e = Event.OnZeroWeak b → Event.OnZeroStrong b ∈ tr) :
    objectFirst (tr ++ [e]) := by
  intro pre post b hsplit
  rcases List.eq_nil_or_concat post with hp | ⟨post1, x, hp⟩
  · subst hp
    have h1 : tr ++ [e] = pre ++ [Event.OnZeroWeak b] := hsplit
    have h2 := List.append_inj' h1 rfl
    have h3 : e = Event.OnZeroWeak b := by simpa using h2.2
    rw [← h2.1]
    exact he b h3
  · subst hp
    have h1 : tr ++ [e] = (pre ++ Event.OnZeroWeak b :: post1) ++ [x] := by
      rw [hsplit]; simp
    have h2 := List.append_inj' h1 rfl
    exact h pre post1 b h2.1

theorem inv_init : Inv State.init := by
  refine ⟨?_, ?_, ?_, ?_, ?_, ?_⟩
  · intro b; simp [State.init, State.Strong, State.countS]
  · intro b; simp [State.init, State.Weak, State.countW]
  · intro b; simp [State.init]
  · intro b; simp [State.init]
  · simp [State.init]
  · exact objectFirst_nil

/-- A change of state that calls no hook keeps the invariant if the counters still count the
handles, no counter of an existing block moves from or to zero in a way that would need a hook,
and every new block has an owner. -/
theorem inv_quiet {s t : State} (hs : Inv s) (htr : t.trace = s.trace)
    (hlen : s.heap.length ≤ t.heap.length)
    (hS : ∀ b, t.Strong b = t.countS b) (hW : ∀ b, t.Weak b = t.countW b)
    (hz : ∀ b, b < s.heap.length → (t.Strong b = 0 ↔ s.Strong b = 0))
    (hzw : ∀ b, b < s.heap.length → s.Strong b = 0 → (t.Weak b = 0 ↔ s.Weak b = 0))
    (hnew : ∀ b, s.heap.length ≤ b → b < t.heap.length → t.Strong b ≠ 0) : Inv t := by
  refine ⟨hS, hW, ?_, ?_, ?_, ?_⟩
  · intro b
    rw [htr, hs.obj_iff]
    constructor
    · rintro ⟨h1, h2⟩
      exact ⟨Nat.lt_of_lt_of_le h1 hlen, (hz b h1).mpr h2⟩
    · rintro ⟨h1, h2⟩
      rcases Nat.lt_or_ge b s.heap.length with h | h
      · exact ⟨h, (hz b h).mp h2⟩
      · exact absurd h2 (hnew b h h1)
  · intro b
    rw [htr, hs.blk_iff]
    constructor
    · rintro ⟨h1, h2, h3⟩
      exact ⟨Nat.lt_of_lt_of_le h1 hlen, (hz b h1).mpr h2, (hzw b h1 h2).mpr h3⟩
    · rintro ⟨h1, h2, h3⟩
      rcases Nat.lt_or_ge b s.heap.length with h | h
      · have h4 := (hz b h).mp h2
        exact ⟨h, h4, (hzw b h h4).mp h3⟩
      · exact absurd h2 (hnew b h h1)
  · rw [htr]; exact hs.nodup
  · rw [htr]; exact hs.ordered

theorem inv_newS {s : State} (hs : Inv s) : Inv s.newS := by
  refine inv_quiet hs rfl (Nat.le_refl _) ?_ ?_ ?_ ?_ ?_
  · intro b; simp [countS_newS, hs.strong_eq]
  · intro b; simp [hs.weak_eq]
  · intro b _; simp
  · intro b _ _; simp
  · intro b h1 h2; simp at h2; omega

theorem inv_newW {s : State} (hs : Inv s) : Inv s.newW := by
  refine inv_quiet hs rfl (Nat.le_refl _) ?_ ?_ ?_ ?_ ?_
  · intro b; simp [hs.strong_eq]
  · intro b; simp [countW_newW, hs.weak_eq]
  · intro b _; simp
  · intro b _ _; simp
  · intro b h1 h2; simp at h2; omega

theorem inv_endS {s : State} {i : Nat} (hs : Inv s) (hl : s.liveS i = true)
    (hb : (s.getS i).block_ = none) : Inv (s.endS i) := by
  refine inv_quiet hs rfl (Nat.le_refl _) ?_ ?_ ?_ ?_ ?_
  · intro b; rw [countS_endS hl]; simp [hb, hs.strong_eq]
  · intro b; simp [hs.weak_eq]
  · intro b _; simp
  · intro b _ _; simp
  · intro b h1 h2; simp at h2; omega

theorem inv_endW {s : State} {i : Nat} (hs : Inv s) (hl : s.liveW i = true)
    (hb : (s.getW i).block_ = none) : Inv (s.endW i) := by
  refine inv_quiet hs rfl (Nat.le_refl _) ?_ ?_ ?_ ?_ ?_
  · intro b; simp [hs.strong_eq]
  · intro b; rw [countW_endW hl]; simp [hb, hs.weak_eq]
  · intro b _; simp
  · intro b _ _; simp
  · intro b h1 h2; simp at h2; omega

/-- Rebinding an empty `SharedPtr` to nothing (only `ptr_` may change). -/
theorem inv_setS_none {s : State} {i : Nat} (hs : Inv s) (hl : s.liveS i = true)
    (hb : (s.getS i).block_ = none) (p : Option Addr) :
    Inv (s.setS i { block_ := none, ptr_ := p }) := by
  refine inv_quiet hs rfl (Nat.le_refl _) ?_ ?_ ?_ ?_ ?_
  · intro b; rw [countS_setS hl]; simp [hb, hs.strong_eq]
  · intro b; simp [hs.weak_eq]
  · intro b _; simp
  · intro b _ _; simp
  · intro b h1 h2; simp at h2; omega

theorem inv_setW_none {s : State} {i : Nat} (hs : Inv s) (hl : s.liveW i = true)
    (hb : (s.getW i).block_ = none) (p : Option Addr) :
    Inv (s.setW i { block_ := none, ptr_ := p }) := by
  refine inv_quiet hs rfl (Nat.le_refl _) ?_ ?_ ?_ ?_ ?_
  · intro b; simp [hs.strong_eq]
  · intro b; rw [countW_setW hl]; simp [hb, hs.weak_eq]
  · intro b _; simp
  · intro b _ _; simp
  · intro b h1 h2; simp at h2; omega

/-- An empty `SharedPtr` takes a share of a block that still has an owner. -/
theorem inv_acquireS {s : State} {i : Nat} (hs : Inv s) (hl : s.liveS i = true)
    (hb : (s.getS i).block_ = none) (a : BlockId) (p : Option Addr) (ha : 1 ≤ s.Strong a) :
    Inv ((s.setS i { block_ := some a, ptr_ := p }).invoke a ControlBlockBase.PlusStrong) := by
  have hlt : a < s.heap.length := lt_of_Strong_ne (by omega)
  refine inv_quiet hs ?_ ?_ ?_ ?_ ?_ ?_ ?_
  · rw [trace_PlusStrong]; rfl
  · simp
  · intro b
    rw [Strong_PlusStrong _ _ _ (by simpa using hlt), countS_invoke, countS_setS hl]
    simp only [Strong_setS, hb, hs.strong_eq]
    by_cases e : b = a
    · subst e; simp
    · have e2 : ¬ (a = b) := fun h => e h.symm
      simp [e, e2]
  · intro b
    rw [Weak_PlusStrong, countW_invoke]
    simp [hs.weak_eq]
  · intro b _
    rw [Strong_PlusStrong _ _ _ (by simpa using hlt)]
    simp only [Strong_setS]
    split_ifs with h
    · subst h; constructor <;> intro h1 <;> omega
    · simp
  · intro b _ _
    rw [Weak_PlusStrong]; simp
  · intro b h1 h2
    simp at h2; omega

/-- An empty `WeakPtr` starts observing a block that has an owner or another observer. -/
theorem inv_acquireW {s : State} {i : Nat} (hs : Inv s) (hl : s.liveW i = true)
    (hb : (s.getW i).block_ = none) (a : BlockId) (p : Option Addr)
    (ha : 1 ≤ s.Strong a ∨ 1 ≤ s.Weak a) :
    Inv ((s.setW i { block_ := some a, ptr_ := p }).invoke a ControlBlockBase.PlusWeak) := by
  have hlt : a < s.heap.length := by
    rcases ha with h | h
    · exact lt_of_Strong_ne (by omega)
    · exact lt_of_Weak_ne (by omega)
  have hw0 : 0 ≤ s.Weak a := by rw [hs.weak_eq]; omega
  refine inv_quiet hs ?_ ?_ ?_ ?_ ?_ ?_ ?_
  · rw [trace_PlusWeak]; rfl
  · simp
  · intro b
    rw [Strong_PlusWeak, countS_invoke]
    simp [hs.strong_eq]
  · intro b
    rw [Weak_PlusWeak _ _ _ (by simpa using hlt), countW_invoke, countW_setW hl]
    simp only [Weak_setW, hb, hs.weak_eq]
    by_cases e : b = a
    · subst e; simp
    · have e2 : ¬ (a = b) := fun h => e h.symm
      simp [e, e2]
  · intro b _
    rw [Strong_PlusWeak]; simp
  · intro b _ h0
    rw [Weak_PlusWeak _ _ _ (by simpa using hlt)]
    simp only [Weak_setW]
    split_ifs with h
    · subst h; constructor <;> intro h1 <;> omega
    · simp
  · intro b h1 h2
    simp at h2; omega

/-- An empty `SharedPtr` `i` takes over the members of `j`, which is left empty. -/
theorem inv_transferS {s : State} {i j : Nat} (hs : Inv s) (hi : s.liveS i = true)
    (hj : s.liveS j = true) (hb : (s.getS i).block_ = none) :
    Inv ((s.setS i (s.getS j)).setS j { block_ := none, ptr_ := none }) := by
  have hj2 : (s.setS i (s.getS j)).liveS j = true := by rw [liveS_setS hi]; exact hj
  have hg : (s.setS i (s.getS j)).getS j = s.getS j := by
    rw [getS_setS (liveS_lt hi)]; split_ifs <;> rfl
  refine inv_quiet hs rfl (Nat.le_refl _) ?_ ?_ ?_ ?_ ?_
  · intro b
    rw [countS_setS hj2, hg, countS_setS hi]
    simp [hb, hs.strong_eq]
  · intro b; simp [hs.weak_eq]
  · intro b _; simp
  · intro b _ _; simp
  · intro b h1 h2; simp at h2; omega

/-- An empty `WeakPtr` `i` takes over the members of `j`, which is left empty. -/
theorem inv_transferW {s : State} {i j : Nat} (hs : Inv s) (hi : s.liveW i = true)
    (hj : s.liveW j = true) (hb : (s.getW i).block_ = none) :
    Inv ((s.setW i (s.getW j)).setW j { block_ := none, ptr_ := none }) := by
  have hj2 : (s.setW i (s.getW j)).liveW j = true := by rw [liveW_setW hi]; exact hj
  have hg : (s.setW i (s.getW j)).getW j = s.getW j := by
    rw [getW_setW (liveW_lt hi)]; split_ifs <;> rfl
  refine inv_quiet hs rfl (Nat.le_refl _) ?_ ?_ ?_ ?_ ?_
  · intro b; simp [hs.strong_eq]
  · intro b
    rw [countW_setW hj2, hg, countW_setW hi]
    simp [hb, hs.weak_eq]
  · intro b _; simp
  · intro b _ _; simp
  · intro b h1 h2; simp at h2; omega

/-- An empty `SharedPtr` becomes the first owner of a freshly allocated block. -/
theorem inv_freshS {s : State} {i : Nat} (hs : Inv s) (hl : s.liveS i = true)
    (hb : (s.getS i).block_ = none) (c : ControlBlockBase) (hc : c.Strong = 0)
    (hcw : c.Weak = 0) (p : Option Addr) :
    Inv (((s.alloc c).setS i { block_ := some s.heap.length, ptr_ := p }).invoke
      s.heap.length ControlBlockBase.PlusStrong) := by
  have hl2 : (s.alloc c).liveS i = true := hl
  have hlt : s.heap.length < ((s.alloc c).setS i
      { block_ := some s.heap.length, ptr_ := p }).heap.length := by simp
  have hS0 : s.Strong s.heap.length = 0 := Strong_eq_zero_of_le (Nat.le_refl _)
  have hW0 : s.Weak s.heap.length = 0 := Weak_eq_zero_of_le (Nat.le_refl _)
  refine inv_quiet hs ?_ ?_ ?_ ?_ ?_ ?_ ?_
  · rw [trace_PlusStrong]; rfl
  · simp
  · intro b
    rw [Strong_PlusStrong _ _ _ hlt, countS_invoke, countS_setS hl2]
    simp only [Strong_setS, Strong_alloc, countS_alloc, getS_alloc, hb]
    by_cases e : b = s.heap.length
    · subst e
      have := hs.strong_eq s.heap.length
      rw [hS0] at this
      simp [hc, ← this]
    · have e2 : ¬ (s.heap.length = b) := fun h => e h.symm
      simp [e, e2, hs.strong_eq]
  · intro b
    rw [Weak_PlusStrong, countW_invoke]
    simp only [Weak_setS, Weak_alloc, countW_setS, countW_alloc]
    by_cases e : b = s.heap.length
    · subst e
      rw [← hs.weak_eq, hW0]; simp [hcw]
    · simp [e, hs.weak_eq]
  · intro b hb1
    rw [Strong_PlusStrong _ _ _ hlt]
    simp only [Strong_setS, Strong_alloc]
    have e : b ≠ s.heap.length := Nat.ne_of_lt hb1
    simp [e]
  · intro b hb1 _
    rw [Weak_PlusStrong]
    simp only [Weak_setS, Weak_alloc]
    have e : b ≠ s.heap.length := Nat.ne_of_lt hb1
    simp [e]
  · intro b h1 h2
    have e : b = s.heap.length := by
      simp at h2
      exact Nat.le_antisymm (Nat.le_of_lt_succ h2) h1
    subst e
    rw [Strong_PlusStrong _ _ _ hlt]
    simp [Strong_alloc, hc]

/-- A `SharedPtr` gives up its share: `MinusStrong` on its block, then the handle is empty. -/
theorem inv_dropS {s : State} {i : Nat} (hs : Inv s) (hl : s.liveS i = true) (a : BlockId)
    (hb : (s.getS i).block_ = some a) :
    Inv ((s.invoke a ControlBlockBase.MinusStrong).setS i { block_ := none, ptr_ := none }) := by
  have hpos : 1 ≤ s.Strong a := by
    rw [hs.strong_eq]; exact_mod_cast countS_pos hl hb
  have hlt : a < s.heap.length := lt_of_Strong_ne (by omega)
  have hw0 : 0 ≤ s.Weak a := by rw [hs.weak_eq]; omega
  have hl2 : (s.invoke a ControlBlockBase.MinusStrong).liveS i = true := by
    rw [liveS_invoke]; exact hl
  have hnS : Event.OnZeroStrong a ∉ s.trace := by
    rw [hs.obj_iff]; rintro ⟨_, h⟩; omega
  have hnW : Event.OnZeroWeak a ∉ s.trace := by
    rw [hs.blk_iff]; rintro ⟨_, h, _⟩; omega
  have hStrong : ∀ b, ((s.invoke a ControlBlockBase.MinusStrong).setS i
      { block_ := none, ptr_ := none }).Strong b = s.Strong b - (if b = a then 1 else 0) := by
    intro b; rw [Strong_setS, Strong_MinusStrong _ _ _ hlt]
  have hWeak : ∀ b, ((s.invoke a ControlBlockBase.MinusStrong).setS i
      { block_ := none, ptr_ := none }).Weak b = s.Weak b := by
    intro b; rw [Weak_setS, Weak_MinusStrong]
  have hTrace : ((s.invoke a ControlBlockBase.MinusStrong).setS i
      { block_ := none, ptr_ := none }).trace =
      s.trace ++ ((if s.Strong a - 1 = 0 then [Event.OnZeroStrong a] else []) ++
        (if s.Strong a - 1 = 0 ∧ s.Weak a = 0 then [Event.OnZeroWeak a] else [])) := by
    rw [trace_setS, trace_MinusStrong _ _ hlt]
  have hLen : ((s.invoke a ControlBlockBase.MinusStrong).setS i
      { block_ := none, ptr_ := none }).heap.length = s.heap.length := by simp
  refine ⟨?_, ?_, ?_, ?_, ?_, ?_⟩
  · intro b
    rw [hStrong, countS_setS hl2, getS_invoke, countS_invoke, hb, hs.strong_eq]
    by_cases e : b = a
    · subst e; simp
    · have e2 : ¬ (a = b) := fun h => e h.symm
      simp [e, e2]
  · intro b
    rw [hWeak, countW_setS, countW_invoke, hs.weak_eq]
  · intro b
    rw [hTrace, hStrong, hLen]
    by_cases e : b = a
    · subst e
      by_cases h1 : s.Strong b - 1 = 0
      · simp [h1, hlt]
      · by_cases h2 : s.Weak b = 0 <;> simp [h1, h2, hnS]
    · have e2 : ¬ (a = b) := fun h => e h.symm
      have := hs.obj_iff b
      split_ifs <;> simp [e, e2, this]
  · intro b
    rw [hTrace, hStrong, hWeak, hLen]
    by_cases e : b = a
    · subst e
      by_cases h1 : s.Strong b - 1 = 0
      · by_cases h2 : s.Weak b = 0 <;> simp [h1, h2, hnW, hlt]
      · simp [h1, hnW]
    · have e2 : ¬ (a = b) := fun h => e h.symm
      have := hs.blk_iff b
      split_ifs <;> simp [e, e2, this]
  · rw [hTrace]
    have := hs.nodup
    split_ifs <;> simp_all [List.nodup_append]
  · rw [hTrace]
    by_cases h1 : s.Strong a - 1 = 0
    · by_cases h2 : s.Weak a = 0
      · simp only [h1, h2, and_self, if_true]
        have e : s.trace ++ ([Event.OnZeroStrong a] ++ [Event.OnZeroWeak a]) =
            (s.trace ++ [Event.OnZeroStrong a]) ++ [Event.OnZeroWeak a] := by simp
        rw [e]
        apply objectFirst_snoc
        · apply objectFirst_snoc hs.ordered
          intro b hb; cases hb
        · intro b hb
          cases hb
          simp
      · simp only [h1, h2, and_false, if_true, if_false, List.append_nil]
        apply objectFirst_snoc hs.ordered
        intro b hb; cases hb
    · simp only [h1, false_and, if_false, List.append_nil]
      exact hs.ordered

/-- A `WeakPtr` stops observing: `MinusWeak` on its block, then the handle is empty. -/
theorem inv_dropW {s : State} {i : Nat} (hs : Inv s) (hl : s.liveW i = true) (a : BlockId)
    (hb : (s.getW i).block_ = some a) :
    Inv ((s.invoke a ControlBlockBase.MinusWeak).setW i { block_ := none, ptr_ := none }) := by
  have hpos : 1 ≤ s.Weak a := by
    rw [hs.weak_eq]; exact_mod_cast countW_pos hl hb
  have hlt : a < s.heap.length := lt_of_Weak_ne (by omega)
  have hs0 : 0 ≤ s.Strong a := by rw [hs.strong_eq]; omega
  have hl2 : (s.invoke a ControlBlockBase.MinusWeak).liveW i = true := by
    rw [liveW_invoke]; exact hl
  have hnW : Event.OnZeroWeak a ∉ s.trace := by
    rw [hs.blk_iff]; rintro ⟨_, _, h⟩; omega
  have hStrong : ∀ b, ((s.invoke a ControlBlockBase.MinusWeak).setW i
      { block_ := none, ptr_ := none }).Strong b = s.Strong b := by
    intro b; rw [Strong_setW, Strong_MinusWeak]
  have hWeak : ∀ b, ((s.invoke a ControlBlockBase.MinusWeak).setW i
      { block_ := none, ptr_ := none }).Weak b = s.Weak b - (if b = a then 1 else 0) := by
    intro b; rw [Weak_setW, Weak_MinusWeak _ _ _ hlt]
  have hTrace : ((s.invoke a ControlBlockBase.MinusWeak).setW i
      { block_ := none, ptr_ := none }).trace =
      s.trace ++ (if s.Strong a = 0 ∧ s.Weak a - 1 = 0 then [Event.OnZeroWeak a] else []) := by
    rw [trace_setW, trace_MinusWeak _ _ hlt]
  have hLen : ((s.invoke a ControlBlockBase.MinusWeak).setW i
      { block_ := none, ptr_ := none }).heap.length = s.heap.length := by simp
  refine ⟨?_, ?_, ?_, ?_, ?_, ?_⟩
  · intro b
    rw [hStrong, countS_setW, countS_invoke, hs.strong_eq]
  · intro b
    rw [hWeak, countW_setW hl2, getW_invoke, countW_invoke, hb, hs.weak_eq]
    by_cases e : b = a
    · subst e; simp
    · have e2 : ¬ (a = b) := fun h => e h.symm
      simp [e, e2]
  · intro b
    rw [hTrace, hStrong, hLen]
    have := hs.obj_iff b
    split_ifs <;> simp [this]
  · intro b
    rw [hTrace, hStrong, hWeak, hLen]
    by_cases e : b = a
    · subst e
      by_cases h1 : s.Strong b = 0
      · by_cases h2 : s.Weak b - 1 = 0 <;> simp [h1, h2, hnW, hlt]
      · simp [h1, hnW]
    · have e2 : ¬ (a = b) := fun h => e h.symm
      have := hs.blk_iff b
      split_ifs <;> simp [e, e2, this]
  · rw [hTrace]
    have := hs.nodup
    split_ifs <;> simp_all [List.nodup_append]
  · rw [hTrace]
    by_cases h1 : s.Strong a = 0 ∧ s.Weak a - 1 = 0
    · simp only [h1, and_self, if_true]
      apply objectFirst_snoc hs.ordered
      intro b hb
      cases hb
      rw [hs.obj_iff]
      exact ⟨hlt, h1.1⟩
    · simp only [h1, if_false, List.append_nil]
      exact hs.ordered

/-! ### Normal forms of member assignments -/

theorem setS_of_le {s : State} {i : Nat} (h : s.shared.length ≤ i) (x : SharedPtr) :
    s.setS i x = s := by
  simp [State.setS, List.set_eq_of_length_le h]

theorem setW_of_le {s : State} {i : Nat} (h : s.weak.length ≤ i) (x : WeakPtr) :
    s.setW i x = s := by
  simp [State.setW, List.set_eq_of_length_le h]

theorem setS_setS (s : State) (i : Nat) (x y : SharedPtr) :
    (s.setS i x).setS i y = s.setS i y := by
  simp [State.setS, List.set_set]

theorem setW_setW (s : State) (i : Nat) (x y : WeakPtr) :
    (s.setW i x).setW i y = s.setW i y := by
  simp [State.setW, List.set_set]

theorem endS_setS (s : State) (i : Nat) (x : SharedPtr) : (s.setS i x).endS i = s.endS i := by
  simp [State.setS, State.endS, List.set_set]

theorem endW_setW (s : State) (i : Nat) (x : WeakPtr) : (s.setW i x).endW i = s.endW i := by
  simp [State.setW, State.endW, List.set_set]

theorem setSPtr_setSBlock (s : State) (i : Nat) (p : Option Addr) (b : Option BlockId) :
    (s.setSPtr i p).setSBlock i b = s.setS i { block_ := b, ptr_ := p } := by
  rcases Nat.lt_or_ge i s.shared.length with h | h
  · unfold State.setSBlock State.setSPtr
    rw [getS_setS h, setS_setS]; simp
  · unfold State.setSBlock State.setSPtr
    rw [setS_of_le h, setS_of_le h, setS_of_le h]

theorem setWPtr_setWBlock (s : State) (i : Nat) (p : Option Addr) (b : Option BlockId) :
    (s.setWPtr i p).setWBlock i b = s.setW i { block_ := b, ptr_ := p } := by
  rcases Nat.lt_or_ge i s.weak.length with h | h
  · unfold State.setWBlock State.setWPtr
    rw [getW_setW h, setW_setW]; simp
  · unfold State.setWBlock State.setWPtr
    rw [setW_of_le h, setW_of_le h, setW_of_le h]

theorem setWBlock_setWPtr (s : State) (i : Nat) (p : Option Addr) (b : Option BlockId) :
    (s.setWBlock i b).setWPtr i p = s.setW i { block_ := b, ptr_ := p } := by
  rcases Nat.lt_or_ge i s.weak.length with h | h
  · unfold State.setWBlock State.setWPtr
    rw [getW_setW h, setW_setW]; simp
  · unfold State.setWBlock State.setWPtr
    rw [setW_of_le h, setW_of_le h, setW_of_le h]

theorem block_getS_setSPtr (s : State) (i j : Nat) (p : Option Addr) :
    ((s.setSPtr i p).getS j).block_ = (s.getS j).block_ := by
  rcases Nat.lt_or_ge i s.shared.length with h | h
  · unfold State.setSPtr
    rw [getS_setS h]
    split_ifs with e
    · subst e; rfl
    · rfl
  · unfold State.setSPtr
    rw [setS_of_le h]

theorem block_getW_setWPtr (s : State) (i j : Nat) (p : Option Addr) :
    ((s.setWPtr i p).getW j).block_ = (s.getW j).block_ := by
  rcases Nat.lt_or_ge i s.weak.length with h | h
  · unfold State.setWPtr
    rw [getW_setW h]
    split_ifs with e
    · subst e; rfl
    · rfl
  · unfold State.setWPtr
    rw [setW_of_le h]

theorem ptr_getW_setWBlock (s : State) (i j : Nat) (b : Option BlockId) :
    ((s.setWBlock i b).getW j).ptr_ = (s.getW j).ptr_ := by
  rcases Nat.lt_or_ge i s.weak.length with h | h
  · unfold State.setWBlock
    rw [getW_setW h]
    split_ifs with e
    · subst e; rfl
    · rfl
  · unfold State.setWBlock
    rw [setW_of_le h]

theorem getS_of_le {s : State} {i : Nat} (h : s.shared.length ≤ i) :
    s.getS i = { block_ := none, ptr_ := none } := by
  simp [State.getS, List.getElem?_eq_none h]

theorem getW_of_le {s : State} {i : Nat} (h : s.weak.length ≤ i) :
    s.getW i = { block_ := none, ptr_ := none } := by
  simp [State.getW, List.getElem?_eq_none h]

theorem getS_newS_self (s : State) :
    s.newS.getS s.shared.length = { block_ := none, ptr_ := none } := by
  rw [getS_newS, getS_of_le (Nat.le_refl _)]

theorem getW_newW_self (s : State) :
    s.newW.getW s.weak.length = { block_ := none, ptr_ := none } := by
  rw [getW_newW, getW_of_le (Nat.le_refl _)]

theorem PlusShared_some {s : State} {i : Nat} {a : BlockId}
    (h : (s.getS i).block_ = some a) :
    SharedPtr.PlusShared i s = s.invoke a ControlBlockBase.PlusStrong := by
  simp [SharedPtr.PlusShared, h]

theorem PlusShared_none {s : State} {i : Nat} (h : (s.getS i).block_ = none) :
    SharedPtr.PlusShared i s = s := by
  simp [SharedPtr.PlusShared, h]

theorem MinusShared_some {s : State} {i : Nat} {a : BlockId}
    (h : (s.getS i).block_ = some a) :
    SharedPtr.MinusShared i s = s.invoke a ControlBlockBase.MinusStrong := by
  simp [SharedPtr.MinusShared, h]

theorem MinusShared_none {s : State} {i : Nat} (h : (s.getS i).block_ = none) :
    SharedPtr.MinusShared i s = s := by
  simp [SharedPtr.MinusShared, h]

theorem PlusWeak_some {s : State} {i : Nat} {a : BlockId}
    (h : (s.getW i).block_ = some a) :
    WeakPtr.PlusWeak i s = s.invoke a ControlBlockBase.PlusWeak := by
  simp [WeakPtr.PlusWeak, h]

theorem PlusWeak_none {s : State} {i : Nat} (h : (s.getW i).block_ = none) :
    WeakPtr.PlusWeak i s = s := by
  simp [WeakPtr.PlusWeak, h]

theorem MinusWeak_some {s : State} {i : Nat} {a : BlockId}
    (h : (s.getW i).block_ = some a) :
    WeakPtr.MinusWeak i s = s.invoke a ControlBlockBase.MinusWeak := by
  simp [WeakPtr.MinusWeak, h]

theorem MinusWeak_none {s : State} {i : Nat} (h : (s.getW i).block_ = none) :
    WeakPtr.MinusWeak i s = s := by
  simp [WeakPtr.MinusWeak, h]

@[simp]
theorem shared_MinusShared (s : State) (i : Nat) :
    (SharedPtr.MinusShared i s).shared = s.shared := by
  unfold SharedPtr.MinusShared; split <;> simp

@[simp]
theorem weak_MinusShared (s : State) (i : Nat) :
    (SharedPtr.MinusShared i s).weak = s.weak := by
  unfold SharedPtr.MinusShared; split <;> simp

@[simp]
theorem length_MinusShared (s : State) (i : Nat) :
    (SharedPtr.MinusShared i s).heap.length = s.heap.length := by
  unfold SharedPtr.MinusShared; split <;> simp

@[simp]
theorem getS_MinusShared (s : State) (i j : Nat) :
    (SharedPtr.MinusShared i s).getS j = s.getS j := by
  unfold SharedPtr.MinusShared; split <;> simp

@[simp]
theorem liveS_MinusShared (s : State) (i j : Nat) :
    (SharedPtr.MinusShared i s).liveS j = s.liveS j := by
  unfold SharedPtr.MinusShared; split <;> simp

@[simp]
theorem getW_MinusShared (s : State) (i j : Nat) :
    (SharedPtr.MinusShared i s).getW j = s.getW j := by
  unfold SharedPtr.MinusShared; split <;> simp

@[simp]
theorem liveW_MinusShared (s : State) (i j : Nat) :
    (SharedPtr.MinusShared i s).liveW j = s.liveW j := by
  unfold SharedPtr.MinusShared; split <;> simp

@[simp]
theorem shared_MinusWeak (s : State) (i : Nat) :
    (WeakPtr.MinusWeak i s).shared = s.shared := by
  unfold WeakPtr.MinusWeak; split <;> simp

@[simp]
theorem weak_MinusWeak_state (s : State) (i : Nat) :
    (WeakPtr.MinusWeak i s).weak = s.weak := by
  unfold WeakPtr.MinusWeak; split <;> simp

@[simp]
theorem length_MinusWeak (s : State) (i : Nat) :
    (WeakPtr.MinusWeak i s).heap.length = s.heap.length := by
  unfold WeakPtr.MinusWeak; split <;> simp

@[simp]
theorem getW_MinusWeak (s : State) (i j : Nat) :
    (WeakPtr.MinusWeak i s).getW j = s.getW j := by
  unfold WeakPtr.MinusWeak; split <;> simp

@[simp]
theorem liveW_MinusWeak (s : State) (i j : Nat) :
    (WeakPtr.MinusWeak i s).liveW j = s.liveW j := by
  unfold WeakPtr.MinusWeak; split <;> simp

@[simp]
theorem getS_MinusWeak (s : State) (i j : Nat) :
    (WeakPtr.MinusWeak i s).getS j = s.getS j := by
  unfold WeakPtr.MinusWeak; split <;> simp

@[simp]
theorem liveS_MinusWeak (s : State) (i j : Nat) :
    (WeakPtr.MinusWeak i s).liveS j = s.liveS j := by
  unfold WeakPtr.MinusWeak; split <;> simp

/-! ### Preservation of the invariant by the composite building blocks -/

/-- `MinusShared` followed by emptying the handle, whatever the handle held. -/
theorem inv_releaseS {s : State} {i : Nat} (hs : Inv s) (hl : s.liveS i = true) :
    Inv ((SharedPtr.MinusShared i s).setS i { block_ := none, ptr_ := none }) := by
  cases hb : (s.getS i).block_ with
  | none => rw [MinusShared_none hb]; exact inv_setS_none hs hl hb none
  | some a => rw [MinusShared_some hb]; exact inv_dropS hs hl a hb

/-- `MinusWeak` followed by emptying the handle, whatever the handle held. -/
theorem inv_releaseW {s : State} {i : Nat} (hs : Inv s) (hl : s.liveW i = true) :
    Inv ((WeakPtr.MinusWeak i s).setW i { block_ := none, ptr_ := none }) := by
  cases hb : (s.getW i).block_ with
  | none => rw [MinusWeak_none hb]; exact inv_setW_none hs hl hb none
  | some a => rw [MinusWeak_some hb]; exact inv_dropW hs hl a hb

/-- An empty `SharedPtr` is bound to `(B, p)` and `PlusShared` is called, where `B` is null or a
block that still has an owner. -/
theorem inv_bindS {s : State} {i : Nat} (hs : Inv s) (hl : s.liveS i = true)
    (hb : (s.getS i).block_ = none) (B : Option BlockId) (p : Option Addr)
    (hB : ∀ a, B = some a → 1 ≤ s.Strong a) :
    Inv (SharedPtr.PlusShared i (s.setS i { block_ := B, ptr_ := p })) := by
  have hg : (s.setS i { block_ := B, ptr_ := p }).getS i = { block_ := B, ptr_ := p } := by
    rw [getS_setS (liveS_lt hl)]; simp
  cases B with
  | none =>
    rw [PlusShared_none (by rw [hg])]
    exact inv_setS_none hs hl hb p
  | some a =>
    rw [PlusShared_some (by rw [hg])]
    exact inv_acquireS hs hl hb a p (hB a rfl)

/-- An empty `WeakPtr` is bound to `(B, p)` and `PlusWeak` is called, where `B` is null or a
block that has an owner or an observer. -/
theorem inv_bindW {s : State} {i : Nat} (hs : Inv s) (hl : s.liveW i = true)
    (hb : (s.getW i).block_ = none) (B : Option BlockId) (p : Option Addr)
    (hB : ∀ a, B = some a → 1 ≤ s.Strong a ∨ 1 ≤ s.Weak a) :
    Inv (WeakPtr.PlusWeak i (s.setW i { block_ := B, ptr_ := p })) := by
  have hg : (s.setW i { block_ := B, ptr_ := p }).getW i = { block_ := B, ptr_ := p } := by
    rw [getW_setW (liveW_lt hl)]; simp
  cases B with
  | none =>
    rw [PlusWeak_none (by rw [hg])]
    exact inv_setW_none hs hl hb p
  | some a =>
    rw [PlusWeak_some (by rw [hg])]
    exact inv_acquireW hs hl hb a p (hB a rfl)

theorem Strong_pos_of_liveS {s : State} {i : Nat} {a : BlockId} (hs : Inv s)
    (hl : s.liveS i = true) (hb : (s.getS i).block_ = some a) : 1 ≤ s.Strong a := by
  rw [hs.strong_eq]; exact_mod_cast countS_pos hl hb

theorem Weak_pos_of_liveW {s : State} {i : Nat} {a : BlockId} (hs : Inv s)
    (hl : s.liveW i = true) (hb : (s.getW i).block_ = some a) : 1 ≤ s.Weak a := by
  rw [hs.weak_eq]; exact_mod_cast countW_pos hl hb

/-! ### Every SharedPtr operation keeps the invariant -/

theorem ne_length_of_liveS {s : State} {o : Nat} (h : s.liveS o = true) :
    o ≠ s.shared.length := Nat.ne_of_lt (liveS_lt h)

theorem ne_length_of_liveW {s : State} {o : Nat} (h : s.liveW o = true) :
    o ≠ s.weak.length := Nat.ne_of_lt (liveW_lt h)

theorem inv_ctorDefault {s : State} (hs : Inv s) : Inv (SharedPtr.ctorDefault s) := by
  unfold SharedPtr.ctorDefault
  exact inv_setS_none (inv_newS hs) (liveS_newS_self s) (by rw [getS_newS_self]) none

theorem ctorRaw_eq (ptr : Option Addr) (s : State) :
    SharedPtr.ctorRaw ptr s =
      ((s.newS.alloc (ControlBlockBase.pointer (ControlBlockPointer.new ptr))).setS
        s.shared.length { block_ := some s.heap.length, ptr_ := ptr }).invoke
        s.heap.length ControlBlockBase.PlusStrong := by
  have e : ((s.newS.setSPtr s.shared.length ptr).alloc
      (ControlBlockBase.pointer (ControlBlockPointer.new ptr))).setSBlock s.shared.length
        (some s.heap.length) =
      (s.newS.alloc (ControlBlockBase.pointer (ControlBlockPointer.new ptr))).setS
        s.shared.length { block_ := some s.heap.length, ptr_ := ptr } :=
    setSPtr_setSBlock (s.newS.alloc _) _ _ _
  unfold SharedPtr.ctorRaw
  simp only []
  have hl : s.newS.shared.length = s.shared.length + 1 := by simp [State.newS]
  rw [show (s.newS.setSPtr s.shared.length ptr).heap.length = s.heap.length from rfl, e]
  apply PlusShared_some
  rw [getS_setS (by simp [State.alloc, State.newS])]
  simp

theorem inv_ctorRaw {s : State} (hs : Inv s) (ptr : Option Addr) :
    Inv (SharedPtr.ctorRaw ptr s) := by
  rw [ctorRaw_eq]
  exact inv_freshS (inv_newS hs) (liveS_newS_self s) (by rw [getS_newS_self])
    (ControlBlockBase.pointer (ControlBlockPointer.new ptr)) rfl rfl ptr

theorem MakeShared_eq (s : State) :
    MakeShared s =
      ((s.newS.alloc (ControlBlockBase.makeShared ControlBlockMakeShared.new)).setS
        s.shared.length { block_ := some s.heap.length, ptr_ := some (Addr.holder s.heap.length) }
        ).invoke s.heap.length ControlBlockBase.PlusStrong := by
  have e : ((s.alloc (ControlBlockBase.makeShared ControlBlockMakeShared.new)).newS.setSPtr
      s.shared.length (some (Addr.holder s.heap.length))).setSBlock s.shared.length
        (some s.heap.length) =
      (s.newS.alloc (ControlBlockBase.makeShared ControlBlockMakeShared.new)).setS
        s.shared.length
        { block_ := some s.heap.length, ptr_ := some (Addr.holder s.heap.length) } :=
    setSPtr_setSBlock (s.newS.alloc _) _ _ _
  unfold MakeShared SharedPtr.ctorBlock ControlBlockMakeShared.GetHolder
  simp only []
  rw [show (s.alloc (ControlBlockBase.makeShared ControlBlockMakeShared.new)).shared.length
    = s.shared.length from rfl, e]
  apply PlusShared_some
  rw [getS_setS (by simp [State.alloc, State.newS])]
  simp

theorem inv_MakeShared {s : State} (hs : Inv s) : Inv (MakeShared s) := by
  rw [MakeShared_eq]
  exact inv_freshS (inv_newS hs) (liveS_newS_self s) (by rw [getS_newS_self])
    (ControlBlockBase.makeShared ControlBlockMakeShared.new) rfl rfl _

theorem ctorCopy_eq (other : Nat) (s : State) :
    SharedPtr.ctorCopy other s =
      SharedPtr.PlusShared s.shared.length (s.newS.setS s.shared.length
        { block_ := (s.getS other).block_, ptr_ := (s.getS other).ptr_ }) := by
  unfold SharedPtr.ctorCopy
  simp only []
  rw [block_getS_setSPtr, getS_newS, setSPtr_setSBlock]

theorem Strong_newS_pos {s : State} {o : Nat} (hs : Inv s) (ho : s.liveS o = true) :
    ∀ a, (s.getS o).block_ = some a → 1 ≤ s.newS.Strong a := by
  intro a ha
  rw [Strong_newS]
  exact Strong_pos_of_liveS hs ho ha

theorem inv_ctorCopy {s : State} (hs : Inv s) (other : Nat) (ho : s.liveS other = true) :
    Inv (SharedPtr.ctorCopy other s) := by
  rw [ctorCopy_eq]
  exact inv_bindS (inv_newS hs) (liveS_newS_self s) (by rw [getS_newS_self]) _ _
    (Strong_newS_pos hs ho)

theorem ctorAlias_eq (other : Nat) (ptr : Option Addr) (s : State) :
    SharedPtr.ctorAlias other ptr s =
      SharedPtr.PlusShared s.shared.length (s.newS.setS s.shared.length
        { block_ := (s.getS other).block_, ptr_ := ptr }) := by
  unfold SharedPtr.ctorAlias
  simp only []
  rw [block_getS_setSPtr, getS_newS, setSPtr_setSBlock]

theorem inv_ctorAlias {s : State} (hs : Inv s) (other : Nat) (ptr : Option Addr)
    (ho : s.liveS other = true) : Inv (SharedPtr.ctorAlias other ptr s) := by
  rw [ctorAlias_eq]
  exact inv_bindS (inv_newS hs) (liveS_newS_self s) (by rw [getS_newS_self]) _ _
    (Strong_newS_pos hs ho)

theorem ctorMove_eq (other : Nat) (s : State) :
    SharedPtr.ctorMove other s =
      (s.newS.setS s.shared.length (s.newS.getS other)).setS other
        { block_ := none, ptr_ := none } := by
  unfold SharedPtr.ctorMove
  simp only []
  rw [block_getS_setSPtr, setSPtr_setSBlock, setSPtr_setSBlock]

theorem inv_ctorMove {s : State} (hs : Inv s) (other : Nat) (ho : s.liveS other = true) :
    Inv (SharedPtr.ctorMove other s) := by
  rw [ctorMove_eq]
  exact inv_transferS (inv_newS hs) (liveS_newS_self s) (liveS_newS ho)
    (by rw [getS_newS_self])

theorem assignMove_eq (this other : Nat) (s : State) :
    SharedPtr.assignMove this other s =
      ((SharedPtr.MinusShared this s).setS this (s.getS other)).setS other
        { block_ := none, ptr_ := none } := by
  unfold SharedPtr.assignMove
  simp only []
  rw [block_getS_setSPtr, setSPtr_setSBlock, setSPtr_setSBlock, getS_MinusShared]

theorem inv_assignMove {s : State} (hs : Inv s) (this other : Nat)
    (ht : s.liveS this = true) (ho : s.liveS other = true) :
    Inv (SharedPtr.assignMove this other s) := by
  rw [assignMove_eq]
  have hd := inv_releaseS hs ht
  have hlt : this < (SharedPtr.MinusShared this s).shared.length := by
    simpa using liveS_lt ht
  have ht1 : (SharedPtr.MinusShared this s).liveS this = true := by simpa using ht
  have ht2 : ((SharedPtr.MinusShared this s).setS this
      { block_ := none, ptr_ := none }).liveS this = true := by
    rw [liveS_setS ht1]; exact ht1
  have ho2 : ((SharedPtr.MinusShared this s).setS this
      { block_ := none, ptr_ := none }).liveS other = true := by
    rw [liveS_setS ht1]; simpa using ho
  have hb2 : (((SharedPtr.MinusShared this s).setS this
      { block_ := none, ptr_ := none }).getS this).block_ = none := by
    rw [getS_setS hlt]; simp
  have h := inv_transferS hd ht2 ho2 hb2
  rw [setS_setS, getS_setS hlt] at h
  by_cases e : other = this
  · subst e
    rw [setS_setS]
    simp only [if_true] at h
    rw [setS_setS] at h
    exact h
  · simp only [e, if_false, getS_MinusShared] at h
    exact h

theorem inv_assignCopy {s : State} (hs : Inv s) (this other : Nat)
    (ht : s.liveS this = true) (ho : s.liveS other = true) :
    Inv (SharedPtr.assignCopy this other s) := by
  unfold SharedPtr.assignCopy
  split_ifs with hne
  · have e : other ≠ this := by
      intro h; subst h; exact hne rfl
    simp only []
    rw [block_getS_setSPtr, setSPtr_setSBlock, getS_MinusShared]
    have hd := inv_releaseS hs ht
    have hlt : this < (SharedPtr.MinusShared this s).shared.length := by
      simpa using liveS_lt ht
    have ht1 : (SharedPtr.MinusShared this s).liveS this = true := by simpa using ht
    have ht2 : ((SharedPtr.MinusShared this s).setS this
        { block_ := none, ptr_ := none }).liveS this = true := by
      rw [liveS_setS ht1]; exact ht1
    have ho2 : ((SharedPtr.MinusShared this s).setS this
        { block_ := none, ptr_ := none }).liveS other = true := by
      rw [liveS_setS ht1]; simpa using ho
    have hg2 : ((SharedPtr.MinusShared this s).setS this
        { block_ := none, ptr_ := none }).getS other = s.getS other := by
      rw [getS_setS hlt]; simp [e]
    have hb2 : (((SharedPtr.MinusShared this s).setS this
        { block_ := none, ptr_ := none }).getS this).block_ = none := by
      rw [getS_setS hlt]; simp
    have h := inv_bindS hd ht2 hb2 (s.getS other).block_ (s.getS other).ptr_
      (fun a ha => Strong_pos_of_liveS hd ho2 (by rw [hg2]; exact ha))
    rw [setS_setS] at h
    exact h
  · exact hs

theorem inv_dtor {s : State} (hs : Inv s) (this : Nat) (ht : s.liveS this = true) :
    Inv (SharedPtr.dtor this s) := by
  unfold SharedPtr.dtor
  simp only []
  have hd := inv_releaseS hs ht
  have hlt : this < (SharedPtr.MinusShared this s).shared.length := by
    simpa using liveS_lt ht
  have ht1 : (SharedPtr.MinusShared this s).liveS this = true := by simpa using ht
  have h := inv_endS hd (by rw [liveS_setS ht1]; exact ht1)
    (by rw [getS_setS hlt]; simp)
  rw [endS_setS] at h
  exact h

theorem Reset_eq (this : Nat) (s : State) :
    SharedPtr.Reset this s =
      (SharedPtr.MinusShared this s).setS this { block_ := none, ptr_ := none } := by
  unfold SharedPtr.Reset
  simp only []
  rw [setSPtr_setSBlock]

theorem inv_Reset {s : State} (hs : Inv s) (this : Nat) (ht : s.liveS this = true) :
    Inv (SharedPtr.Reset this s) := by
  rw [Reset_eq]
  exact inv_releaseS hs ht

theorem ResetPtr_eq (this : Nat) (ptr : Option Addr) (s : State) (ht : s.liveS this = true) :
    SharedPtr.ResetPtr this ptr s =
      (((SharedPtr.MinusShared this s).alloc
        (ControlBlockBase.pointer (ControlBlockPointer.new ptr))).setS this
        { block_ := some s.heap.length, ptr_ := ptr }).invoke
        s.heap.length ControlBlockBase.PlusStrong := by
  have e : (((SharedPtr.MinusShared this s).setSPtr this ptr).alloc
      (ControlBlockBase.pointer (ControlBlockPointer.new ptr))).setSBlock this
        (some s.heap.length) =
      ((SharedPtr.MinusShared this s).alloc
        (ControlBlockBase.pointer (ControlBlockPointer.new ptr))).setS this
        { block_ := some s.heap.length, ptr_ := ptr } :=
    setSPtr_setSBlock ((SharedPtr.MinusShared this s).alloc _) _ _ _
  unfold SharedPtr.ResetPtr
  simp only []
  rw [show ((SharedPtr.MinusShared this s).setSPtr this ptr).heap.length = s.heap.length from
    length_MinusShared s this, e]
  apply PlusShared_some
  rw [getS_setS (by simpa using liveS_lt ht)]
  simp

theorem inv_ResetPtr {s : State} (hs : Inv s) (this : Nat) (ptr : Option Addr)
    (ht : s.liveS this = true) : Inv (SharedPtr.ResetPtr this ptr s) := by
  rw [ResetPtr_eq this ptr s ht]
  have hd := inv_releaseS hs ht
  have hlt : this < (SharedPtr.MinusShared this s).shared.length := by
    simpa using liveS_lt ht
  have ht1 : (SharedPtr.MinusShared this s).liveS this = true := by simpa using ht
  have h := inv_freshS hd (by rw [liveS_setS ht1]; exact ht1)
    (by rw [getS_setS hlt]; simp) (ControlBlockBase.pointer (ControlBlockPointer.new ptr))
    rfl rfl ptr
  have e : (((SharedPtr.MinusShared this s).setS this { block_ := none, ptr_ := none }).alloc
      (ControlBlockBase.pointer (ControlBlockPointer.new ptr))).setS this
      { block_ := some s.heap.length, ptr_ := ptr } =
      ((SharedPtr.MinusShared this s).alloc
        (ControlBlockBase.pointer (ControlBlockPointer.new ptr))).setS this
        { block_ := some s.heap.length, ptr_ := ptr } :=
    setS_setS ((SharedPtr.MinusShared this s).alloc _) _ _ _
  simp only [heap_setS, length_MinusShared] at h
  rw [e] at h
  exact h

theorem liveS_ctorMove {s : State} {other j : Nat} (ho : s.liveS other = true)
    (hj : s.liveS j = true ∨ j = s.shared.length) :
    (SharedPtr.ctorMove other s).liveS j = true := by
  rw [ctorMove_eq]
  have h1 : (s.newS.setS s.shared.length (s.newS.getS other)).liveS other = true := by
    rw [liveS_setS (liveS_newS_self s)]; exact liveS_newS ho
  rw [liveS_setS h1, liveS_setS (liveS_newS_self s)]
  rcases hj with h | h
  · exact liveS_newS h
  · subst h; exact liveS_newS_self s

theorem liveS_assignMove {s : State} {this other j : Nat} (ht : s.liveS this = true)
    (ho : s.liveS other = true) (hj : s.liveS j = true) :
    (SharedPtr.assignMove this other s).liveS j = true := by
  rw [assignMove_eq]
  have ht1 : (SharedPtr.MinusShared this s).liveS this = true := by simpa using ht
  have h1 : ((SharedPtr.MinusShared this s).setS this (s.getS other)).liveS other = true := by
    rw [liveS_setS ht1]; simpa using ho
  rw [liveS_setS h1, liveS_setS ht1]
  simpa using hj

theorem inv_Swap {s : State} (hs : Inv s) (this other : Nat)
    (ht : s.liveS this = true) (ho : s.liveS other = true) :
    Inv (SharedPtr.Swap this other s) := by
  unfold SharedPtr.Swap
  simp only []
  have h1 := inv_ctorMove hs this ht
  have l1t : (SharedPtr.ctorMove this s).liveS this = true := liveS_ctorMove ht (Or.inl ht)
  have l1o : (SharedPtr.ctorMove this s).liveS other = true := liveS_ctorMove ht (Or.inl ho)
  have l1n : (SharedPtr.ctorMove this s).liveS s.shared.length = true :=
    liveS_ctorMove ht (Or.inr rfl)
  have h2 := inv_assignMove h1 this other l1t l1o
  have l2o := liveS_assignMove l1t l1o l1o
  have l2n := liveS_assignMove l1t l1o l1n
  have h3 := inv_assignMove h2 other s.shared.length l2o l2n
  have l3n := liveS_assignMove l2o l2n l2n
  exact inv_dtor h3 s.shared.length l3n

theorem not_Expired_iff (s : State) (o : Nat) :
    ¬ (WeakPtr.Expired o s = true) ↔
      ∃ a, (s.getW o).block_ = some a ∧ toSizeT (s.Strong a) ≠ 0 := by
  unfold WeakPtr.Expired WeakPtr.UseCount
  cases h : (s.getW o).block_ with
  | none => simp
  | some a => simp

theorem UseCount_ne_zero_iff (s : State) (o : Nat) :
    WeakPtr.UseCount o s ≠ 0 ↔
      ∃ a, (s.getW o).block_ = some a ∧ toSizeT (s.Strong a) ≠ 0 := by
  unfold WeakPtr.UseCount
  cases h : (s.getW o).block_ with
  | none => simp
  | some a => simp

theorem toSizeT_zero : toSizeT 0 = 0 := by
  simp [toSizeT]

theorem ctorPromote_ok {s : State} {o : Nat} (h : ¬ (WeakPtr.Expired o s = true)) :
    SharedPtr.ctorPromote o s =
      Except.ok (SharedPtr.PlusShared s.shared.length (s.newS.setS s.shared.length
        { block_ := (s.getW o).block_, ptr_ := (s.getW o).ptr_ })) := by
  unfold SharedPtr.ctorPromote
  rw [if_pos h]
  simp only []
  rw [show (s.newS.setSPtr s.shared.length (s.newS.getW o).ptr_).getW o = s.getW o from rfl,
    show s.newS.getW o = s.getW o from rfl, setSPtr_setSBlock]

theorem ctorPromote_error {s : State} {o : Nat} (h : WeakPtr.Expired o s = true) :
    SharedPtr.ctorPromote o s = Except.error BadWeakPtr.mk := by
  unfold SharedPtr.ctorPromote
  rw [if_neg (by simpa using h)]

theorem inv_ctorPromote {s : State} (hs : Inv s) (o : Nat) :
    Inv (orCaught s (SharedPtr.ctorPromote o s)) := by
  by_cases h : WeakPtr.Expired o s = true
  · rw [ctorPromote_error h]; exact hs
  · rw [ctorPromote_ok h]
    obtain ⟨a, ha, hne⟩ := (not_Expired_iff s o).mp h
    refine inv_bindS (inv_newS hs) (liveS_newS_self s) (by rw [getS_newS_self]) _ _ ?_
    intro a2 ha2
    rw [ha] at ha2
    cases ha2
    rw [Strong_newS]
    have h0 : s.Strong a ≠ 0 := by
      intro h0; rw [h0] at hne; exact hne toSizeT_zero
    have h1 : 0 ≤ s.Strong a := by rw [hs.strong_eq]; omega
    omega

theorem inv_Lock {s : State} (hs : Inv s) (o : Nat) :
    Inv (orCaught s (WeakPtr.Lock o s)) := by
  unfold WeakPtr.Lock
  split_ifs with h
  · exact inv_ctorDefault hs
  · exact inv_ctorPromote hs o

/-! ### Every WeakPtr operation keeps the invariant -/

theorem inv_ctorDefaultW {s : State} (hs : Inv s) : Inv (WeakPtr.ctorDefault s) :=
  inv_newW hs

theorem ctorCopyW_eq (other : Nat) (s : State) :
    WeakPtr.ctorCopy other s =
      WeakPtr.PlusWeak s.weak.length (s.newW.setW s.weak.length
        { block_ := (s.getW other).block_, ptr_ := (s.getW other).ptr_ }) := by
  unfold WeakPtr.ctorCopy
  simp only []
  rw [ptr_getW_setWBlock, getW_newW, setWBlock_setWPtr]

theorem inv_ctorCopyW {s : State} (hs : Inv s) (other : Nat) (ho : s.liveW other = true) :
    Inv (WeakPtr.ctorCopy other s) := by
  rw [ctorCopyW_eq]
  refine inv_bindW (inv_newW hs) (liveW_newW_self s) (by rw [getW_newW_self]) _ _ ?_
  intro a ha
  right
  rw [Weak_newW]
  exact Weak_pos_of_liveW hs ho ha

theorem ctorDemote_eq (other : Nat) (s : State) :
    WeakPtr.ctorDemote other s =
      WeakPtr.PlusWeak s.weak.length (s.newW.setW s.weak.length
        { block_ := (s.getS other).block_, ptr_ := (s.getS other).ptr_ }) := by
  unfold WeakPtr.ctorDemote
  simp only []
  rw [show (s.newW.setWBlock s.weak.length (s.newW.getS other).block_).getS other =
    s.getS other from rfl, show s.newW.getS other = s.getS other from rfl, setWBlock_setWPtr]

theorem inv_ctorDemote {s : State} (hs : Inv s) (other : Nat) (ho : s.liveS other = true) :
    Inv (WeakPtr.ctorDemote other s) := by
  rw [ctorDemote_eq]
  refine inv_bindW (inv_newW hs) (liveW_newW_self s) (by rw [getW_newW_self]) _ _ ?_
  intro a ha
  left
  rw [Strong_newW]
  exact Strong_pos_of_liveS hs ho ha

theorem ctorMoveW_eq (other : Nat) (s : State) :
    WeakPtr.ctorMove other s =
      (s.newW.setW s.weak.length (s.newW.getW other)).setW other
        { block_ := none, ptr_ := none } := by
  unfold WeakPtr.ctorMove
  simp only []
  rw [ptr_getW_setWBlock, setWBlock_setWPtr, setWPtr_setWBlock]

theorem inv_ctorMoveW {s : State} (hs : Inv s) (other : Nat) (ho : s.liveW other = true) :
    Inv (WeakPtr.ctorMove other s) := by
  rw [ctorMoveW_eq]
  exact inv_transferW (inv_newW hs) (liveW_newW_self s) (liveW_newW ho)
    (by rw [getW_newW_self])

theorem assignMoveW_eq (this other : Nat) (s : State) :
    WeakPtr.assignMove this other s =
      ((WeakPtr.MinusWeak this s).setW this (s.getW other)).setW other
        { block_ := none, ptr_ := none } := by
  unfold WeakPtr.assignMove
  simp only []
  rw [block_getW_setWPtr, setWPtr_setWBlock, setWPtr_setWBlock, getW_MinusWeak]

theorem inv_assignMoveW {s : State} (hs : Inv s) (this other : Nat)
    (ht : s.liveW this = true) (ho : s.liveW other = true) :
    Inv (WeakPtr.assignMove this other s) := by
  rw [assignMoveW_eq]
  have hd := inv_releaseW hs ht
  have hlt : this < (WeakPtr.MinusWeak this s).weak.length := by
    simpa using liveW_lt ht
  have ht1 : (WeakPtr.MinusWeak this s).liveW this = true := by simpa using ht
  have ht2 : ((WeakPtr.MinusWeak this s).setW this
      { block_ := none, ptr_ := none }).liveW this = true := by
    rw [liveW_setW ht1]; exact ht1
  have ho2 : ((WeakPtr.MinusWeak this s).setW this
      { block_ := none, ptr_ := none }).liveW other = true := by
    rw [liveW_setW ht1]; simpa using ho
  have hb2 : (((WeakPtr.MinusWeak this s).setW this
      { block_ := none, ptr_ := none }).getW this).block_ = none := by
    rw [getW_setW hlt]; simp
  have h := inv_transferW hd ht2 ho2 hb2
  rw [setW_setW, getW_setW hlt] at h
  by_cases e : other = this
  · subst e
    rw [setW_setW]
    simp only [if_true] at h
    rw [setW_setW] at h
    exact h
  · simp only [e, if_false, getW_MinusWeak] at h
    exact h

theorem inv_assignCopyW {s : State} (hs : Inv s) (this other : Nat)
    (ht : s.liveW this = true) (ho : s.liveW other = true) :
    Inv (WeakPtr.assignCopy this other s) := by
  unfold WeakPtr.assignCopy
  split_ifs with hne
  · have e : other ≠ this := by
      intro h; subst h; exact hne rfl
    simp only []
    rw [block_getW_setWPtr, setWPtr_setWBlock, getW_MinusWeak]
    have hd := inv_releaseW hs ht
    have hlt : this < (WeakPtr.MinusWeak this s).weak.length := by
      simpa using liveW_lt ht
    have ht1 : (WeakPtr.MinusWeak this s).liveW this = true := by simpa using ht
    have ht2 : ((WeakPtr.MinusWeak this s).setW this
        { block_ := none, ptr_ := none }).liveW this = true := by
      rw [liveW_setW ht1]; exact ht1
    have ho2 : ((WeakPtr.MinusWeak this s).setW this
        { block_ := none, ptr_ := none }).liveW other = true := by
      rw [liveW_setW ht1]; simpa using ho
    have hg2 : ((WeakPtr.MinusWeak this s).setW this
        { block_ := none, ptr_ := none }).getW other = s.getW other := by
      rw [getW_setW hlt]; simp [e]
    have hb2 : (((WeakPtr.MinusWeak this s).setW this
        { block_ := none, ptr_ := none }).getW this).block_ = none := by
      rw [getW_setW hlt]; simp
    have h := inv_bindW hd ht2 hb2 (s.getW other).block_ (s.getW other).ptr_
      (fun a ha => Or.inr (Weak_pos_of_liveW hd ho2 (by rw [hg2]; exact ha)))
    rw [setW_setW] at h
    exact h
  · exact hs

theorem inv_dtorW {s : State} (hs : Inv s) (this : Nat) (ht : s.liveW this = true) :
    Inv (WeakPtr.dtor this s) := by
  unfold WeakPtr.dtor
  simp only []
  have hd := inv_releaseW hs ht
  have hlt : this < (WeakPtr.MinusWeak this s).weak.length := by
    simpa using liveW_lt ht
  have ht1 : (WeakPtr.MinusWeak this s).liveW this = true := by simpa using ht
  have h := inv_endW hd (by rw [liveW_setW ht1]; exact ht1)
    (by rw [getW_setW hlt]; simp)
  rw [endW_setW] at h
  exact h

theorem ResetW_eq (this : Nat) (s : State) :
    WeakPtr.Reset this s =
      (WeakPtr.MinusWeak this s).setW this { block_ := none, ptr_ := none } := by
  unfold WeakPtr.Reset
  simp only []
  rw [setWPtr_setWBlock]

theorem inv_ResetW {s : State} (hs : Inv s) (this : Nat) (ht : s.liveW this = true) :
    Inv (WeakPtr.Reset this s) := by
  rw [ResetW_eq]
  exact inv_releaseW hs ht

theorem liveW_ctorMove {s : State} {other j : Nat} (ho : s.liveW other = true)
    (hj : s.liveW j = true ∨ j = s.weak.length) :
    (WeakPtr.ctorMove other s).liveW j = true := by
  rw [ctorMoveW_eq]
  have h1 : (s.newW.setW s.weak.length (s.newW.getW other)).liveW other = true := by
    rw [liveW_setW (liveW_newW_self s)]; exact liveW_newW ho
  rw [liveW_setW h1, liveW_setW (liveW_newW_self s)]
  rcases hj with h | h
  · exact liveW_newW h
  · subst h; exact liveW_newW_self s

theorem liveW_assignMove {s : State} {this other j : Nat} (ht : s.liveW this = true)
    (ho : s.liveW other = true) (hj : s.liveW j = true) :
    (WeakPtr.assignMove this other s).liveW j = true := by
  rw [assignMoveW_eq]
  have ht1 : (WeakPtr.MinusWeak this s).liveW this = true := by simpa using ht
  have h1 : ((WeakPtr.MinusWeak this s).setW this (s.getW other)).liveW other = true := by
    rw [liveW_setW ht1]; simpa using ho
  rw [liveW_setW h1, liveW_setW ht1]
  simpa using hj

theorem inv_SwapW {s : State} (hs : Inv s) (this other : Nat)
    (ht : s.liveW this = true) (ho : s.liveW other = true) :
    Inv (WeakPtr.Swap this other s) := by
  unfold WeakPtr.Swap
  simp only []
  have h1 := inv_ctorMoveW hs this ht
  have l1t : (WeakPtr.ctorMove this s).liveW this = true := liveW_ctorMove ht (Or.inl ht)
  have l1o : (WeakPtr.ctorMove this s).liveW other = true := liveW_ctorMove ht (Or.inl ho)
  have l1n : (WeakPtr.ctorMove this s).liveW s.weak.length = true :=
    liveW_ctorMove ht (Or.inr rfl)
  have h2 := inv_assignMoveW h1 this other l1t l1o
  have l2o := liveW_assignMove l1t l1o l1o
  have l2n := liveW_assignMove l1t l1o l1n
  have h3 := inv_assignMoveW h2 other s.weak.length l2o l2n
  have l3n := liveW_assignMove l2o l2n l2n
  exact inv_dtorW h3 s.weak.length l3n

/-! ### Every program keeps the invariant -/

theorem inv_step {s : State} (hs : Inv s) (op : Op) : Inv (step s op) := by
  unfold step
  split_ifs with hr
  · cases op with
    | sharedDefault => exact inv_ctorDefault hs
    | sharedRaw p => exact inv_ctorRaw hs p
    | makeShared => exact inv_MakeShared hs
    | sharedCopy o => exact inv_ctorCopy hs o hr
    | sharedMove o => exact inv_ctorMove hs o hr
    | sharedAlias o p => exact inv_ctorAlias hs o p hr
    | sharedPromote o => exact inv_ctorPromote hs o
    | sharedAssign t o =>
      simp only [Op.ready, Bool.and_eq_true] at hr
      exact inv_assignCopy hs t o hr.1 hr.2
    | sharedMoveAssign t o =>
      simp only [Op.ready, Bool.and_eq_true] at hr
      exact inv_assignMove hs t o hr.1 hr.2
    | sharedDtor t => exact inv_dtor hs t hr
    | sharedReset t => exact inv_Reset hs t hr
    | sharedResetPtr t p => exact inv_ResetPtr hs t p hr
    | sharedSwap t o =>
      simp only [Op.ready, Bool.and_eq_true] at hr
      exact inv_Swap hs t o hr.1 hr.2
    | weakDefault => exact inv_ctorDefaultW hs
    | weakCopy o => exact inv_ctorCopyW hs o hr
    | weakMove o => exact inv_ctorMoveW hs o hr
    | weakDemote o => exact inv_ctorDemote hs o hr
    | weakAssign t o =>
      simp only [Op.ready, Bool.and_eq_true] at hr
      exact inv_assignCopyW hs t o hr.1 hr.2
    | weakMoveAssign t o =>
      simp only [Op.ready, Bool.and_eq_true] at hr
      exact inv_assignMoveW hs t o hr.1 hr.2
    | weakDtor t => exact inv_dtorW hs t hr
    | weakReset t => exact inv_ResetW hs t hr
    | weakSwap t o =>
      simp only [Op.ready, Bool.and_eq_true] at hr
      exact inv_SwapW hs t o hr.1 hr.2
    | weakLock t => exact inv_Lock hs t
  · exact hs

theorem inv_run (ops : List Op) {s : State} (hs : Inv s) : Inv (run ops s) := by
  induction ops generalizing s with
  | nil => exact hs
  | cons op rest ih => exact ih (inv_step hs op)

/-! ### Reachable states -/

/-- In a reachable state no live handle dangles: the block of a live `SharedPtr` or `WeakPtr`
is on the heap and has not been released, so no operation ever touches a released block. -/
theorem reachable_no_dangling (ops : List Op) (b : BlockId) :
    (∀ i, (run ops State.init).liveS i = true →
      ((run ops State.init).getS i).block_ = some b →
      b < (run ops State.init).heap.length ∧ ¬ (run ops State.init).objectReleased b ∧
        ¬ (run ops State.init).blockReleased b) ∧
    (∀ i, (run ops State.init).liveW i = true →
      ((run ops State.init).getW i).block_ = some b →
      b < (run ops State.init).heap.length ∧ ¬ (run ops State.init).blockReleased b) := by
  have hinv := inv_run ops inv_init
  constructor
  · intro i hl hb
    have hpos := Strong_pos_of_liveS hinv hl hb
    refine ⟨lt_of_Strong_ne (by omega), ?_, ?_⟩
    · intro h
      have := ((hinv.obj_iff b).mp h).2
      omega
    · intro h
      have := ((hinv.blk_iff b).mp h).2.1
      omega
  · intro i hl hb
    have hpos := Weak_pos_of_liveW hinv hl hb
    refine ⟨lt_of_Weak_ne (by omega), ?_⟩
    intro h
    have := ((hinv.blk_iff b).mp h).2.2
    omega

theorem keeps_refl (s : State) : s.keeps s := fun _ h => h

theorem keeps_of_trace {s t u : State} (h : s.keeps t) (e : u.trace = t.trace) : s.keeps u := by
  intro x hx; rw [e]; exact h x hx

theorem keeps_setS {s t : State} (i : Nat) (x : SharedPtr) (h : s.keeps t) :
    s.keeps (t.setS i x) := keeps_of_trace h rfl

theorem keeps_setSPtr {s t : State} (i : Nat) (p : Option Addr) (h : s.keeps t) :
    s.keeps (t.setSPtr i p) := keeps_of_trace h rfl

theorem keeps_setSBlock {s t : State} (i : Nat) (b : Option BlockId) (h : s.keeps t) :
    s.keeps (t.setSBlock i b) := keeps_of_trace h rfl

theorem keeps_newS {s t : State} (h : s.keeps t) : s.keeps t.newS := keeps_of_trace h rfl

theorem keeps_endS {s t : State} (i : Nat) (h : s.keeps t) : s.keeps (t.endS i) :=
  keeps_of_trace h rfl

theorem keeps_setW {s t : State} (i : Nat) (x : WeakPtr) (h : s.keeps t) :
    s.keeps (t.setW i x) := keeps_of_trace h rfl

theorem keeps_setWPtr {s t : State} (i : Nat) (p : Option Addr) (h : s.keeps t) :
    s.keeps (t.setWPtr i p) := keeps_of_trace h rfl

theorem keeps_setWBlock {s t : State} (i : Nat) (b : Option BlockId) (h : s.keeps t) :
    s.keeps (t.setWBlock i b) := keeps_of_trace h rfl

theorem keeps_newW {s t : State} (h : s.keeps t) : s.keeps t.newW := keeps_of_trace h rfl

theorem keeps_endW {s t : State} (i : Nat) (h : s.keeps t) : s.keeps (t.endW i) :=
  keeps_of_trace h rfl

theorem keeps_alloc {s t : State} (c : ControlBlockBase) (h : s.keeps t) :
    s.keeps (t.alloc c) := keeps_of_trace h rfl

theorem keeps_invoke {s t : State} (a : BlockId)
    (m : BlockId → ControlBlockBase → ControlBlockBase × List Event) (h : s.keeps t) :
    s.keeps (t.invoke a m) := by
  intro x hx
  unfold State.invoke
  split
  · simp only [List.mem_append]; exact Or.inl (h x hx)
  · exact h x hx

theorem keeps_PlusShared {s t : State} (i : Nat) (h : s.keeps t) :
    s.keeps (SharedPtr.PlusShared i t) := by
  unfold SharedPtr.PlusShared
  split
  · exact keeps_invoke _ _ h
  · exact h

theorem keeps_MinusShared {s t : State} (i : Nat) (h : s.keeps t) :
    s.keeps (SharedPtr.MinusShared i t) := by
  unfold SharedPtr.MinusShared
  split
  · exact keeps_invoke _ _ h
  · exact h

theorem keeps_PlusWeak {s t : State} (i : Nat) (h : s.keeps t) :
    s.keeps (WeakPtr.PlusWeak i t) := by
  unfold WeakPtr.PlusWeak
  split
  · exact keeps_invoke _ _ h
  · exact h

theorem keeps_MinusWeak {s t : State} (i : Nat) (h : s.keeps t) :
    s.keeps (WeakPtr.MinusWeak i t) := by
  unfold WeakPtr.MinusWeak
  split
  · exact keeps_invoke _ _ h
  · exact h

theorem keeps_ctorDefault {s t : State} (h : s.keeps t) : s.keeps (SharedPtr.ctorDefault t) :=
  keeps_setS _ _ (keeps_newS h)

theorem keeps_ctorRaw {s t : State} (p : Option Addr) (h : s.keeps t) :
    s.keeps (SharedPtr.ctorRaw p t) :=
  keeps_PlusShared _ (keeps_setSBlock _ _ (keeps_alloc _ (keeps_setSPtr _ _ (keeps_newS h))))

theorem keeps_ctorBlock {s t : State} (b : Option BlockId) (p : Option Addr) (h : s.keeps t) :
    s.keeps (SharedPtr.ctorBlock b p t) :=
  keeps_PlusShared _ (keeps_setSBlock _ _ (keeps_setSPtr _ _ (keeps_newS h)))

theorem keeps_MakeShared {s t : State} (h : s.keeps t) : s.keeps (MakeShared t) :=
  keeps_ctorBlock _ _ (keeps_alloc _ h)

theorem keeps_ctorCopy {s t : State} (o : Nat) (h : s.keeps t) :
    s.keeps (SharedPtr.ctorCopy o t) :=
  keeps_PlusShared _ (keeps_setSBlock _ _ (keeps_setSPtr _ _ (keeps_newS h)))

theorem keeps_ctorAlias {s t : State} (o : Nat) (p : Option Addr) (h : s.keeps t) :
    s.keeps (SharedPtr.ctorAlias o p t) :=
  keeps_PlusShared _ (keeps_setSBlock _ _ (keeps_setSPtr _ _ (keeps_newS h)))

theorem keeps_ctorMove {s t : State} (o : Nat) (h : s.keeps t) :
    s.keeps (SharedPtr.ctorMove o t) :=
  keeps_setSBlock _ _ (keeps_setSPtr _ _ (keeps_setSBlock _ _ (keeps_setSPtr _ _
    (keeps_newS h))))

theorem keeps_assignCopy {s t : State} (i o : Nat) (h : s.keeps t) :
    s.keeps (SharedPtr.assignCopy i o t) := by
  unfold SharedPtr.assignCopy
  split_ifs
  · exact keeps_PlusShared _ (keeps_setSBlock _ _ (keeps_setSPtr _ _ (keeps_MinusShared _ h)))
  · exact h

theorem keeps_assignMove {s t : State} (i o : Nat) (h : s.keeps t) :
    s.keeps (SharedPtr.assignMove i o t) :=
  keeps_setSBlock _ _ (keeps_setSPtr _ _ (keeps_setSBlock _ _ (keeps_setSPtr _ _
    (keeps_MinusShared _ h))))

theorem keeps_dtor {s t : State} (i : Nat) (h : s.keeps t) : s.keeps (SharedPtr.dtor i t) :=
  keeps_endS _ (keeps_MinusShared _ h)

theorem keeps_Reset {s t : State} (i : Nat) (h : s.keeps t) : s.keeps (SharedPtr.Reset i t) :=
  keeps_setSBlock _ _ (keeps_setSPtr _ _ (keeps_MinusShared _ h))

theorem keeps_ResetPtr {s t : State} (i : Nat) (p : Option Addr) (h : s.keeps t) :
    s.keeps (SharedPtr.ResetPtr i p t) :=
  keeps_PlusShared _ (keeps_setSBlock _ _ (keeps_alloc _ (keeps_setSPtr _ _
    (keeps_MinusShared _ h))))

theorem keeps_Swap {s t : State} (i o : Nat) (h : s.keeps t) :
    s.keeps (SharedPtr.Swap i o t) :=
  keeps_dtor _ (keeps_assignMove _ _ (keeps_assignMove _ _ (keeps_ctorMove _ h)))

theorem keeps_ctorPromote {s t : State} (o : Nat) (h : s.keeps t) :
    s.keeps (orCaught t (SharedPtr.ctorPromote o t)) := by
  by_cases he : WeakPtr.Expired o t = true
  · rw [ctorPromote_error he]; exact h
  · rw [ctorPromote_ok he]
    exact keeps_PlusShared _ (keeps_setS _ _ (keeps_newS h))

theorem keeps_Lock {s t : State} (o : Nat) (h : s.keeps t) :
    s.keeps (orCaught t (WeakPtr.Lock o t)) := by
  unfold WeakPtr.Lock
  split_ifs
  · exact keeps_ctorDefault h
  · exact keeps_ctorPromote o h

theorem keeps_ctorCopyW {s t : State} (o : Nat) (h : s.keeps t) :
    s.keeps (WeakPtr.ctorCopy o t) :=
  keeps_PlusWeak _ (keeps_setWPtr _ _ (keeps_setWBlock _ _ (keeps_newW h)))

theorem keeps_ctorDemote {s t : State} (o : Nat) (h : s.keeps t) :
    s.keeps (WeakPtr.ctorDemote o t) :=
  keeps_PlusWeak _ (keeps_setWPtr _ _ (keeps_setWBlock _ _ (keeps_newW h)))

theorem keeps_ctorMoveW {s t : State} (o : Nat) (h : s.keeps t) :
    s.keeps (WeakPtr.ctorMove o t) :=
  keeps_setWBlock _ _ (keeps_setWPtr _ _ (keeps_setWPtr _ _ (keeps_setWBlock _ _
    (keeps_newW h))))

theorem keeps_assignCopyW {s t : State} (i o : Nat) (h : s.keeps t) :
    s.keeps (WeakPtr.assignCopy i o t) := by
  unfold WeakPtr.assignCopy
  split_ifs
  · exact keeps_PlusWeak _ (keeps_setWBlock _ _ (keeps_setWPtr _ _ (keeps_MinusWeak _ h)))
  · exact h

theorem keeps_assignMoveW {s t : State} (i o : Nat) (h : s.keeps t) :
    s.keeps (WeakPtr.assignMove i o t) :=
  keeps_setWBlock _ _ (keeps_setWPtr _ _ (keeps_setWBlock _ _ (keeps_setWPtr _ _
    (keeps_MinusWeak _ h))))

theorem keeps_dtorW {s t : State} (i : Nat) (h : s.keeps t) : s.keeps (WeakPtr.dtor i t) :=
  keeps_endW _ (keeps_MinusWeak _ h)

theorem keeps_ResetW {s t : State} (i : Nat) (h : s.keeps t) : s.keeps (WeakPtr.Reset i t) :=
  keeps_setWBlock _ _ (keeps_setWPtr _ _ (keeps_MinusWeak _ h))

theorem keeps_SwapW {s t : State} (i o : Nat) (h : s.keeps t) :
    s.keeps (WeakPtr.Swap i o t) :=
  keeps_dtorW _ (keeps_assignMoveW _ _ (keeps_assignMoveW _ _ (keeps_ctorMoveW _ h)))

theorem keeps_step (s : State) (op : Op) : s.keeps (step s op) := by
  unfold step
  split_ifs
  · cases op with
    | sharedDefault => exact keeps_ctorDefault (keeps_refl s)
    | sharedRaw p => exact keeps_ctorRaw p (keeps_refl s)
    | makeShared => exact keeps_MakeShared (keeps_refl s)
    | sharedCopy o => exact keeps_ctorCopy o (keeps_refl s)
    | sharedMove o => exact keeps_ctorMove o (keeps_refl s)
    | sharedAlias o p => exact keeps_ctorAlias o p (keeps_refl s)
    | sharedPromote o => exact keeps_ctorPromote o (keeps_refl s)
    | sharedAssign t o => exact keeps_assignCopy t o (keeps_refl s)
    | sharedMoveAssign t o => exact keeps_assignMove t o (keeps_refl s)
    | sharedDtor t => exact keeps_dtor t (keeps_refl s)
    | sharedReset t => exact keeps_Reset t (keeps_refl s)
    | sharedResetPtr t p => exact keeps_ResetPtr t p (keeps_refl s)
    | sharedSwap t o => exact keeps_Swap t o (keeps_refl s)
    | weakDefault => exact keeps_newW (keeps_refl s)
    | weakCopy o => exact keeps_ctorCopyW o (keeps_refl s)
    | weakMove o => exact keeps_ctorMoveW o (keeps_refl s)
    | weakDemote o => exact keeps_ctorDemote o (keeps_refl s)
    | weakAssign t o => exact keeps_assignCopyW t o (keeps_refl s)
    | weakMoveAssign t o => exact keeps_assignMoveW t o (keeps_refl s)
    | weakDtor t => exact keeps_dtorW t (keeps_refl s)
    | weakReset t => exact keeps_ResetW t (keeps_refl s)
    | weakSwap t o => exact keeps_SwapW t o (keeps_refl s)
    | weakLock t => exact keeps_Lock t (keeps_refl s)
  · exact keeps_refl s

theorem keeps_run (ops : List Op) (s : State) : s.keeps (run ops s) := by
  induction ops generalizing s with
  | nil => exact keeps_refl s
  | cons op rest ih =>
    intro e he
    exact ih (step s op) e (keeps_step s op e he)

/-- The lifecycle of a block when the destructors of the managed objects run no handle code:
over every program, for every block, `OnZeroStrong` is called at most once, `OnZeroWeak` is
called at most once, a released block has both counters at zero and its object released, and
in the trace the release of the object comes before the release of the block.  The hook
`OnZeroWeak` is called only by `MinusStrong` and `MinusWeak`, and only in a call that leaves
both counters at zero. -/
theorem lifecycle_plain (ops : List Op) (b : BlockId) :
    (run ops State.init).trace.count (Event.OnZeroStrong b) ≤ 1 ∧
    (run ops State.init).trace.count (Event.OnZeroWeak b) ≤ 1 ∧
    ((run ops State.init).blockReleased b →
      (run ops State.init).Strong b = 0 ∧ (run ops State.init).Weak b = 0 ∧
      (run ops State.init).objectReleased b) ∧
    objectFirst (run ops State.init).trace ∧
    (∀ c : ControlBlockBase,
      (Event.OnZeroWeak b ∈ (c.MinusStrong b).2 →
        (c.MinusStrong b).1.Strong = 0 ∧ (c.MinusStrong b).1.Weak = 0) ∧
      (Event.OnZeroWeak b ∈ (c.MinusWeak b).2 →
        (c.MinusWeak b).1.Strong = 0 ∧ (c.MinusWeak b).1.Weak = 0) ∧
      (c.PlusStrong b).2 = [] ∧ (c.PlusWeak b).2 = []) := by
  have hinv := inv_run ops inv_init
  refine ⟨List.nodup_iff_count_le_one.mp hinv.nodup _,
    List.nodup_iff_count_le_one.mp hinv.nodup _, ?_, hinv.ordered, ?_⟩
  · intro hrel
    have h := (hinv.blk_iff b).mp hrel
    exact ⟨h.2.1, h.2.2, (hinv.obj_iff b).mpr ⟨h.1, h.2.1⟩⟩
  · intro c
    refine ⟨?_, ?_, events_PlusStrong b c, events_PlusWeak b c⟩
    · intro h
      rw [events_MinusStrong] at h
      rw [strong_MinusStrong, weak_MinusStrong]
      split_ifs at h with h1 h2 <;> simp_all
    · intro h
      rw [events_MinusWeak] at h
      rw [strong_MinusWeak, weak_MinusWeak]
      split_ifs at h with h1 <;> simp_all

theorem Expired_iff (s : State) (w : Nat) :
    WeakPtr.Expired w s = true ↔
      ((s.getW w).block_ = none ∨ ∃ a, (s.getW w).block_ = some a ∧ toSizeT (s.Strong a) = 0) := by
  unfold WeakPtr.Expired WeakPtr.UseCount
  cases h : (s.getW w).block_ with
  | none => simp
  | some a => simp

/-- The state produced by a successful promotion of a handle on block `a`. -/
theorem promote_effect (s : State) (a : BlockId) (p : Option Addr) (ha : a < s.heap.length) :
    SharedPtr.PlusShared s.shared.length
        (s.newS.setS s.shared.length { block_ := some a, ptr_ := p }) =
      (s.newS.setS s.shared.length { block_ := some a, ptr_ := p }).invoke a
        ControlBlockBase.PlusStrong ∧
    (SharedPtr.PlusShared s.shared.length
        (s.newS.setS s.shared.length { block_ := some a, ptr_ := p })).liveS
        s.shared.length = true ∧
    (SharedPtr.PlusShared s.shared.length
        (s.newS.setS s.shared.length { block_ := some a, ptr_ := p })).getS s.shared.length =
      { block_ := some a, ptr_ := p } ∧
    (∀ b, (SharedPtr.PlusShared s.shared.length
        (s.newS.setS s.shared.length { block_ := some a, ptr_ := p })).Strong b =
      s.Strong b + (if b = a then 1 else 0)) ∧
    (∀ b, (SharedPtr.PlusShared s.shared.length
        (s.newS.setS s.shared.length { block_ := some a, ptr_ := p })).Weak b = s.Weak b) ∧
    (SharedPtr.PlusShared s.shared.length
        (s.newS.setS s.shared.length { block_ := some a, ptr_ := p })).trace = s.trace ∧
    (SharedPtr.PlusShared s.shared.length
        (s.newS.setS s.shared.length { block_ := some a, ptr_ := p })).weak = s.weak := by
  have hn : s.shared.length < s.newS.shared.length := by simp [State.newS]
  have hg : (s.newS.setS s.shared.length { block_ := some a, ptr_ := p }).getS s.shared.length =
      { block_ := some a, ptr_ := p } := by
    rw [getS_setS hn]; simp
  have e := PlusShared_some (s := s.newS.setS s.shared.length { block_ := some a, ptr_ := p })
    (i := s.shared.length) (a := a) (by rw [hg])
  rw [e]
  refine ⟨rfl, ?_, ?_, ?_, ?_, ?_, ?_⟩
  · rw [liveS_invoke, liveS_setS (liveS_newS_self s)]; exact liveS_newS_self s
  · rw [getS_invoke, hg]
  · intro b
    rw [Strong_PlusStrong _ _ _ (by simpa using ha)]; simp
  · intro b
    rw [Weak_PlusStrong]; simp
  · rw [trace_PlusStrong]; simp
  · simp

/-- C7: the promoting constructor `SharedPtr(const WeakPtr&)` throws `BadWeakPtr` exactly when
the block of `w` is null or its strong counter is 0 (the counter being an `int`), and then the
state, hence every counter, is the one before the call; otherwise it completes with a new
`SharedPtr` that has the block and the observed address of `w`, the strong counter of that
block incremented by one, every other counter and the trace unchanged. -/
theorem C7_throwing_promotion (s : State) (w : Nat)
    (hint : ∀ a, (s.getW w).block_ = some a → -2147483648 ≤ s.Strong a) :
    (SharedPtr.ctorPromote w s = Except.error BadWeakPtr.mk ↔
      ((s.getW w).block_ = none ∨ ∃ a, (s.getW w).block_ = some a ∧ s.Strong a = 0)) ∧
    (SharedPtr.ctorPromote w s = Except.error BadWeakPtr.mk →
      orCaught s (SharedPtr.ctorPromote w s) = s) ∧
    (∀ a, (s.getW w).block_ = some a → s.Strong a ≠ 0 →
      ∃ t, SharedPtr.ctorPromote w s = Except.ok t ∧
        t.liveS s.shared.length = true ∧
        t.getS s.shared.length = { block_ := some a, ptr_ := (s.getW w).ptr_ } ∧
        (∀ b, t.Strong b = s.Strong b + (if b = a then 1 else 0)) ∧
        (∀ b, t.Weak b = s.Weak b) ∧ t.trace = s.trace ∧ t.weak = s.weak) := by
  have hexp : WeakPtr.Expired w s = true ↔
      ((s.getW w).block_ = none ∨ ∃ a, (s.getW w).block_ = some a ∧ s.Strong a = 0) := by
    rw [Expired_iff]
    constructor
    · rintro (h | ⟨a, h1, h2⟩)
      · exact Or.inl h
      · exact Or.inr ⟨a, h1, (toSizeT_eq_zero _ (hint a h1)).mp h2⟩
    · rintro (h | ⟨a, h1, h2⟩)
      · exact Or.inl h
      · exact Or.inr ⟨a, h1, by rw [h2]; exact toSizeT_zero⟩
  refine ⟨?_, ?_, ?_⟩
  · rw [← hexp]
    constructor
    · intro h
      by_contra hne
      rw [ctorPromote_ok hne] at h
      cases h
    · intro h
      exact ctorPromote_error h
  · intro h; rw [h]; rfl
  · intro a ha hne
    have hnexp : ¬ (WeakPtr.Expired w s = true) := by
      rw [hexp]
      rintro (h | ⟨a2, h1, h2⟩)
      · rw [ha] at h; cases h
      · rw [ha] at h1; cases h1; exact hne h2
    have hlt : a < s.heap.length := lt_of_Strong_ne hne
    have he := promote_effect s a (s.getW w).ptr_ hlt
    refine ⟨_, by rw [ctorPromote_ok hnexp, ha], he.2.1, he.2.2.1, he.2.2.2.1, he.2.2.2.2.1,
      he.2.2.2.2.2.1, he.2.2.2.2.2.2⟩

/-- C7 on a live group (promotion succeeds, strong counter 1 becomes 2) and on the same group
after its only owner is gone (promotion throws). -/
theorem C7_throwing_promotion_witness :
    (∃ t, SharedPtr.ctorPromote 0
        (run [Op.sharedRaw (some (Addr.raw 1)), Op.weakDemote 0] State.init) = Except.ok t ∧
      t.Strong 0 = 2) ∧
    SharedPtr.ctorPromote 0
      (run [Op.sharedRaw (some (Addr.raw 1)), Op.weakDemote 0, Op.sharedDtor 0] State.init) =
      Except.error BadWeakPtr.mk := by
  constructor
  · obtain ⟨t, h1, _, _, h4, _⟩ :=
      (C7_throwing_promotion (run [Op.sharedRaw (some (Addr.raw 1)), Op.weakDemote 0] State.init)
        0 (by intro a h; cases h; decide)).2.2 0 (by decide) (by decide)
    exact ⟨t, h1, by rw [h4 0]; decide⟩
  · exact (C7_throwing_promotion
      (run [Op.sharedRaw (some (Addr.raw 1)), Op.weakDemote 0, Op.sharedDtor 0] State.init) 0
      (by intro a h; cases h; decide)).1.mpr (Or.inr ⟨0, by decide, by decide⟩)

/-- C8: `Lock` never throws.  It returns a new `SharedPtr`; that handle is empty (null block,
null observed address, `UseCount` 0), with heap and trace untouched, exactly when `w.Expired()`;
otherwise it has the block and observed address of `w` and the strong counter of that block is
incremented by one, nothing else changing. -/
theorem C8_lock_total (s : State) (w : Nat) :
    ∃ t, WeakPtr.Lock w s = Except.ok t ∧ t.liveS s.shared.length = true ∧
      ((t.getS s.shared.length).block_ = none ↔ WeakPtr.Expired w s = true) ∧
      (WeakPtr.Expired w s = true →
        t.getS s.shared.length = { block_ := none, ptr_ := none } ∧
        SharedPtr.UseCount s.shared.length t = 0 ∧
        t.heap = s.heap ∧ t.trace = s.trace ∧ t.weak = s.weak) ∧
      (WeakPtr.Expired w s = false →
        ∃ a, (s.getW w).block_ = some a ∧
          t.getS s.shared.length = { block_ := some a, ptr_ := (s.getW w).ptr_ } ∧
          (∀ b, t.Strong b = s.Strong b + (if b = a then 1 else 0)) ∧
          (∀ b, t.Weak b = s.Weak b) ∧ t.trace = s.trace ∧ t.weak = s.weak) := by
  have hU : WeakPtr.Expired w s = true ↔ WeakPtr.UseCount w s = 0 := by
    unfold WeakPtr.Expired WeakPtr.UseCount
    cases h : (s.getW w).block_ with
    | none => simp
    | some a => simp
  by_cases hexp : WeakPtr.Expired w s = true
  · have h0 := hU.mp hexp
    have hn : s.shared.length < s.newS.shared.length := by simp [State.newS]
    have hg : (SharedPtr.ctorDefault s).getS s.shared.length =
        { block_ := none, ptr_ := none } := by
      unfold SharedPtr.ctorDefault
      simp only []
      rw [getS_setS hn]; simp
    refine ⟨SharedPtr.ctorDefault s, by unfold WeakPtr.Lock; rw [if_pos h0], ?_, ?_, ?_, ?_⟩
    · unfold SharedPtr.ctorDefault
      simp only []
      rw [liveS_setS (liveS_newS_self s)]; exact liveS_newS_self s
    · rw [hg]; simp [hexp]
    · intro _
      refine ⟨hg, ?_, rfl, rfl, rfl⟩
      unfold SharedPtr.UseCount
      rw [hg]
    · intro h; rw [hexp] at h; cases h
  · have h0 : ¬ (WeakPtr.UseCount w s = 0) := fun h => hexp (hU.mpr h)
    obtain ⟨a, ha, hne⟩ := (not_Expired_iff s w).mp hexp
    have hS : s.Strong a ≠ 0 := by
      intro h; rw [h] at hne; exact hne toSizeT_zero
    have hlt : a < s.heap.length := lt_of_Strong_ne hS
    have he := promote_effect s a (s.getW w).ptr_ hlt
    refine ⟨_, by unfold WeakPtr.Lock; rw [if_neg h0, ctorPromote_ok hexp, ha], he.2.1, ?_, ?_,
      ?_⟩
    · rw [he.2.2.1]; simp [hexp]
    · intro h; exact absurd h hexp
    · intro _
      exact ⟨a, ha, he.2.2.1, he.2.2.2.1, he.2.2.2.2.1, he.2.2.2.2.2.1, he.2.2.2.2.2.2⟩

/-- C8 on an expired handle: `Lock` returns an empty `SharedPtr` and calls no hook. -/
theorem C8_lock_total_witness :
    ∃ t, WeakPtr.Lock 0
        (run [Op.sharedRaw (some (Addr.raw 1)), Op.weakDemote 0, Op.sharedDtor 0] State.init) =
        Except.ok t ∧
      t.getS 1 = { block_ := none, ptr_ := none } ∧ SharedPtr.UseCount 1 t = 0 := by
  obtain ⟨t, h1, _, _, h4, _⟩ := C8_lock_total
    (run [Op.sharedRaw (some (Addr.raw 1)), Op.weakDemote 0, Op.sharedDtor 0] State.init) 0
  have h5 := h4 (by decide)
  exact ⟨t, h1, h5.1, h5.2.1⟩

/-! ### A weak handle that outlives the owners -/

theorem getS_endS {s : State} {i : Nat} (j : Nat) (h : j ≠ i) :
    (s.endS i).getS j = s.getS j := by
  unfold State.getS State.endS
  simp [List.getElem?_set_ne (Ne.symm h)]

theorem liveS_endS {s : State} {i : Nat} (j : Nat) (h : j ≠ i) :
    (s.endS i).liveS j = s.liveS j := by
  unfold State.liveS State.endS
  simp [List.getElem?_set_ne (Ne.symm h)]

/-- The destructor of a handle on block `a`: one `MinusStrong` on `a`, then the object ends. -/
theorem dtor_effect {s : State} {i : Nat} {a : BlockId} (hb : (s.getS i).block_ = some a)
    (ha : a < s.heap.length) :
    (SharedPtr.dtor i s).trace =
      s.trace ++ ((if s.Strong a - 1 = 0 then [Event.OnZeroStrong a] else []) ++
        (if s.Strong a - 1 = 0 ∧ s.Weak a = 0 then [Event.OnZeroWeak a] else [])) ∧
    (∀ b, (SharedPtr.dtor i s).Strong b = s.Strong b - (if b = a then 1 else 0)) ∧
    (∀ b, (SharedPtr.dtor i s).Weak b = s.Weak b) ∧
    (∀ j, j ≠ i → (SharedPtr.dtor i s).getS j = s.getS j) ∧
    (∀ j, j ≠ i → (SharedPtr.dtor i s).liveS j = s.liveS j) ∧
    (SharedPtr.dtor i s).heap.length = s.heap.length := by
  unfold SharedPtr.dtor
  simp only []
  rw [MinusShared_some hb]
  refine ⟨?_, ?_, ?_, ?_, ?_, ?_⟩
  · rw [trace_endS, trace_MinusStrong _ _ ha]
  · intro b; rw [Strong_endS, Strong_MinusStrong _ _ _ ha]
  · intro b; rw [Weak_endS, Weak_MinusStrong]
  · intro j hj; rw [getS_endS j hj, getS_invoke]
  · intro j hj; rw [liveS_endS j hj, liveS_invoke]
  · simp

theorem promote_frame (s : State) (B : Option BlockId) (p : Option Addr) (j : Nat)
    (hj : j ≠ s.shared.length) :
    (SharedPtr.PlusShared s.shared.length
        (s.newS.setS s.shared.length { block_ := B, ptr_ := p })).getS j = s.getS j ∧
    (s.liveS j = true → (SharedPtr.PlusShared s.shared.length
        (s.newS.setS s.shared.length { block_ := B, ptr_ := p })).liveS j = true) := by
  have hn : s.shared.length < s.newS.shared.length := by simp [State.newS]
  unfold SharedPtr.PlusShared
  split
  · rw [getS_invoke, liveS_invoke, getS_setS hn, liveS_setS (liveS_newS_self s)]
    simp only [hj, if_false]
    exact ⟨getS_newS s j, liveS_newS⟩
  · rw [getS_setS hn, liveS_setS (liveS_newS_self s)]
    simp only [hj, if_false]
    exact ⟨getS_newS s j, liveS_newS⟩

/-- C10: let `a` be a live `SharedPtr` on block `B` whose strong counter is at least 1, and
`sub` any address.  The aliasing construction `b(a, sub)` gives `b.Get() == sub`, the block `B`
and `b.UseCount() == a.UseCount()`, the strong counter being incremented by one and no hook
called.  Destroying `a` afterwards calls no hook and brings the strong counter back to its
value; destroying `b` after that releases the object exactly when `a` was the only owner
(strong counter 1 at the start), followed by the block when there is no weak reference. -/
theorem C10_aliasing (s : State) (a : Nat) (B : BlockId) (sub : Option Addr)
    (hl : s.liveS a = true) (hB : (s.getS a).block_ = some B) (hpos : 1 ≤ s.Strong B) :
    SharedPtr.Get s.shared.length (SharedPtr.ctorAlias a sub s) = sub ∧
    ((SharedPtr.ctorAlias a sub s).getS s.shared.length).block_ = some B ∧
    SharedPtr.UseCount s.shared.length (SharedPtr.ctorAlias a sub s) =
      SharedPtr.UseCount a (SharedPtr.ctorAlias a sub s) ∧
    (SharedPtr.ctorAlias a sub s).Strong B = s.Strong B + 1 ∧
    (SharedPtr.ctorAlias a sub s).trace = s.trace ∧
    (SharedPtr.dtor a (SharedPtr.ctorAlias a sub s)).trace = s.trace ∧
    (SharedPtr.dtor a (SharedPtr.ctorAlias a sub s)).Strong B = s.Strong B ∧
    (SharedPtr.dtor a (SharedPtr.ctorAlias a sub s)).liveS s.shared.length = true ∧
    (SharedPtr.dtor s.shared.length (SharedPtr.dtor a (SharedPtr.ctorAlias a sub s))).trace =
      s.trace ++ (if s.Strong B = 1 then
        (if s.Weak B = 0 then [Event.OnZeroStrong B, Event.OnZeroWeak B]
          else [Event.OnZeroStrong B])
        else []) := by
  have hlt : B < s.heap.length := lt_of_Strong_ne (by omega)
  have hne : a ≠ s.shared.length := ne_length_of_liveS hl
  have he := promote_effect s B sub hlt
  have hf := promote_frame s (some B) sub a hne
  have hal : SharedPtr.ctorAlias a sub s = SharedPtr.PlusShared s.shared.length
      (s.newS.setS s.shared.length { block_ := some B, ptr_ := sub }) := by
    rw [ctorAlias_eq, hB]
  rw [hal]
  have hta : ((SharedPtr.PlusShared s.shared.length
      (s.newS.setS s.shared.length { block_ := some B, ptr_ := sub })).getS a).block_ = some B := by
    rw [hf.1, hB]
  have hlt2 : B < (SharedPtr.PlusShared s.shared.length
      (s.newS.setS s.shared.length { block_ := some B, ptr_ := sub })).heap.length := by
    rw [he.1]; simpa using hlt
  have hd := dtor_effect hta hlt2
  have hun : ((SharedPtr.dtor a (SharedPtr.PlusShared s.shared.length
      (s.newS.setS s.shared.length { block_ := some B, ptr_ := sub }))).getS
      s.shared.length).block_ = some B := by
    rw [hd.2.2.2.1 _ (Ne.symm hne), he.2.2.1]
  have hlt3 : B < (SharedPtr.dtor a (SharedPtr.PlusShared s.shared.length
      (s.newS.setS s.shared.length { block_ := some B, ptr_ := sub }))).heap.length := by
    rw [hd.2.2.2.2.2]; exact hlt2
  have hd2 := dtor_effect hun hlt3
  have hSt : (SharedPtr.PlusShared s.shared.length
      (s.newS.setS s.shared.length { block_ := some B, ptr_ := sub })).Strong B =
      s.Strong B + 1 := by
    rw [he.2.2.2.1 B]; simp
  have hSu : (SharedPtr.dtor a (SharedPtr.PlusShared s.shared.length
      (s.newS.setS s.shared.length { block_ := some B, ptr_ := sub }))).Strong B = s.Strong B := by
    rw [hd.2.1 B, hSt]; simp
  have hTu : (SharedPtr.dtor a (SharedPtr.PlusShared s.shared.length
      (s.newS.setS s.shared.length { block_ := some B, ptr_ := sub }))).trace = s.trace := by
    rw [hd.1, hSt, he.2.2.2.2.2.1]
    have h1 : ¬ (s.Strong B + 1 - 1 = 0) := by omega
    rw [if_neg h1, if_neg (fun h => h1 h.1)]
    simp
  refine ⟨?_, ?_, ?_, hSt, he.2.2.2.2.2.1, hTu, hSu, ?_, ?_⟩
  · unfold SharedPtr.Get; rw [he.2.2.1]
  · rw [he.2.2.1]
  · unfold SharedPtr.UseCount; rw [hta, he.2.2.1]
  · rw [hd.2.2.2.2.1 _ (Ne.symm hne)]; exact he.2.1
  · rw [hd2.1, hTu, hSu, hd.2.2.1 B, he.2.2.2.2.1 B]
    have e : (s.Strong B - 1 = 0) ↔ s.Strong B = 1 := by omega
    simp only [e]
    split_ifs <;> simp_all

/-- C10 on a freshly wrapped pointer: the alias keeps the object alive after the original
handle is destroyed, and the object and the block go when the alias is destroyed. -/
theorem C10_aliasing_witness :
    (SharedPtr.dtor 0 (SharedPtr.ctorAlias 0 (some (Addr.raw 9))
      (run [Op.sharedRaw (some (Addr.raw 1))] State.init))).trace = [] ∧
    (SharedPtr.dtor 1 (SharedPtr.dtor 0 (SharedPtr.ctorAlias 0 (some (Addr.raw 9))
      (run [Op.sharedRaw (some (Addr.raw 1))] State.init)))).trace =
      [Event.OnZeroStrong 0, Event.OnZeroWeak 0] :=
  ⟨(C10_aliasing (run [Op.sharedRaw (some (Addr.raw 1))] State.init) 0 0 (some (Addr.raw 9))
      (by decide) (by decide) (by decide)).2.2.2.2.2.1,
    (C10_aliasing (run [Op.sharedRaw (some (Addr.raw 1))] State.init) 0 0 (some (Addr.raw 9))
      (by decide) (by decide) (by decide)).2.2.2.2.2.2.2.2⟩

/-! ### N copies, then N destructions -/

@[simp]
theorem shared_PlusShared (s : State) (i : Nat) :
    (SharedPtr.PlusShared i s).shared = s.shared := by
  unfold SharedPtr.PlusShared; split <;> simp

@[simp]
theorem weak_PlusShared (s : State) (i : Nat) :
    (SharedPtr.PlusShared i s).weak = s.weak := by
  unfold SharedPtr.PlusShared; split <;> simp

@[simp]
theorem length_PlusShared (s : State) (i : Nat) :
    (SharedPtr.PlusShared i s).heap.length = s.heap.length := by
  unfold SharedPtr.PlusShared; split <;> simp

theorem set_none_of_not_live {s : State} {i : Nat} (h : s.liveS i = false) :
    s.shared.set i none = s.shared := by
  rcases Nat.lt_or_ge i s.shared.length with hlt | hge
  · have hi : s.shared[i] = none := by
      cases hx : s.shared[i] with
      | none => rfl
      | some x =>
        have : s.shared[i]? = some (some x) := by rw [List.getElem?_eq_getElem hlt, hx]
        have hl : s.liveS i = true := (liveS_iff s i).mpr ⟨x, this⟩
        rw [h] at hl; cases hl
    apply List.ext_getElem (by simp)
    intro n h1 h2
    by_cases e : i = n
    · subst e; simp [hi]
    · simp [List.getElem_set_ne e]
  · exact List.set_eq_of_length_le hge

theorem step_sharedDtor (s : State) (i : Nat) :
    (step s (Op.sharedDtor i)).shared = s.shared.set i none ∧
    (step s (Op.sharedDtor i)).heap.length = s.heap.length ∧
    (step s (Op.sharedDtor i)).weak = s.weak := by
  unfold step
  split_ifs with h
  · simp [Op.exec, SharedPtr.dtor, State.endS]
  · have h2 : s.liveS i = false := by simpa [Op.ready] using h
    exact ⟨(set_none_of_not_live h2).symm, rfl, rfl⟩

theorem run_append (l1 l2 : List Op) (s : State) :
    run (l1 ++ l2) s = run l2 (run l1 s) := by
  simp [run]

theorem run_sharedDtors (ds : List Nat) (s : State) :
    (run (ds.map Op.sharedDtor) s).shared = ds.foldl (fun l i => l.set i none) s.shared ∧
    (run (ds.map Op.sharedDtor) s).heap.length = s.heap.length ∧
    (run (ds.map Op.sharedDtor) s).weak = s.weak := by
  induction ds generalizing s with
  | nil => exact ⟨rfl, rfl, rfl⟩
  | cons d rest ih =>
    have h1 := step_sharedDtor s d
    have h2 := ih (step s (Op.sharedDtor d))
    simp only [List.map_cons, List.foldl_cons]
    refine ⟨?_, ?_, ?_⟩
    · show (run (rest.map Op.sharedDtor) (step s (Op.sharedDtor d))).shared = _
      rw [h2.1, h1.1]
    · show (run (rest.map Op.sharedDtor) (step s (Op.sharedDtor d))).heap.length = _
      rw [h2.2.1, h1.2.1]
    · show (run (rest.map Op.sharedDtor) (step s (Op.sharedDtor d))).weak = _
      rw [h2.2.2, h1.2.2]

theorem getElem?_killed (ds : List Nat) (l : List (Option SharedPtr)) (j : Nat) :
    (ds.foldl (fun l i => l.set i none) l)[j]? =
      if j ∈ ds then (l[j]?).map (fun _ => none) else l[j]? := by
  induction ds generalizing l with
  | nil => simp
  | cons d rest ih =>
    simp only [List.foldl_cons, List.mem_cons]
    rw [ih]
    by_cases hjd : j = d
    · subst hjd
      simp only [true_or, if_true]
      rcases Nat.lt_or_ge j l.length with hlt | hge
      · rw [List.getElem?_set_self hlt, List.getElem?_eq_getElem hlt]
        split_ifs <;> rfl
      · rw [List.set_eq_of_length_le hge, List.getElem?_eq_none hge]
        split_ifs <;> rfl
    · rw [List.getElem?_set_ne (Ne.symm hjd)]
      simp [hjd]

theorem length_killed (ds : List Nat) (l : List (Option SharedPtr)) :
    (ds.foldl (fun l i => l.set i none) l).length = l.length := by
  induction ds generalizing l with
  | nil => rfl
  | cons d rest ih => simp only [List.foldl_cons]; rw [ih]; simp

theorem shared_ctorCopy (o : Nat) (s : State) :
    (SharedPtr.ctorCopy o s).shared = s.shared ++ [some (s.getS o)] ∧
    (SharedPtr.ctorCopy o s).heap.length = s.heap.length ∧
    (SharedPtr.ctorCopy o s).weak = s.weak := by
  rw [ctorCopy_eq]
  refine ⟨?_, ?_, ?_⟩
  · rw [shared_PlusShared]
    simp [State.setS, State.newS]
  · rw [length_PlusShared]; rfl
  · rw [weak_PlusShared]; rfl

/-- The program of C2 up to the destructions: one handle wraps `p`, then `k` copies of it. -/
theorem copies_state (p : Option Addr) (k : Nat) :
    (run (Op.sharedRaw p :: List.replicate k (Op.sharedCopy 0)) State.init).shared =
      List.replicate (k + 1) (some { block_ := some 0, ptr_ := p }) ∧
    (run (Op.sharedRaw p :: List.replicate k (Op.sharedCopy 0)) State.init).heap.length = 1 ∧
    (run (Op.sharedRaw p :: List.replicate k (Op.sharedCopy 0)) State.init).weak = [] := by
  induction k with
  | zero => exact ⟨rfl, rfl, rfl⟩
  | succ k ih =>
    have e : Op.sharedRaw p :: List.replicate (k + 1) (Op.sharedCopy 0) =
        (Op.sharedRaw p :: List.replicate k (Op.sharedCopy 0)) ++ [Op.sharedCopy 0] := by
      rw [List.replicate_succ']; rfl
    rw [e, run_append]
    have hlive : (run (Op.sharedRaw p :: List.replicate k (Op.sharedCopy 0))
        State.init).liveS 0 = true := by
      rw [liveS_iff]
      exact ⟨{ block_ := some 0, ptr_ := p }, by rw [ih.1]; simp⟩
    have hget : (run (Op.sharedRaw p :: List.replicate k (Op.sharedCopy 0))
        State.init).getS 0 = { block_ := some 0, ptr_ := p } := by
      unfold State.getS
      rw [ih.1]; simp
    have hstep : run [Op.sharedCopy 0]
        (run (Op.sharedRaw p :: List.replicate k (Op.sharedCopy 0)) State.init) =
        SharedPtr.ctorCopy 0
          (run (Op.sharedRaw p :: List.replicate k (Op.sharedCopy 0)) State.init) := by
      show step _ _ = _
      unfold step
      rw [if_pos (by simpa [Op.ready] using hlive)]
      rfl
    rw [hstep]
    have hc := shared_ctorCopy 0
      (run (Op.sharedRaw p :: List.replicate k (Op.sharedCopy 0)) State.init)
    refine ⟨?_, ?_, ?_⟩
    · rw [hc.1, hget, ih.1, ← List.replicate_succ']
    · rw [hc.2.1, ih.2.1]
    · rw [hc.2.2, ih.2.2]

/-- With a single block on the heap, the trace is determined by the two counters. -/
theorem trace_single {s : State} (hs : Inv s) (hlen : s.heap.length = 1) :
    s.trace = if s.Strong 0 = 0 then
      (if s.Weak 0 = 0 then [Event.OnZeroStrong 0, Event.OnZeroWeak 0]
        else [Event.OnZeroStrong 0])
      else [] := by
  have hmem : ∀ e ∈ s.trace, e = Event.OnZeroStrong 0 ∨ e = Event.OnZeroWeak 0 := by
    intro e he
    cases e with
    | OnZeroStrong b =>
      have := ((hs.obj_iff b).mp he).1
      rw [hlen] at this
      left; congr; exact Nat.lt_one_iff.mp this
    | OnZeroWeak b =>
      have := ((hs.blk_iff b).mp he).1
      rw [hlen] at this
      right; congr; exact Nat.lt_one_iff.mp this
  have hS := hs.obj_iff 0
  have hW := hs.blk_iff 0
  have hnd := hs.nodup
  have hord := hs.ordered
  rw [hlen] at hS hW
  generalize s.trace = tr at hmem hS hW hnd hord
  match tr, hmem, hS, hW, hnd, hord with
  | [], _, hS, hW, _, _ =>
    have h1 : ¬ (s.Strong 0 = 0) := fun h => by simpa using hS.mpr ⟨Nat.one_pos, h⟩
    rw [if_neg h1]
  | [e1], hmem, hS, hW, _, hord =>
    rcases hmem e1 (by simp) with h | h
    · subst h
      have h1 : s.Strong 0 = 0 := (hS.mp (by simp)).2
      have h2 : ¬ (s.Weak 0 = 0) := fun h => by
        simpa using hW.mpr ⟨Nat.one_pos, h1, h⟩
      rw [if_pos h1, if_neg h2]
    · subst h
      have := hord [] [] 0 rfl
      simp at this
  | [e1, e2], hmem, hS, hW, hnd, hord =>
    rcases hmem e1 (by simp) with h | h
    · subst h
      rcases hmem e2 (by simp) with h' | h'
      · subst h'; simp at hnd
      · subst h'
        have h1 := (hW.mp (by simp))
        rw [if_pos h1.2.1, if_pos h1.2.2]
    · subst h
      have := hord [] [e2] 0 rfl
      simp at this
  | e1 :: e2 :: e3 :: rest, hmem, _, _, hnd, _ =>
    exfalso
    rcases hmem e1 (by simp) with h1 | h1 <;> rcases hmem e2 (by simp) with h2 | h2 <;>
      rcases hmem e3 (by simp) with h3 | h3 <;> subst h1 <;> subst h2 <;> subst h3 <;>
      simp at hnd

/-- C2: for every `N ≥ 1`, every pointer `p` and every order of destruction (a permutation of
the `N` handles): after wrapping `p` in one `SharedPtr` and making `N - 1` copies of it, the
trace is still empty when all handles but the last of the order are destroyed, and destroying
the last one calls `OnZeroStrong` once and then `OnZeroWeak` once on the block. -/
theorem C2_copies_then_destroy (N : Nat) (hN : 1 ≤ N) (p : Option Addr) (order : List Nat)
    (hperm : order.Perm (List.range N)) :
    (run (order.dropLast.map Op.sharedDtor)
      (run (Op.sharedRaw p :: List.replicate (N - 1) (Op.sharedCopy 0)) State.init)).trace = [] ∧
    (run (order.map Op.sharedDtor)
      (run (Op.sharedRaw p :: List.replicate (N - 1) (Op.sharedCopy 0)) State.init)).trace =
      [Event.OnZeroStrong 0, Event.OnZeroWeak 0] := by
  have hc := copies_state p (N - 1)
  have hN1 : N - 1 + 1 = N := by omega
  rw [hN1] at hc
  have hinv0 := inv_run (Op.sharedRaw p :: List.replicate (N - 1) (Op.sharedCopy 0)) inv_init
  have hne : order ≠ [] := by
    intro h
    rw [h] at hperm
    have := hperm.length_eq
    simp at this
    omega
  have hnd : order.Nodup := hperm.nodup_iff.mpr (List.nodup_range N)
  have hsplit := List.dropLast_append_getLast hne
  have hlast_lt : order.getLast hne < N :=
    List.mem_range.mp (hperm.mem_iff.mp (List.getLast_mem hne))
  have hlast_not : order.getLast hne ∉ order.dropLast := by
    rw [← hsplit] at hnd
    have := List.nodup_append.mp hnd
    intro hmem
    exact this.2.2 hmem (by simp)
  constructor
  · have hr := run_sharedDtors order.dropLast
      (run (Op.sharedRaw p :: List.replicate (N - 1) (Op.sharedCopy 0)) State.init)
    have hinv := inv_run (order.dropLast.map Op.sharedDtor) hinv0
    have hlen : (run (order.dropLast.map Op.sharedDtor)
        (run (Op.sharedRaw p :: List.replicate (N - 1) (Op.sharedCopy 0))
          State.init)).heap.length = 1 := by rw [hr.2.1, hc.2.1]
    have hget : (run (order.dropLast.map Op.sharedDtor)
        (run (Op.sharedRaw p :: List.replicate (N - 1) (Op.sharedCopy 0))
          State.init)).shared[order.getLast hne]? =
        some (some { block_ := some 0, ptr_ := p }) := by
      rw [hr.1, getElem?_killed, if_neg hlast_not, hc.1,
        List.getElem?_replicate_of_lt hlast_lt]
    have hlive : (run (order.dropLast.map Op.sharedDtor)
        (run (Op.sharedRaw p :: List.replicate (N - 1) (Op.sharedCopy 0))
          State.init)).liveS (order.getLast hne) = true := (liveS_iff _ _).mpr ⟨_, hget⟩
    have hblock : ((run (order.dropLast.map Op.sharedDtor)
        (run (Op.sharedRaw p :: List.replicate (N - 1) (Op.sharedCopy 0))
          State.init)).getS (order.getLast hne)).block_ = some 0 := by
      unfold State.getS
      rw [hget]
    have hpos := Strong_pos_of_liveS hinv hlive hblock
    rw [trace_single hinv hlen, if_neg (by omega)]
  · have hr := run_sharedDtors order
      (run (Op.sharedRaw p :: List.replicate (N - 1) (Op.sharedCopy 0)) State.init)
    have hinv := inv_run (order.map Op.sharedDtor) hinv0
    have hlen : (run (order.map Op.sharedDtor)
        (run (Op.sharedRaw p :: List.replicate (N - 1) (Op.sharedCopy 0))
          State.init)).heap.length = 1 := by rw [hr.2.1, hc.2.1]
    have hS : (run (order.map Op.sharedDtor)
        (run (Op.sharedRaw p :: List.replicate (N - 1) (Op.sharedCopy 0))
          State.init)).Strong 0 = 0 := by
      rw [hinv.strong_eq]
      have : (run (order.map Op.sharedDtor)
          (run (Op.sharedRaw p :: List.replicate (N - 1) (Op.sharedCopy 0))
            State.init)).countS 0 = 0 := by
        unfold State.countS
        rw [List.countP_eq_zero]
        intro x hx
        obtain ⟨j, hj⟩ := List.mem_iff_getElem?.mp hx
        rw [hr.1] at hj
        have hjlt : j < N := by
          have h1 := (List.getElem?_eq_some_iff.mp hj).1
          rw [length_killed, hc.1] at h1
          simpa using h1
        have hjmem : j ∈ order := hperm.mem_iff.mpr (List.mem_range.mpr hjlt)
        rw [getElem?_killed, if_pos hjmem, hc.1, List.getElem?_replicate_of_lt hjlt] at hj
        simp at hj
        subst hj
        simp [holdsS]
      rw [this]; rfl
    have hW : (run (order.map Op.sharedDtor)
        (run (Op.sharedRaw p :: List.replicate (N - 1) (Op.sharedCopy 0))
          State.init)).Weak 0 = 0 := by
      rw [hinv.weak_eq]
      unfold State.countW
      rw [hr.2.2, hc.2.2]; rfl
    rw [trace_single hinv hlen, if_pos hS, if_pos hW]

/-- C2 for three handles destroyed in the order 1, 2, 0. -/
theorem C2_copies_then_destroy_witness :
    (run ([1, 2].map Op.sharedDtor)
      (run [Op.sharedRaw (some (Addr.raw 4)), Op.sharedCopy 0, Op.sharedCopy 0]
        State.init)).trace = [] ∧
    (run ([1, 2, 0].map Op.sharedDtor)
      (run [Op.sharedRaw (some (Addr.raw 4)), Op.sharedCopy 0, Op.sharedCopy 0]
        State.init)).trace = [Event.OnZeroStrong 0, Event.OnZeroWeak 0] :=
  C2_copies_then_destroy 3 (by decide) (some (Addr.raw 4)) [1, 2, 0] (by decide)

/-! ### Self-assignment -/

/-- C11: the copy assignments `p = p` and `w = w`, and the copy assignments `p = q` and `w = v`
from another handle with an equal observed address, leave the whole state as it was: the trace
is the same (no hook is called during the call), every strong and weak counter is the same, and
`UseCount()` of the target is the same. -/
theorem C11_self_assignment (s : State) (p q w v : Nat)
    (hpq : (s.getS p).ptr_ = (s.getS q).ptr_) (hwv : (s.getW w).ptr_ = (s.getW v).ptr_) :
    SharedPtr.assignCopy p p s = s ∧ WeakPtr.assignCopy w w s = s ∧
    SharedPtr.assignCopy p q s = s ∧ WeakPtr.assignCopy w v s = s ∧
    (SharedPtr.assignCopy p q s).trace = s.trace ∧
    (WeakPtr.assignCopy w v s).trace = s.trace ∧
    (∀ b, (SharedPtr.assignCopy p q s).Strong b = s.Strong b ∧
      (SharedPtr.assignCopy p q s).Weak b = s.Weak b ∧
      (WeakPtr.assignCopy w v s).Strong b = s.Strong b ∧
      (WeakPtr.assignCopy w v s).Weak b = s.Weak b) ∧
    SharedPtr.UseCount p (SharedPtr.assignCopy p q s) = SharedPtr.UseCount p s ∧
    WeakPtr.UseCount w (WeakPtr.assignCopy w v s) = WeakPtr.UseCount w s := by
  have e1 : SharedPtr.assignCopy p p s = s := by
    unfold SharedPtr.assignCopy; rw [if_neg (fun h => h rfl)]
  have e2 : WeakPtr.assignCopy w w s = s := by
    unfold WeakPtr.assignCopy; rw [if_neg (fun h => h rfl)]
  have e3 : SharedPtr.assignCopy p q s = s := by
    unfold SharedPtr.assignCopy; rw [if_neg (fun h => h hpq)]
  have e4 : WeakPtr.assignCopy w v s = s := by
    unfold WeakPtr.assignCopy; rw [if_neg (fun h => h hwv)]
  refine ⟨e1, e2, e3, e4, ?_, ?_, ?_, ?_, ?_⟩
  · rw [e3]
  · rw [e4]
  · intro b; rw [e3, e4]; exact ⟨rfl, rfl, rfl, rfl⟩
  · rw [e3]
  · rw [e4]

/-- C11 on two handles of one group (a handle and its copy) and the two weak handles demoted
from them: assigning one to the other changes nothing. -/
theorem C11_self_assignment_witness :
    SharedPtr.assignCopy 0 1
      (run [Op.sharedRaw (some (Addr.raw 1)), Op.sharedCopy 0, Op.weakDemote 0, Op.weakDemote 1]
        State.init) =
      run [Op.sharedRaw (some (Addr.raw 1)), Op.sharedCopy 0, Op.weakDemote 0, Op.weakDemote 1]
        State.init ∧
    WeakPtr.assignCopy 0 1
      (run [Op.sharedRaw (some (Addr.raw 1)), Op.sharedCopy 0, Op.weakDemote 0, Op.weakDemote 1]
        State.init) =
      run [Op.sharedRaw (some (Addr.raw 1)), Op.sharedCopy 0, Op.weakDemote 0, Op.weakDemote 1]
        State.init :=
  ⟨(C11_self_assignment (run [Op.sharedRaw (some (Addr.raw 1)), Op.sharedCopy 0,
      Op.weakDemote 0, Op.weakDemote 1] State.init) 0 1 0 1 (by decide) (by decide)).2.2.1,
    (C11_self_assignment (run [Op.sharedRaw (some (Addr.raw 1)), Op.sharedCopy 0,
      Op.weakDemote 0, Op.weakDemote 1] State.init) 0 1 0 1 (by decide) (by decide)).2.2.2.1⟩

/-! ### The factory scenario -/

/-- C16: the scenario `a = MakeShared<Widget>(42)`, `b = a`, `w = WeakPtr(b)`, destroy `a`,
destroy `b`.  After the factory call `a.UseCount()` is 1 and `a.Get()` is the address of the
storage inside the block; after the copy it is 2; after the demotion it is still 2 and `w` is
not expired; after both destructions `w` is expired, `OnZeroStrong` has been called exactly
once on the block, `OnZeroWeak` has not been called, and `w.Lock()` returns an empty handle.
The copy is checked both as a copy construction and as a copy assignment to a
default-constructed `b`. -/
theorem C16_factory_scenario :
    SharedPtr.UseCount 0 (run [Op.makeShared] State.init) = 1 ∧
    SharedPtr.Get 0 (run [Op.makeShared] State.init) = ControlBlockMakeShared.GetHolder 0 ∧
    ((run [Op.makeShared] State.init).getS 0).block_ = some 0 ∧
    (run [Op.makeShared] State.init).heap[0]? =
      some (ControlBlockBase.makeShared { strong_ := 1, weak_ := 0, holder := true }) ∧
    SharedPtr.UseCount 0 (run [Op.makeShared, Op.sharedCopy 0] State.init) = 2 ∧
    run [Op.makeShared, Op.sharedDefault, Op.sharedAssign 1 0] State.init =
      run [Op.makeShared, Op.sharedCopy 0] State.init ∧
    SharedPtr.UseCount 0 (run [Op.makeShared, Op.sharedCopy 0, Op.weakDemote 1] State.init) = 2 ∧
    WeakPtr.Expired 0 (run [Op.makeShared, Op.sharedCopy 0, Op.weakDemote 1] State.init)
      = false ∧
    WeakPtr.Expired 0 (run [Op.makeShared, Op.sharedCopy 0, Op.weakDemote 1, Op.sharedDtor 0,
      Op.sharedDtor 1] State.init) = true ∧
    (run [Op.makeShared, Op.sharedCopy 0, Op.weakDemote 1, Op.sharedDtor 0] State.init).trace
      = [] ∧
    (run [Op.makeShared, Op.sharedCopy 0, Op.weakDemote 1, Op.sharedDtor 0,
      Op.sharedDtor 1] State.init).trace = [Event.OnZeroStrong 0] ∧
    ¬ (run [Op.makeShared, Op.sharedCopy 0, Op.weakDemote 1, Op.sharedDtor 0,
      Op.sharedDtor 1] State.init).blockReleased 0 ∧
    (run [Op.makeShared, Op.sharedCopy 0, Op.weakDemote 1, Op.sharedDtor 0,
      Op.sharedDtor 1] State.init).heap[0]? =
      some (ControlBlockBase.makeShared { strong_ := 0, weak_ := 1, holder := false }) ∧
    WeakPtr.Lock 0 (run [Op.makeShared, Op.sharedCopy 0, Op.weakDemote 1, Op.sharedDtor 0,
      Op.sharedDtor 1] State.init) =
      Except.ok (SharedPtr.ctorDefault (run [Op.makeShared, Op.sharedCopy 0, Op.weakDemote 1,
        Op.sharedDtor 0, Op.sharedDtor 1] State.init)) ∧
    (SharedPtr.ctorDefault (run [Op.makeShared, Op.sharedCopy 0, Op.weakDemote 1,
      Op.sharedDtor 0, Op.sharedDtor 1] State.init)).getS 2 =
      { block_ := none, ptr_ := none } := by
  refine ⟨by decide, by decide, by decide, by decide, by decide, by decide, by decide,
    by decide, by decide, by decide, by decide, by decide, by decide, rfl, by decide⟩

/-! ### The weak counter counts the weak handles -/

/-- C19: after every program, the weak counter of every block equals the number of live
`WeakPtr` objects whose `block_` is that block; in particular a block held by a live `WeakPtr`
has a weak counter of at least 1 and has not been released. -/
theorem C19_weak_count_invariant (ops : List Op) (b : BlockId) :
    (run ops State.init).Weak b = (run ops State.init).countW b ∧
    ∀ i, (run ops State.init).liveW i = true →
      ((run ops State.init).getW i).block_ = some b →
      1 ≤ (run ops State.init).Weak b ∧ ¬ (run ops State.init).blockReleased b := by
  have hinv := inv_run ops inv_init
  refine ⟨hinv.weak_eq b, ?_⟩
  intro i hl hb
  have hpos := Weak_pos_of_liveW hinv hl hb
  refine ⟨hpos, ?_⟩
  intro h
  have := ((hinv.blk_iff b).mp h).2.2
  omega

/-- C19 on a program that demotes, copies, moves, swaps, resets and destroys weak handles and
locks one of them: two live weak handles remain on the block and its weak counter is 2. -/
theorem C19_weak_count_invariant_witness :
    (run [Op.sharedRaw (some (Addr.raw 5)), Op.weakDemote 0, Op.weakCopy 0, Op.weakMove 1,
      Op.weakDefault, Op.weakAssign 3 0, Op.weakSwap 0 1, Op.weakLock 2, Op.weakReset 3,
      Op.weakDtor 0, Op.weakMoveAssign 3 1] State.init).Weak 0 = 2 ∧
    1 ≤ (run [Op.sharedRaw (some (Addr.raw 5)), Op.weakDemote 0, Op.weakCopy 0, Op.weakMove 1,
      Op.weakDefault, Op.weakAssign 3 0, Op.weakSwap 0 1, Op.weakLock 2, Op.weakReset 3,
      Op.weakDtor 0, Op.weakMoveAssign 3 1] State.init).Weak 0 :=
  ⟨(C19_weak_count_invariant [Op.sharedRaw (some (Addr.raw 5)), Op.weakDemote 0, Op.weakCopy 0,
      Op.weakMove 1, Op.weakDefault, Op.weakAssign 3 0, Op.weakSwap 0 1, Op.weakLock 2,
      Op.weakReset 3, Op.weakDtor 0, Op.weakMoveAssign 3 1] 0).1,
    ((C19_weak_count_invariant [Op.sharedRaw (some (Addr.raw 5)), Op.weakDemote 0,
      Op.weakCopy 0, Op.weakMove 1, Op.weakDefault, Op.weakAssign 3 0, Op.weakSwap 0 1,
      Op.weakLock 2, Op.weakReset 3, Op.weakDtor 0, Op.weakMoveAssign 3 1] 0).2 2 (by decide)
      (by decide)).1⟩

/-! ### Copy construction and copy assignment -/

/-- The state after binding a new `SharedPtr` to `(B, p)` and calling `PlusShared`. -/
theorem bind_effect (s : State) (B : Option BlockId) (p : Option Addr)
    (hB : ∀ a, B = some a → a < s.heap.length) :
    (SharedPtr.PlusShared s.shared.length
        (s.newS.setS s.shared.length { block_ := B, ptr_ := p })).liveS s.shared.length = true ∧
    (SharedPtr.PlusShared s.shared.length
        (s.newS.setS s.shared.length { block_ := B, ptr_ := p })).getS s.shared.length =
      { block_ := B, ptr_ := p } ∧
    (∀ b, (SharedPtr.PlusShared s.shared.length
        (s.newS.setS s.shared.length { block_ := B, ptr_ := p })).Strong b =
      s.Strong b + (if B = some b then 1 else 0)) ∧
    (∀ b, (SharedPtr.PlusShared s.shared.length
        (s.newS.setS s.shared.length { block_ := B, ptr_ := p })).Weak b = s.Weak b) ∧
    (SharedPtr.PlusShared s.shared.length
        (s.newS.setS s.shared.length { block_ := B, ptr_ := p })).trace = s.trace ∧
    (SharedPtr.PlusShared s.shared.length
        (s.newS.setS s.shared.length { block_ := B, ptr_ := p })).weak = s.weak := by
  cases B with
  | none =>
    have hn : s.shared.length < s.newS.shared.length := by simp [State.newS]
    have hg : (s.newS.setS s.shared.length { block_ := none, ptr_ := p }).getS s.shared.length =
        { block_ := none, ptr_ := p } := by
      rw [getS_setS hn]; simp
    rw [PlusShared_none (by rw [hg])]
    refine ⟨?_, hg, ?_, ?_, rfl, rfl⟩
    · rw [liveS_setS (liveS_newS_self s)]; exact liveS_newS_self s
    · intro b; simp
    · intro b; simp
  | some a =>
    have he := promote_effect s a p (hB a rfl)
    refine ⟨he.2.1, he.2.2.1, ?_, he.2.2.2.2.1, he.2.2.2.2.2.1, he.2.2.2.2.2.2⟩
    intro b
    rw [he.2.2.2.1 b]
    by_cases e : b = a
    · subst e; simp
    · have e2 : ¬ (a = b) := fun h => e h.symm
      simp [e, e2]

/-- The state after binding a new `WeakPtr` to `(B, p)` and calling `PlusWeak`. -/
theorem bindW_effect (s : State) (B : Option BlockId) (p : Option Addr)
    (hB : ∀ a, B = some a → a < s.heap.length) :
    (WeakPtr.PlusWeak s.weak.length
        (s.newW.setW s.weak.length { block_ := B, ptr_ := p })).liveW s.weak.length = true ∧
    (WeakPtr.PlusWeak s.weak.length
        (s.newW.setW s.weak.length { block_ := B, ptr_ := p })).getW s.weak.length =
      { block_ := B, ptr_ := p } ∧
    (∀ b, (WeakPtr.PlusWeak s.weak.length
        (s.newW.setW s.weak.length { block_ := B, ptr_ := p })).Weak b =
      s.Weak b + (if B = some b then 1 else 0)) ∧
    (∀ b, (WeakPtr.PlusWeak s.weak.length
        (s.newW.setW s.weak.length { block_ := B, ptr_ := p })).Strong b = s.Strong b) ∧
    (WeakPtr.PlusWeak s.weak.length
        (s.newW.setW s.weak.length { block_ := B, ptr_ := p })).trace = s.trace ∧
    (WeakPtr.PlusWeak s.weak.length
        (s.newW.setW s.weak.length { block_ := B, ptr_ := p })).shared = s.shared ∧
    (∀ j, j ≠ s.weak.length → (WeakPtr.PlusWeak s.weak.length
        (s.newW.setW s.weak.length { block_ := B, ptr_ := p })).getW j = s.getW j) := by
  have hn : s.weak.length < s.newW.weak.length := by simp [State.newW]
  have hg : (s.newW.setW s.weak.length { block_ := B, ptr_ := p }).getW s.weak.length =
      { block_ := B, ptr_ := p } := by
    rw [getW_setW hn]; simp
  have hfr : ∀ j, j ≠ s.weak.length →
      (s.newW.setW s.weak.length { block_ := B, ptr_ := p }).getW j = s.getW j := by
    intro j hj
    rw [getW_setW hn]; simp only [hj, if_false]; exact getW_newW s j
  cases B with
  | none =>
    rw [PlusWeak_none (by rw [hg])]
    refine ⟨?_, hg, ?_, ?_, rfl, rfl, hfr⟩
    · rw [liveW_setW (liveW_newW_self s)]; exact liveW_newW_self s
    · intro b; simp
    · intro b; simp
  | some a =>
    have ha : a < s.heap.length := hB a rfl
    rw [PlusWeak_some (by rw [hg])]
    refine ⟨?_, ?_, ?_, ?_, ?_, ?_, ?_⟩
    · rw [liveW_invoke, liveW_setW (liveW_newW_self s)]; exact liveW_newW_self s
    · rw [getW_invoke, hg]
    · intro b
      rw [Weak_PlusWeak _ _ _ (by simpa using ha)]
      by_cases e : b = a
      · subst e; simp
      · have e2 : ¬ (a = b) := fun h => e h.symm
        simp [e, e2]
    · intro b; rw [Strong_PlusWeak]; simp
    · rw [trace_PlusWeak]; simp
    · simp
    · intro j hj; rw [getW_invoke]; exact hfr j hj

theorem block_lt_of_liveS {s : State} {i : Nat} {a : BlockId} (hs : Inv s)
    (hl : s.liveS i = true) (hb : (s.getS i).block_ = some a) : a < s.heap.length := by
  have := Strong_pos_of_liveS hs hl hb
  exact lt_of_Strong_ne (by omega)

theorem block_lt_of_liveW {s : State} {i : Nat} {a : BlockId} (hs : Inv s)
    (hl : s.liveW i = true) (hb : (s.getW i).block_ = some a) : a < s.heap.length := by
  have := Weak_pos_of_liveW hs hl hb
  exact lt_of_Weak_ne (by omega)

/-- The taken branch of the copy assignment, as one rebinding between the two counter calls. -/
theorem assignCopy_ne {s : State} {this other : Nat}
    (hne : (s.getS this).ptr_ ≠ (s.getS other).ptr_) :
    SharedPtr.assignCopy this other s =
      SharedPtr.PlusShared this ((SharedPtr.MinusShared this s).setS this
        { block_ := (s.getS other).block_, ptr_ := (s.getS other).ptr_ }) := by
  unfold SharedPtr.assignCopy
  rw [if_pos hne]
  simp only []
  rw [block_getS_setSPtr, setSPtr_setSBlock, getS_MinusShared]

theorem assignCopyW_ne {s : State} {this other : Nat}
    (hne : (s.getW this).ptr_ ≠ (s.getW other).ptr_) :
    WeakPtr.assignCopy this other s =
      WeakPtr.PlusWeak this ((WeakPtr.MinusWeak this s).setW this
        { block_ := (s.getW other).block_, ptr_ := (s.getW other).ptr_ }) := by
  unfold WeakPtr.assignCopy
  rw [if_pos hne]
  simp only []
  rw [block_getW_setWPtr, setWPtr_setWBlock, getW_MinusWeak]

theorem Strong_MinusShared {s : State} {i : Nat}
    (hA : ∀ a, (s.getS i).block_ = some a → a < s.heap.length) (b : BlockId) :
    (SharedPtr.MinusShared i s).Strong b =
      s.Strong b - (if (s.getS i).block_ = some b then 1 else 0) := by
  cases h : (s.getS i).block_ with
  | none => rw [MinusShared_none h]; simp
  | some a =>
    rw [MinusShared_some h, Strong_MinusStrong _ _ _ (hA a h)]
    by_cases e : b = a
    · subst e; simp
    · have e2 : ¬ (a = b) := fun h => e h.symm
      simp [e, e2]

theorem Weak_MinusShared (s : State) (i : Nat) (b : BlockId) :
    (SharedPtr.MinusShared i s).Weak b = s.Weak b := by
  unfold SharedPtr.MinusShared
  split
  · rw [Weak_MinusStrong]
  · rfl

theorem Weak_MinusWeak_handle {s : State} {i : Nat}
    (hA : ∀ a, (s.getW i).block_ = some a → a < s.heap.length) (b : BlockId) :
    (WeakPtr.MinusWeak i s).Weak b =
      s.Weak b - (if (s.getW i).block_ = some b then 1 else 0) := by
  cases h : (s.getW i).block_ with
  | none => rw [MinusWeak_none h]; simp
  | some a =>
    rw [MinusWeak_some h, Weak_MinusWeak _ _ _ (hA a h)]
    by_cases e : b = a
    · subst e; simp
    · have e2 : ¬ (a = b) := fun h => e h.symm
      simp [e, e2]

theorem Strong_MinusWeak_handle (s : State) (i : Nat) (b : BlockId) :
    (WeakPtr.MinusWeak i s).Strong b = s.Strong b := by
  unfold WeakPtr.MinusWeak
  split
  · rw [Strong_MinusWeak]
  · rfl

/-- The state after the taken branch of the `SharedPtr` copy assignment. -/
theorem assignCopy_effect {s : State} {this other : Nat} (hs : Inv s)
    (ht : s.liveS this = true) (ho : s.liveS other = true)
    (hne : (s.getS this).ptr_ ≠ (s.getS other).ptr_) :
    (SharedPtr.assignCopy this other s).getS this = s.getS other ∧
    (SharedPtr.assignCopy this other s).getS other = s.getS other ∧
    (∀ b, (SharedPtr.assignCopy this other s).Strong b =
      s.Strong b - (if (s.getS this).block_ = some b then 1 else 0) +
        (if (s.getS other).block_ = some b then 1 else 0)) ∧
    (∀ b, (SharedPtr.assignCopy this other s).Weak b = s.Weak b) := by
  have e : other ≠ this := by
    intro h; subst h; exact hne rfl
  have hlt : this < (SharedPtr.MinusShared this s).shared.length := by
    simpa using liveS_lt ht
  have hg : ∀ j, ((SharedPtr.MinusShared this s).setS this
      { block_ := (s.getS other).block_, ptr_ := (s.getS other).ptr_ }).getS j =
      if j = this then s.getS other else s.getS j := by
    intro j
    rw [getS_setS hlt, getS_MinusShared]
  have hA : ∀ a, (s.getS this).block_ = some a → a < s.heap.length :=
    fun a h => block_lt_of_liveS hs ht h
  rw [assignCopy_ne hne]
  rcases Option.eq_none_or_eq_some (s.getS other).block_ with hB | ⟨B, hB⟩
  · rw [PlusShared_none (by rw [hg]; simp [hB])]
    refine ⟨?_, ?_, ?_, ?_⟩
    · rw [hg]; simp
    · rw [hg]; simp [e]
    · intro b
      rw [Strong_setS, Strong_MinusShared hA]; simp [hB]
    · intro b
      rw [Weak_setS, Weak_MinusShared]
  · have hBlt : B < s.heap.length := block_lt_of_liveS hs ho hB
    rw [PlusShared_some (a := B) (by rw [hg]; simp [hB])]
    refine ⟨?_, ?_, ?_, ?_⟩
    · rw [getS_invoke, hg]; simp
    · rw [getS_invoke, hg]; simp [e]
    · intro b
      rw [Strong_PlusStrong _ _ _ (by simpa using hBlt), Strong_setS, Strong_MinusShared hA, hB]
      by_cases e1 : b = B
      · subst e1; simp
      · have e2 : ¬ (B = b) := fun h => e1 h.symm
        simp [e1, e2]
    · intro b
      rw [Weak_PlusStrong, Weak_setS, Weak_MinusShared]

/-- The state after the taken branch of the `WeakPtr` copy assignment. -/
theorem assignCopyW_effect {s : State} {this other : Nat} (hs : Inv s)
    (ht : s.liveW this = true) (ho : s.liveW other = true)
    (hne : (s.getW this).ptr_ ≠ (s.getW other).ptr_) :
    (WeakPtr.assignCopy this other s).getW this = s.getW other ∧
    (WeakPtr.assignCopy this other s).getW other = s.getW other ∧
    (∀ b, (WeakPtr.assignCopy this other s).Weak b =
      s.Weak b - (if (s.getW this).block_ = some b then 1 else 0) +
        (if (s.getW other).block_ = some b then 1 else 0)) ∧
    (∀ b, (WeakPtr.assignCopy this other s).Strong b = s.Strong b) := by
  have e : other ≠ this := by
    intro h; subst h; exact hne rfl
  have hlt : this < (WeakPtr.MinusWeak this s).weak.length := by
    simpa using liveW_lt ht
  have hg : ∀ j, ((WeakPtr.MinusWeak this s).setW this
      { block_ := (s.getW other).block_, ptr_ := (s.getW other).ptr_ }).getW j =
      if j = this then s.getW other else s.getW j := by
    intro j
    rw [getW_setW hlt, getW_MinusWeak]
  have hA : ∀ a, (s.getW this).block_ = some a → a < s.heap.length :=
    fun a h => block_lt_of_liveW hs ht h
  rw [assignCopyW_ne hne]
  rcases Option.eq_none_or_eq_some (s.getW other).block_ with hB | ⟨B, hB⟩
  · rw [PlusWeak_none (by rw [hg]; simp [hB])]
    refine ⟨?_, ?_, ?_, ?_⟩
    · rw [hg]; simp
    · rw [hg]; simp [e]
    · intro b
      rw [Weak_setW, Weak_MinusWeak_handle hA]; simp [hB]
    · intro b
      rw [Strong_setW, Strong_MinusWeak_handle]
  · have hBlt : B < s.heap.length := block_lt_of_liveW hs ho hB
    rw [PlusWeak_some (a := B) (by rw [hg]; simp [hB])]
    refine ⟨?_, ?_, ?_, ?_⟩
    · rw [getW_invoke, hg]; simp
    · rw [getW_invoke, hg]; simp [e]
    · intro b
      rw [Weak_PlusWeak _ _ _ (by simpa using hBlt), Weak_setW, Weak_MinusWeak_handle hA, hB]
      by_cases e1 : b = B
      · subst e1; simp
      · have e2 : ¬ (B = b) := fun h => e1 h.symm
        simp [e1, e2]
    · intro b
      rw [Strong_PlusWeak, Strong_setW, Strong_MinusWeak_handle]

/-- C13 as stated fails: `w` observes block 0 and `v` observes block 1 through handles with the
same observed address (the second one an alias).  The copy assignment `w = v` finds equal
observed addresses and does nothing: `w` keeps block 0, `w.UseCount()` is 1 while
`v.UseCount()` is 2, and once the owner of block 0 is destroyed `w` is expired while `v` is
not. -/
theorem C13_counterexample :
    ((WeakPtr.assignCopy 0 1 (run [Op.sharedRaw (some (Addr.raw 1)),
      Op.sharedRaw (some (Addr.raw 2)), Op.sharedAlias 1 (some (Addr.raw 1)), Op.weakDemote 0,
      Op.weakDemote 2] State.init)).getW 0).block_ = some 0 ∧
    ((WeakPtr.assignCopy 0 1 (run [Op.sharedRaw (some (Addr.raw 1)),
      Op.sharedRaw (some (Addr.raw 2)), Op.sharedAlias 1 (some (Addr.raw 1)), Op.weakDemote 0,
      Op.weakDemote 2] State.init)).getW 1).block_ = some 1 ∧
    WeakPtr.UseCount 0 (WeakPtr.assignCopy 0 1 (run [Op.sharedRaw (some (Addr.raw 1)),
      Op.sharedRaw (some (Addr.raw 2)), Op.sharedAlias 1 (some (Addr.raw 1)), Op.weakDemote 0,
      Op.weakDemote 2] State.init)) = 1 ∧
    WeakPtr.UseCount 1 (WeakPtr.assignCopy 0 1 (run [Op.sharedRaw (some (Addr.raw 1)),
      Op.sharedRaw (some (Addr.raw 2)), Op.sharedAlias 1 (some (Addr.raw 1)), Op.weakDemote 0,
      Op.weakDemote 2] State.init)) = 2 ∧
    WeakPtr.Expired 0 (WeakPtr.assignCopy 0 1 (run [Op.sharedRaw (some (Addr.raw 1)),
      Op.sharedRaw (some (Addr.raw 2)), Op.sharedAlias 1 (some (Addr.raw 1)), Op.weakDemote 0,
      Op.weakDemote 2, Op.sharedDtor 0] State.init)) = true ∧
    WeakPtr.Expired 1 (WeakPtr.assignCopy 0 1 (run [Op.sharedRaw (some (Addr.raw 1)),
      Op.sharedRaw (some (Addr.raw 2)), Op.sharedAlias 1 (some (Addr.raw 1)), Op.weakDemote 0,
      Op.weakDemote 2, Op.sharedDtor 0] State.init)) = false ∧
    WeakPtr.UseCount 0 (WeakPtr.assignCopy 0 1 (run [Op.sharedRaw (some (Addr.raw 1)),
      Op.sharedRaw (some (Addr.raw 2)), Op.sharedAlias 1 (some (Addr.raw 1)), Op.weakDemote 0,
      Op.weakDemote 2] State.init)) ≠
      WeakPtr.UseCount 1 (WeakPtr.assignCopy 0 1 (run [Op.sharedRaw (some (Addr.raw 1)),
        Op.sharedRaw (some (Addr.raw 2)), Op.sharedAlias 1 (some (Addr.raw 1)),
        Op.weakDemote 0, Op.weakDemote 2] State.init)) := by
  refine ⟨by decide, by decide, by decide, by decide, by decide, by decide, by decide⟩

/-- C13, amended: in a state satisfying the invariant, copy construction from a live `WeakPtr`
`v` gives the new handle the block and the observed address of `v` (so `UseCount()` and
`Expired()` agree), increments the weak counter of that block by one and changes no strong
counter.  The copy assignment `w = v` does the same for `w` when the observed addresses of `w`
and `v` differ before the call, the weak counter of the previous block of `w` being decremented
by one and that of the block of `v` incremented by one; when the observed addresses are equal
the assignment changes nothing and `w` keeps its block. -/
theorem C13_weak_copy_shares_block (s : State) (w v : Nat) (hs : Inv s)
    (hv : s.liveW v = true) :
    ((WeakPtr.ctorCopy v s).getW s.weak.length = s.getW v ∧
      (WeakPtr.ctorCopy v s).getW v = s.getW v ∧
      WeakPtr.UseCount s.weak.length (WeakPtr.ctorCopy v s) =
        WeakPtr.UseCount v (WeakPtr.ctorCopy v s) ∧
      WeakPtr.Expired s.weak.length (WeakPtr.ctorCopy v s) =
        WeakPtr.Expired v (WeakPtr.ctorCopy v s) ∧
      (∀ x, (WeakPtr.ctorCopy v s).Weak x =
        s.Weak x + (if (s.getW v).block_ = some x then 1 else 0)) ∧
      (∀ x, (WeakPtr.ctorCopy v s).Strong x = s.Strong x)) ∧
    (s.liveW w = true → (s.getW w).ptr_ ≠ (s.getW v).ptr_ →
      (WeakPtr.assignCopy w v s).getW w = s.getW v ∧
      (WeakPtr.assignCopy w v s).getW v = s.getW v ∧
      WeakPtr.UseCount w (WeakPtr.assignCopy w v s) =
        WeakPtr.UseCount v (WeakPtr.assignCopy w v s) ∧
      WeakPtr.Expired w (WeakPtr.assignCopy w v s) =
        WeakPtr.Expired v (WeakPtr.assignCopy w v s) ∧
      (∀ x, (WeakPtr.assignCopy w v s).Weak x =
        s.Weak x - (if (s.getW w).block_ = some x then 1 else 0) +
          (if (s.getW v).block_ = some x then 1 else 0)) ∧
      (∀ x, (WeakPtr.assignCopy w v s).Strong x = s.Strong x)) ∧
    ((s.getW w).ptr_ = (s.getW v).ptr_ → WeakPtr.assignCopy w v s = s) := by
  refine ⟨?_, ?_, ?_⟩
  · have he := bindW_effect s (s.getW v).block_ (s.getW v).ptr_
      (fun x hx => block_lt_of_liveW hs hv hx)
    have hf := he.2.2.2.2.2.2 v (ne_length_of_liveW hv)
    rw [ctorCopyW_eq]
    refine ⟨he.2.1, hf, ?_, ?_, he.2.2.1, he.2.2.2.1⟩
    · unfold WeakPtr.UseCount; rw [he.2.1, hf]
    · unfold WeakPtr.Expired WeakPtr.UseCount; rw [he.2.1, hf]
  · intro hw hne
    have he := assignCopyW_effect hs hw hv hne
    refine ⟨he.1, he.2.1, ?_, ?_, he.2.2.1, he.2.2.2⟩
    · unfold WeakPtr.UseCount; rw [he.1, he.2.1]
    · unfold WeakPtr.Expired WeakPtr.UseCount; rw [he.1, he.2.1]
  · intro heq
    unfold WeakPtr.assignCopy
    rw [if_neg (fun h => h heq)]

/-- C13 (amended) on two groups: `w = v` with different observed addresses moves `w` to the
block of `v`; the weak counters become 0 for the block `w` left and 2 for the block of `v`. -/
theorem C13_weak_copy_shares_block_witness :
    (WeakPtr.assignCopy 0 1 (run [Op.sharedRaw (some (Addr.raw 1)),
      Op.sharedRaw (some (Addr.raw 2)), Op.weakDemote 0, Op.weakDemote 1] State.init)).getW 0 =
      { block_ := some 1, ptr_ := some (Addr.raw 2) } ∧
    (WeakPtr.assignCopy 0 1 (run [Op.sharedRaw (some (Addr.raw 1)),
      Op.sharedRaw (some (Addr.raw 2)), Op.weakDemote 0, Op.weakDemote 1] State.init)).Weak 0
      = 0 ∧
    (WeakPtr.assignCopy 0 1 (run [Op.sharedRaw (some (Addr.raw 1)),
      Op.sharedRaw (some (Addr.raw 2)), Op.weakDemote 0, Op.weakDemote 1] State.init)).Weak 1
      = 2 := by
  have h := (C13_weak_copy_shares_block (run [Op.sharedRaw (some (Addr.raw 1)),
    Op.sharedRaw (some (Addr.raw 2)), Op.weakDemote 0, Op.weakDemote 1] State.init) 0 1
    (inv_run [Op.sharedRaw (some (Addr.raw 1)), Op.sharedRaw (some (Addr.raw 2)),
      Op.weakDemote 0, Op.weakDemote 1] inv_init)
    (by decide)).2.1 (by decide) (by decide)
  exact ⟨h.1, by rw [h.2.2.2.2.1 0]; decide, by rw [h.2.2.2.2.1 1]; decide⟩

/-! ### Move construction and move assignment -/

/-- The state after the move constructor. -/
theorem ctorMove_effect {s : State} {o : Nat} (ho : s.liveS o = true) :
    (SharedPtr.ctorMove o s).getS s.shared.length = s.getS o ∧
    (SharedPtr.ctorMove o s).getS o = { block_ := none, ptr_ := none } ∧
    (SharedPtr.ctorMove o s).heap = s.heap ∧
    (SharedPtr.ctorMove o s).trace = s.trace ∧
    (SharedPtr.ctorMove o s).weak = s.weak ∧
    (∀ j, j ≠ o → j ≠ s.shared.length → (SharedPtr.ctorMove o s).getS j = s.getS j) := by
  have hn : s.shared.length < s.newS.shared.length := by simp [State.newS]
  have hon : o ≠ s.shared.length := ne_length_of_liveS ho
  have hlo : o < (s.newS.setS s.shared.length (s.newS.getS o)).shared.length := by
    have := liveS_lt ho
    simp [State.setS, State.newS]; omega
  rw [ctorMove_eq]
  refine ⟨?_, ?_, rfl, rfl, rfl, ?_⟩
  · rw [getS_setS hlo, getS_setS hn]
    simp only [Ne.symm hon, if_false, if_true]
    exact getS_newS s o
  · rw [getS_setS hlo]; simp
  · intro j h1 h2
    rw [getS_setS hlo, getS_setS hn]
    simp only [h1, h2, if_false]
    exact getS_newS s j

/-- The state after the move assignment between two different objects. -/
theorem assignMove_effect {s : State} {this other : Nat} (hs : Inv s)
    (ht : s.liveS this = true) (ho : s.liveS other = true) (hne : this ≠ other) :
    (SharedPtr.assignMove this other s).getS this = s.getS other ∧
    (SharedPtr.assignMove this other s).getS other = { block_ := none, ptr_ := none } ∧
    (∀ x, (SharedPtr.assignMove this other s).Strong x =
      s.Strong x - (if (s.getS this).block_ = some x then 1 else 0)) ∧
    (∀ x, (SharedPtr.assignMove this other s).Weak x = s.Weak x) := by
  have hlt : this < (SharedPtr.MinusShared this s).shared.length := by
    simpa using liveS_lt ht
  have hlo : other < ((SharedPtr.MinusShared this s).setS this (s.getS other)).shared.length := by
    have := liveS_lt ho
    simpa [State.setS] using this
  have hA : ∀ a, (s.getS this).block_ = some a → a < s.heap.length :=
    fun a h => block_lt_of_liveS hs ht h
  rw [assignMove_eq]
  refine ⟨?_, ?_, ?_, ?_⟩
  · rw [getS_setS hlo, getS_setS hlt]
    simp [hne]
  · rw [getS_setS hlo]; simp
  · intro x
    rw [Strong_setS, Strong_setS, Strong_MinusShared hA]
  · intro x
    rw [Weak_setS, Weak_setS, Weak_MinusShared]

/-- Self move assignment `t = std::move(t)` of the only owner: `MinusShared` runs first, so the
object and the block are released and `t` is left empty. -/
theorem assignMove_self_sole_owner :
    (SharedPtr.assignMove 0 0 (run [Op.sharedRaw (some (Addr.raw 1))] State.init)).trace =
      [Event.OnZeroStrong 0, Event.OnZeroWeak 0] ∧
    (SharedPtr.assignMove 0 0 (run [Op.sharedRaw (some (Addr.raw 1))] State.init)).getS 0 =
      { block_ := none, ptr_ := none } := by
  refine ⟨by decide, by decide⟩

/-! ### Observed address and block of a SharedPtr -/

theorem pairedS_empty : pairedS { block_ := none, ptr_ := none } := by
  simp [pairedS]

theorem pairedW_empty : pairedW { block_ := none, ptr_ := none } := by
  simp [pairedW]

theorem paired_of_stores {s t : State} (hs : s.Paired) (h1 : t.shared = s.shared)
    (h2 : t.weak = s.weak) : t.Paired := by
  unfold State.Paired
  rw [h1, h2]; exact hs

theorem paired_setS {s : State} (hs : s.Paired) (i : Nat) {x : SharedPtr} (hx : pairedS x) :
    (s.setS i x).Paired := by
  refine ⟨?_, hs.2⟩
  intro h hm
  rcases List.mem_or_eq_of_mem_set hm with h1 | h1
  · exact hs.1 h h1
  · cases h1; exact hx

theorem paired_setW {s : State} (hs : s.Paired) (i : Nat) {x : WeakPtr} (hx : pairedW x) :
    (s.setW i x).Paired := by
  refine ⟨hs.1, ?_⟩
  intro h hm
  rcases List.mem_or_eq_of_mem_set hm with h1 | h1
  · exact hs.2 h h1
  · cases h1; exact hx

theorem paired_newS {s : State} (hs : s.Paired) : s.newS.Paired := by
  refine ⟨?_, hs.2⟩
  intro h hm
  simp only [State.newS, List.mem_append, List.mem_singleton] at hm
  rcases hm with h1 | h1
  · exact hs.1 h h1
  · cases h1; exact pairedS_empty

theorem paired_newW {s : State} (hs : s.Paired) : s.newW.Paired := by
  refine ⟨hs.1, ?_⟩
  intro h hm
  simp only [State.newW, List.mem_append, List.mem_singleton] at hm
  rcases hm with h1 | h1
  · exact hs.2 h h1
  · cases h1; exact pairedW_empty

theorem paired_endS {s : State} (hs : s.Paired) (i : Nat) : (s.endS i).Paired := by
  refine ⟨?_, hs.2⟩
  intro h hm
  rcases List.mem_or_eq_of_mem_set hm with h1 | h1
  · exact hs.1 h h1
  · cases h1

theorem paired_endW {s : State} (hs : s.Paired) (i : Nat) : (s.endW i).Paired := by
  refine ⟨hs.1, ?_⟩
  intro h hm
  rcases List.mem_or_eq_of_mem_set hm with h1 | h1
  · exact hs.2 h h1
  · cases h1

theorem paired_getS {s : State} (hs : s.Paired) (i : Nat) : pairedS (s.getS i) := by
  by_cases hl : s.liveS i = true
  · exact hs.1 _ (List.getElem?_mem (liveS_get hl))
  · have : s.getS i = { block_ := none, ptr_ := none } := by
      unfold State.getS
      split
      · rename_i h heq
        exact absurd ((liveS_iff s i).mpr ⟨h, heq⟩) hl
      · rfl
    rw [this]; exact pairedS_empty

theorem paired_getW {s : State} (hs : s.Paired) (i : Nat) : pairedW (s.getW i) := by
  by_cases hl : s.liveW i = true
  · exact hs.2 _ (List.getElem?_mem (liveW_get hl))
  · have : s.getW i = { block_ := none, ptr_ := none } := by
      unfold State.getW
      split
      · rename_i h heq
        exact absurd ((liveW_iff s i).mpr ⟨h, heq⟩) hl
      · rfl
    rw [this]; exact pairedW_empty

theorem paired_invoke {s : State} (hs : s.Paired) (a : BlockId)
    (m : BlockId → ControlBlockBase → ControlBlockBase × List Event) : (s.invoke a m).Paired :=
  paired_of_stores hs (shared_invoke s a m) (weak_invoke s a m)

theorem paired_alloc {s : State} (hs : s.Paired) (c : ControlBlockBase) : (s.alloc c).Paired :=
  paired_of_stores hs rfl rfl

theorem paired_PlusShared {s : State} (hs : s.Paired) (i : Nat) :
    (SharedPtr.PlusShared i s).Paired :=
  paired_of_stores hs (shared_PlusShared s i) (weak_PlusShared s i)

theorem paired_MinusShared {s : State} (hs : s.Paired) (i : Nat) :
    (SharedPtr.MinusShared i s).Paired :=
  paired_of_stores hs (shared_MinusShared s i) (weak_MinusShared s i)

theorem paired_PlusWeak {s : State} (hs : s.Paired) (i : Nat) :
    (WeakPtr.PlusWeak i s).Paired := by
  unfold WeakPtr.PlusWeak
  split
  · exact paired_invoke hs _ _
  · exact hs

theorem paired_MinusWeak {s : State} (hs : s.Paired) (i : Nat) :
    (WeakPtr.MinusWeak i s).Paired :=
  paired_of_stores hs (shared_MinusWeak s i) (weak_MinusWeak_state s i)

theorem paired_ctorDefault {s : State} (hs : s.Paired) : (SharedPtr.ctorDefault s).Paired :=
  paired_setS (paired_newS hs) _ pairedS_empty

theorem paired_ctorRaw {s : State} (hs : s.Paired) (p : Option Addr) (hp : p.isSome = true) :
    (SharedPtr.ctorRaw p s).Paired := by
  rw [ctorRaw_eq]
  refine paired_invoke (paired_setS (paired_alloc (paired_newS hs) _) _ ?_) _ _
  cases p with
  | none => cases hp
  | some x => simp [pairedS]

theorem paired_MakeShared {s : State} (hs : s.Paired) : (MakeShared s).Paired := by
  rw [MakeShared_eq]
  exact paired_invoke (paired_setS (paired_alloc (paired_newS hs) _) _ (by simp [pairedS])) _ _

theorem paired_ctorCopy {s : State} (hs : s.Paired) (o : Nat) :
    (SharedPtr.ctorCopy o s).Paired := by
  rw [ctorCopy_eq]
  exact paired_PlusShared (paired_setS (paired_newS hs) _ (paired_getS hs o)) _

theorem paired_ctorAlias {s : State} (hs : s.Paired) (o : Nat) (p : Option Addr)
    (hp : (p.isSome == (s.getS o).block_.isSome) = true) :
    (SharedPtr.ctorAlias o p s).Paired := by
  rw [ctorAlias_eq]
  refine paired_PlusShared (paired_setS (paired_newS hs) _ ?_) _
  unfold pairedS
  cases p <;> cases h : (s.getS o).block_ <;> simp_all

theorem paired_ctorMove {s : State} (hs : s.Paired) (o : Nat) :
    (SharedPtr.ctorMove o s).Paired := by
  rw [ctorMove_eq]
  exact paired_setS (paired_setS (paired_newS hs) _ (paired_getS (paired_newS hs) o)) _
    pairedS_empty

theorem paired_ctorPromote {s : State} (hs : s.Paired) (o : Nat) :
    (orCaught s (SharedPtr.ctorPromote o s)).Paired := by
  by_cases he : WeakPtr.Expired o s = true
  · rw [ctorPromote_error he]; exact hs
  · rw [ctorPromote_ok he]
    exact paired_PlusShared (paired_setS (paired_newS hs) _
      (show pairedS { block_ := (s.getW o).block_, ptr_ := (s.getW o).ptr_ } from
        paired_getW hs o)) _

theorem paired_Lock {s : State} (hs : s.Paired) (o : Nat) :
    (orCaught s (WeakPtr.Lock o s)).Paired := by
  unfold WeakPtr.Lock
  split_ifs
  · exact paired_ctorDefault hs
  · exact paired_ctorPromote hs o

theorem paired_assignCopy {s : State} (hs : s.Paired) (t o : Nat) :
    (SharedPtr.assignCopy t o s).Paired := by
  by_cases hne : (s.getS t).ptr_ ≠ (s.getS o).ptr_
  · rw [assignCopy_ne hne]
    exact paired_PlusShared (paired_setS (paired_MinusShared hs t) _ (paired_getS hs o)) _
  · unfold SharedPtr.assignCopy
    rw [if_neg hne]; exact hs

theorem paired_assignMove {s : State} (hs : s.Paired) (t o : Nat) :
    (SharedPtr.assignMove t o s).Paired := by
  rw [assignMove_eq]
  exact paired_setS (paired_setS (paired_MinusShared hs t) _ (paired_getS hs o)) _
    pairedS_empty

theorem paired_dtor {s : State} (hs : s.Paired) (t : Nat) : (SharedPtr.dtor t s).Paired :=
  paired_endS (paired_MinusShared hs t) t

theorem paired_Reset {s : State} (hs : s.Paired) (t : Nat) : (SharedPtr.Reset t s).Paired := by
  rw [Reset_eq]
  exact paired_setS (paired_MinusShared hs t) _ pairedS_empty

theorem paired_ResetPtr {s : State} (hs : s.Paired) (t : Nat) (p : Option Addr)
    (hl : s.liveS t = true) (hp : p.isSome = true) : (SharedPtr.ResetPtr t p s).Paired := by
  rw [ResetPtr_eq t p s hl]
  refine paired_invoke (paired_setS (paired_alloc (paired_MinusShared hs t) _) _ ?_) _ _
  cases p with
  | none => cases hp
  | some x => simp [pairedS]

theorem paired_Swap {s : State} (hs : s.Paired) (t o : Nat) : (SharedPtr.Swap t o s).Paired :=
  paired_dtor (paired_assignMove (paired_assignMove (paired_ctorMove hs t) t o) o _) _

theorem paired_ctorCopyW {s : State} (hs : s.Paired) (o : Nat) :
    (WeakPtr.ctorCopy o s).Paired := by
  rw [ctorCopyW_eq]
  exact paired_PlusWeak (paired_setW (paired_newW hs) _ (paired_getW hs o)) _

theorem paired_ctorDemote {s : State} (hs : s.Paired) (o : Nat) :
    (WeakPtr.ctorDemote o s).Paired := by
  rw [ctorDemote_eq]
  exact paired_PlusWeak (paired_setW (paired_newW hs) _
    (show pairedW { block_ := (s.getS o).block_, ptr_ := (s.getS o).ptr_ } from
      paired_getS hs o)) _

theorem paired_ctorMoveW {s : State} (hs : s.Paired) (o : Nat) :
    (WeakPtr.ctorMove o s).Paired := by
  rw [ctorMoveW_eq]
  exact paired_setW (paired_setW (paired_newW hs) _ (paired_getW (paired_newW hs) o)) _
    pairedW_empty

theorem paired_assignCopyW {s : State} (hs : s.Paired) (t o : Nat) :
    (WeakPtr.assignCopy t o s).Paired := by
  by_cases hne : (s.getW t).ptr_ ≠ (s.getW o).ptr_
  · rw [assignCopyW_ne hne]
    exact paired_PlusWeak (paired_setW (paired_MinusWeak hs t) _ (paired_getW hs o)) _
  · unfold WeakPtr.assignCopy
    rw [if_neg hne]; exact hs

theorem paired_assignMoveW {s : State} (hs : s.Paired) (t o : Nat) :
    (WeakPtr.assignMove t o s).Paired := by
  rw [assignMoveW_eq]
  exact paired_setW (paired_setW (paired_MinusWeak hs t) _ (paired_getW hs o)) _
    pairedW_empty

theorem paired_dtorW {s : State} (hs : s.Paired) (t : Nat) : (WeakPtr.dtor t s).Paired :=
  paired_endW (paired_MinusWeak hs t) t

theorem paired_ResetW {s : State} (hs : s.Paired) (t : Nat) : (WeakPtr.Reset t s).Paired := by
  rw [ResetW_eq]
  exact paired_setW (paired_MinusWeak hs t) _ pairedW_empty

theorem paired_SwapW {s : State} (hs : s.Paired) (t o : Nat) : (WeakPtr.Swap t o s).Paired :=
  paired_dtorW (paired_assignMoveW (paired_assignMoveW (paired_ctorMoveW hs t) t o) o _) _

theorem paired_step {s : State} (hs : s.Paired) (op : Op) (hp : op.pairing s = true) :
    (step s op).Paired := by
  unfold step
  split_ifs with hr
  · cases op with
    | sharedDefault => exact paired_ctorDefault hs
    | sharedRaw p => exact paired_ctorRaw hs p hp
    | makeShared => exact paired_MakeShared hs
    | sharedCopy o => exact paired_ctorCopy hs o
    | sharedMove o => exact paired_ctorMove hs o
    | sharedAlias o p => exact paired_ctorAlias hs o p hp
    | sharedPromote o => exact paired_ctorPromote hs o
    | sharedAssign t o => exact paired_assignCopy hs t o
    | sharedMoveAssign t o => exact paired_assignMove hs t o
    | sharedDtor t => exact paired_dtor hs t
    | sharedReset t => exact paired_Reset hs t
    | sharedResetPtr t p => exact paired_ResetPtr hs t p hr hp
    | sharedSwap t o => exact paired_Swap hs t o
    | weakDefault => exact paired_newW hs
    | weakCopy o => exact paired_ctorCopyW hs o
    | weakMove o => exact paired_ctorMoveW hs o
    | weakDemote o => exact paired_ctorDemote hs o
    | weakAssign t o => exact paired_assignCopyW hs t o
    | weakMoveAssign t o => exact paired_assignMoveW hs t o
    | weakDtor t => exact paired_dtorW hs t
    | weakReset t => exact paired_ResetW hs t
    | weakSwap t o => exact paired_SwapW hs t o
    | weakLock t => exact paired_Lock hs t
  · exact hs

theorem paired_run (ops : List Op) {s : State} (hs : s.Paired)
    (hp : pairingRun ops s = true) : (run ops s).Paired := by
  induction ops generalizing s with
  | nil => exact hs
  | cons op rest ih =>
    simp only [pairingRun, Bool.and_eq_true] at hp
    exact ih (paired_step hs op hp.1) hp.2

theorem paired_init : State.init.Paired := by
  constructor <;> intro h hm <;> simp [State.init] at hm

theorem heap_alloc_invoke_PlusStrong (s : State) (c : ControlBlockBase) (i : Nat)
    (x : SharedPtr) :
    (((s.alloc c).setS i x).invoke s.heap.length ControlBlockBase.PlusStrong).heap =
      s.heap ++ [(ControlBlockBase.PlusStrong s.heap.length c).1] := by
  unfold State.invoke
  have h : ((s.alloc c).setS i x).heap[s.heap.length]? = some c := by
    simp [State.alloc, State.setS]
  rw [h]
  simp [State.alloc, State.setS]

theorem sameStrong_refl (s : State) : s.sameStrong s :=
  ⟨fun _ => rfl, fun _ h => h⟩

theorem sameStrong_frame {s t u : State} (h : s.sameStrong t) (e1 : u.heap = t.heap)
    (e2 : u.trace = t.trace) : s.sameStrong u := by
  refine ⟨?_, ?_⟩
  · intro x
    have : u.Strong x = t.Strong x := by unfold State.Strong; rw [e1]
    rw [this]; exact h.1 x
  · intro x hx
    rw [e2] at hx; exact h.2 x hx

theorem sameStrong_setW {s t : State} (i : Nat) (x : WeakPtr) (h : s.sameStrong t) :
    s.sameStrong (t.setW i x) := sameStrong_frame h rfl rfl

theorem sameStrong_setWPtr {s t : State} (i : Nat) (p : Option Addr) (h : s.sameStrong t) :
    s.sameStrong (t.setWPtr i p) := sameStrong_frame h rfl rfl

theorem sameStrong_setWBlock {s t : State} (i : Nat) (b : Option BlockId)
    (h : s.sameStrong t) : s.sameStrong (t.setWBlock i b) := sameStrong_frame h rfl rfl

theorem sameStrong_newW {s t : State} (h : s.sameStrong t) : s.sameStrong t.newW :=
  sameStrong_frame h rfl rfl

theorem sameStrong_endW {s t : State} (i : Nat) (h : s.sameStrong t) :
    s.sameStrong (t.endW i) := sameStrong_frame h rfl rfl

theorem sameStrong_PlusWeak {s t : State} (i : Nat) (h : s.sameStrong t) :
    s.sameStrong (WeakPtr.PlusWeak i t) := by
  unfold WeakPtr.PlusWeak
  split
  · refine ⟨?_, ?_⟩
    · intro x; rw [Strong_PlusWeak]; exact h.1 x
    · intro x hx; rw [trace_PlusWeak] at hx; exact h.2 x hx
  · exact h

theorem sameStrong_MinusWeak {s t : State} (i : Nat) (h : s.sameStrong t) :
    s.sameStrong (WeakPtr.MinusWeak i t) := by
  unfold WeakPtr.MinusWeak
  split
  · rename_i a _
    refine ⟨?_, ?_⟩
    · intro x; rw [Strong_MinusWeak]; exact h.1 x
    · intro x hx
      rcases Nat.lt_or_ge a t.heap.length with ha | ha
      · rw [trace_MinusWeak _ _ ha] at hx
        apply h.2 x
        split_ifs at hx
        · simpa using hx
        · simpa using hx
      · rw [invoke_of_le ha] at hx; exact h.2 x hx
  · exact h

theorem sameStrong_ctorCopyW {s t : State} (o : Nat) (h : s.sameStrong t) :
    s.sameStrong (WeakPtr.ctorCopy o t) :=
  sameStrong_PlusWeak _ (sameStrong_setWPtr _ _ (sameStrong_setWBlock _ _ (sameStrong_newW h)))

theorem sameStrong_ctorDemote {s t : State} (o : Nat) (h : s.sameStrong t) :
    s.sameStrong (WeakPtr.ctorDemote o t) :=
  sameStrong_PlusWeak _ (sameStrong_setWPtr _ _ (sameStrong_setWBlock _ _ (sameStrong_newW h)))

theorem sameStrong_ctorMoveW {s t : State} (o : Nat) (h : s.sameStrong t) :
    s.sameStrong (WeakPtr.ctorMove o t) :=
  sameStrong_setWBlock _ _ (sameStrong_setWPtr _ _ (sameStrong_setWPtr _ _
    (sameStrong_setWBlock _ _ (sameStrong_newW h))))

theorem sameStrong_assignCopyW {s t : State} (i o : Nat) (h : s.sameStrong t) :
    s.sameStrong (WeakPtr.assignCopy i o t) := by
  unfold WeakPtr.assignCopy
  split_ifs
  · exact sameStrong_PlusWeak _ (sameStrong_setWBlock _ _ (sameStrong_setWPtr _ _
      (sameStrong_MinusWeak _ h)))
  · exact h

theorem sameStrong_assignMoveW {s t : State} (i o : Nat) (h : s.sameStrong t) :
    s.sameStrong (WeakPtr.assignMove i o t) :=
  sameStrong_setWBlock _ _ (sameStrong_setWPtr _ _ (sameStrong_setWBlock _ _
    (sameStrong_setWPtr _ _ (sameStrong_MinusWeak _ h))))

theorem sameStrong_dtorW {s t : State} (i : Nat) (h : s.sameStrong t) :
    s.sameStrong (WeakPtr.dtor i t) :=
  sameStrong_endW _ (sameStrong_MinusWeak _ h)

theorem sameStrong_ResetW {s t : State} (i : Nat) (h : s.sameStrong t) :
    s.sameStrong (WeakPtr.Reset i t) :=
  sameStrong_setWBlock _ _ (sameStrong_setWPtr _ _ (sameStrong_MinusWeak _ h))

theorem sameStrong_SwapW {s t : State} (i o : Nat) (h : s.sameStrong t) :
    s.sameStrong (WeakPtr.Swap i o t) :=
  sameStrong_dtorW _ (sameStrong_assignMoveW _ _ (sameStrong_assignMoveW _ _
    (sameStrong_ctorMoveW _ h)))

theorem sameStrong_exec (s : State) (op : Op) (hw : op.weakOnly = true) :
    s.sameStrong (op.exec s) := by
  cases op with
  | weakDefault => exact sameStrong_newW (sameStrong_refl s)
  | weakCopy o => exact sameStrong_ctorCopyW o (sameStrong_refl s)
  | weakMove o => exact sameStrong_ctorMoveW o (sameStrong_refl s)
  | weakDemote o => exact sameStrong_ctorDemote o (sameStrong_refl s)
  | weakAssign t o => exact sameStrong_assignCopyW t o (sameStrong_refl s)
  | weakMoveAssign t o => exact sameStrong_assignMoveW t o (sameStrong_refl s)
  | weakDtor t => exact sameStrong_dtorW t (sameStrong_refl s)
  | weakReset t => exact sameStrong_ResetW t (sameStrong_refl s)
  | weakSwap t o => exact sameStrong_SwapW t o (sameStrong_refl s)
  | _ => cases hw

/-- C18: demoting a live `SharedPtr` `o` (in a state satisfying the invariant) gives the new
`WeakPtr` the block and the observed address of `o`, increments the weak counter of that block
by one, changes no strong counter and calls no hook.  Every `WeakPtr` operation other than
`Lock` (default, copy, move and demoting construction, copy and move assignment, `Reset`,
`Swap`, destruction), run in any state, changes no strong counter and does not call
`OnZeroStrong`; `UseCount` and `Expired` only read the state. -/
theorem C18_weak_never_owns (s : State) (o : Nat) (hs : Inv s) (ho : s.liveS o = true) :
    ((WeakPtr.ctorDemote o s).getW s.weak.length =
        { block_ := (s.getS o).block_, ptr_ := (s.getS o).ptr_ } ∧
      (WeakPtr.ctorDemote o s).liveW s.weak.length = true ∧
      (∀ x, (WeakPtr.ctorDemote o s).Weak x =
        s.Weak x + (if (s.getS o).block_ = some x then 1 else 0)) ∧
      (∀ x, (WeakPtr.ctorDemote o s).Strong x = s.Strong x) ∧
      (WeakPtr.ctorDemote o s).trace = s.trace) ∧
    (∀ (t : State) (op : Op), op.weakOnly = true →
      (∀ x, (op.exec t).Strong x = t.Strong x) ∧
      (∀ x, Event.OnZeroStrong x ∈ (op.exec t).trace → Event.OnZeroStrong x ∈ t.trace) ∧
      (∀ x, (step t op).Strong x = t.Strong x) ∧
      (∀ x, Event.OnZeroStrong x ∈ (step t op).trace → Event.OnZeroStrong x ∈ t.trace)) := by
  constructor
  · have he := bindW_effect s (s.getS o).block_ (s.getS o).ptr_
      (fun x hx => block_lt_of_liveS hs ho hx)
    rw [ctorDemote_eq]
    exact ⟨he.2.1, he.1, he.2.2.1, he.2.2.2.1, he.2.2.2.2.1⟩
  · intro t op hw
    have h := sameStrong_exec t op hw
    refine ⟨h.1, h.2, ?_, ?_⟩
    · intro x
      unfold step
      split_ifs
      · exact h.1 x
      · rfl
    · intro x
      unfold step
      split_ifs
      · exact h.2 x
      · exact fun hx => hx

/-- C18 on a group with one owner: demotion makes the weak counter 1 and keeps the strong
counter at 1; destroying the weak handle afterwards leaves the strong counter at 1. -/
theorem C18_weak_never_owns_witness :
    (WeakPtr.ctorDemote 0 (run [Op.sharedRaw (some (Addr.raw 1))] State.init)).Weak 0 = 1 ∧
    (WeakPtr.ctorDemote 0 (run [Op.sharedRaw (some (Addr.raw 1))] State.init)).Strong 0 = 1 ∧
    (Op.exec (Op.weakDtor 0) (run [Op.sharedRaw (some (Addr.raw 1)), Op.weakDemote 0]
      State.init)).Strong 0 = 1 := by
  have h := C18_weak_never_owns (run [Op.sharedRaw (some (Addr.raw 1))] State.init) 0
    (inv_run [Op.sharedRaw (some (Addr.raw 1))] inv_init) (by decide)
  refine ⟨by rw [h.1.2.2.1 0]; decide, by rw [h.1.2.2.2.1 0]; decide, ?_⟩
  rw [(h.2 (run [Op.sharedRaw (some (Addr.raw 1)), Op.weakDemote 0] State.init)
    (Op.weakDtor 0) rfl).1 0]
  decide

/-! ### Swap -/

theorem assignMove_empty {s : State} {this : Nat} (other : Nat)
    (hb : (s.getS this).block_ = none) :
    SharedPtr.assignMove this other s =
      (s.setS this (s.getS other)).setS other { block_ := none, ptr_ := none } := by
  rw [assignMove_eq, MinusShared_none hb]

theorem dtor_empty {s : State} {i : Nat} (hb : (s.getS i).block_ = none) :
    SharedPtr.dtor i s = s.endS i := by
  unfold SharedPtr.dtor
  simp only []
  rw [MinusShared_none hb]

theorem length_setS (s : State) (i : Nat) (x : SharedPtr) :
    (s.setS i x).shared.length = s.shared.length := by
  simp [State.setS]

/-- The state after `Swap` on two live `SharedPtr` objects (possibly the same one). -/
theorem Swap_effect {s : State} {a b : Nat} (ha : s.liveS a = true) (hb : s.liveS b = true) :
    (SharedPtr.Swap a b s).heap = s.heap ∧
    (SharedPtr.Swap a b s).trace = s.trace ∧
    (SharedPtr.Swap a b s).weak = s.weak ∧
    (SharedPtr.Swap a b s).getS a = s.getS b ∧
    (SharedPtr.Swap a b s).getS b = s.getS a ∧
    (∀ j, j ≠ a → j ≠ b → (SharedPtr.Swap a b s).getS j = s.getS j) ∧
    (∀ j, s.liveS j = true → (SharedPtr.Swap a b s).liveS j = true) := by
  have han : a ≠ s.shared.length := ne_length_of_liveS ha
  have hbn : b ≠ s.shared.length := ne_length_of_liveS hb
  have h1 := ctorMove_effect ha
  have l1 : ∀ j, s.liveS j = true ∨ j = s.shared.length →
      (SharedPtr.ctorMove a s).liveS j = true := fun j hj => liveS_ctorMove ha hj
  have len1 : (SharedPtr.ctorMove a s).shared.length = s.shared.length + 1 := by
    rw [ctorMove_eq]; simp [State.setS, State.newS]
  have e2 : SharedPtr.assignMove a b (SharedPtr.ctorMove a s) =
      ((SharedPtr.ctorMove a s).setS a ((SharedPtr.ctorMove a s).getS b)).setS b
        { block_ := none, ptr_ := none } :=
    assignMove_empty b (by rw [h1.2.1])
  have ha1 : a < (SharedPtr.ctorMove a s).shared.length := liveS_lt (l1 a (Or.inl ha))
  have hb1 : b < (SharedPtr.ctorMove a s).shared.length := liveS_lt (l1 b (Or.inl hb))
  have hn1 : s.shared.length < (SharedPtr.ctorMove a s).shared.length := by rw [len1]; omega
  have g2 : ∀ j, (SharedPtr.assignMove a b (SharedPtr.ctorMove a s)).getS j =
      if j = b then { block_ := none, ptr_ := none }
      else if j = a then (SharedPtr.ctorMove a s).getS b
      else (SharedPtr.ctorMove a s).getS j := by
    intro j
    rw [e2, getS_setS (by rw [length_setS]; exact hb1), getS_setS ha1]
  have l2 : ∀ j, s.liveS j = true ∨ j = s.shared.length →
      (SharedPtr.assignMove a b (SharedPtr.ctorMove a s)).liveS j = true :=
    fun j hj => liveS_assignMove (l1 a (Or.inl ha)) (l1 b (Or.inl hb)) (l1 j hj)
  have len2 : (SharedPtr.assignMove a b (SharedPtr.ctorMove a s)).shared.length =
      s.shared.length + 1 := by
    rw [e2, length_setS, length_setS, len1]
  have e3 : SharedPtr.assignMove b s.shared.length
      (SharedPtr.assignMove a b (SharedPtr.ctorMove a s)) =
      ((SharedPtr.assignMove a b (SharedPtr.ctorMove a s)).setS b
        ((SharedPtr.assignMove a b (SharedPtr.ctorMove a s)).getS s.shared.length)).setS
        s.shared.length { block_ := none, ptr_ := none } :=
    assignMove_empty s.shared.length (by rw [g2]; simp)
  have gn2 : (SharedPtr.assignMove a b (SharedPtr.ctorMove a s)).getS s.shared.length =
      s.getS a := by
    rw [g2]
    simp only [Ne.symm hbn, Ne.symm han, if_false]
    exact h1.1
  have hb2 : b < (SharedPtr.assignMove a b (SharedPtr.ctorMove a s)).shared.length := by
    rw [len2]; have := liveS_lt hb; omega
  have hn2 : s.shared.length <
      (SharedPtr.assignMove a b (SharedPtr.ctorMove a s)).shared.length := by
    rw [len2]; omega
  have g3 : ∀ j, (SharedPtr.assignMove b s.shared.length
      (SharedPtr.assignMove a b (SharedPtr.ctorMove a s))).getS j =
      if j = s.shared.length then { block_ := none, ptr_ := none }
      else if j = b then s.getS a
      else (SharedPtr.assignMove a b (SharedPtr.ctorMove a s)).getS j := by
    intro j
    rw [e3, getS_setS (by rw [length_setS]; exact hn2), getS_setS hb2, gn2]
  have l3 : ∀ j, s.liveS j = true ∨ j = s.shared.length →
      (SharedPtr.assignMove b s.shared.length
        (SharedPtr.assignMove a b (SharedPtr.ctorMove a s))).liveS j = true :=
    fun j hj => liveS_assignMove (l2 b (Or.inl hb)) (l2 _ (Or.inr rfl)) (l2 j hj)
  have e4 : SharedPtr.Swap a b s = (SharedPtr.assignMove b s.shared.length
      (SharedPtr.assignMove a b (SharedPtr.ctorMove a s))).endS s.shared.length := by
    unfold SharedPtr.Swap
    simp only []
    exact dtor_empty (by rw [g3]; simp)
  have hheap : (SharedPtr.Swap a b s).heap = s.heap ∧ (SharedPtr.Swap a b s).trace = s.trace ∧
      (SharedPtr.Swap a b s).weak = s.weak := by
    rw [e4, e3, e2]
    exact ⟨h1.2.2.1, h1.2.2.2.1, h1.2.2.2.2.1⟩
  have g4 : ∀ j, j ≠ s.shared.length → (SharedPtr.Swap a b s).getS j =
      if j = b then s.getS a
      else (SharedPtr.assignMove a b (SharedPtr.ctorMove a s)).getS j := by
    intro j hj
    rw [e4, getS_endS j hj, g3]
    simp only [hj, if_false]
  refine ⟨hheap.1, hheap.2.1, hheap.2.2, ?_, ?_, ?_, ?_⟩
  · rw [g4 a han]
    by_cases e : a = b
    · subst e; simp
    · rw [if_neg e, g2]
      simp only [e, if_false, if_true]
      rw [h1.2.2.2.2.2 b (fun h => e h.symm) hbn]
  · rw [g4 b hbn]; simp
  · intro j hja hjb
    by_cases hjn : j = s.shared.length
    · rw [hjn, e4]
      have hdead : ((SharedPtr.assignMove b s.shared.length
          (SharedPtr.assignMove a b (SharedPtr.ctorMove a s))).endS s.shared.length).getS
          s.shared.length = { block_ := none, ptr_ := none } := by
        unfold State.getS State.endS
        have hlt : s.shared.length < (SharedPtr.assignMove b s.shared.length
            (SharedPtr.assignMove a b (SharedPtr.ctorMove a s))).shared.length :=
          liveS_lt (l3 _ (Or.inr rfl))
        simp [hlt]
      rw [hdead, getS_of_le (Nat.le_refl _)]
    · rw [g4 j hjn, if_neg hjb, g2]
      simp only [hjb, hja, if_false]
      exact h1.2.2.2.2.2 j hja hjn
  · intro j hj
    rw [e4, liveS_endS j (ne_length_of_liveS hj)]
    exact l3 j (Or.inl hj)

theorem getW_endW {s : State} {i : Nat} (j : Nat) (h : j ≠ i) :
    (s.endW i).getW j = s.getW j := by
  unfold State.getW State.endW
  simp [List.getElem?_set_ne (Ne.symm h)]

theorem liveW_endW {s : State} {i : Nat} (j : Nat) (h : j ≠ i) :
    (s.endW i).liveW j = s.liveW j := by
  unfold State.liveW State.endW
  simp [List.getElem?_set_ne (Ne.symm h)]

/-- The state after the `WeakPtr` move constructor. -/
theorem ctorMoveW_effect {s : State} {o : Nat} (ho : s.liveW o = true) :
    (WeakPtr.ctorMove o s).getW s.weak.length = s.getW o ∧
    (WeakPtr.ctorMove o s).getW o = { block_ := none, ptr_ := none } ∧
    (WeakPtr.ctorMove o s).heap = s.heap ∧
    (WeakPtr.ctorMove o s).trace = s.trace ∧
    (WeakPtr.ctorMove o s).shared = s.shared ∧
    (∀ j, j ≠ o → j ≠ s.weak.length → (WeakPtr.ctorMove o s).getW j = s.getW j) := by
  have hn : s.weak.length < s.newW.weak.length := by simp [State.newW]
  have hon : o ≠ s.weak.length := ne_length_of_liveW ho
  have hlo : o < (s.newW.setW s.weak.length (s.newW.getW o)).weak.length := by
    have := liveW_lt ho
    simp [State.setW, State.newW]; omega
  rw [ctorMoveW_eq]
  refine ⟨?_, ?_, rfl, rfl, rfl, ?_⟩
  · rw [getW_setW hlo, getW_setW hn]
    simp only [Ne.symm hon, if_false, if_true]
    exact getW_newW s o
  · rw [getW_setW hlo]; simp
  · intro j h1 h2
    rw [getW_setW hlo, getW_setW hn]
    simp only [h1, h2, if_false]
    exact getW_newW s j

theorem assignMoveW_empty {s : State} {this : Nat} (other : Nat)
    (hb : (s.getW this).block_ = none) :
    WeakPtr.assignMove this other s =
      (s.setW this (s.getW other)).setW other { block_ := none, ptr_ := none } := by
  rw [assignMoveW_eq, MinusWeak_none hb]

theorem dtorW_empty {s : State} {i : Nat} (hb : (s.getW i).block_ = none) :
    WeakPtr.dtor i s = s.endW i := by
  unfold WeakPtr.dtor
  simp only []
  rw [MinusWeak_none hb]

theorem length_setW (s : State) (i : Nat) (x : WeakPtr) :
    (s.setW i x).weak.length = s.weak.length := by
  simp [State.setW]

/-- The state after `Swap` on two live `WeakPtr` objects (possibly the same one). -/
theorem SwapW_effect {s : State} {a b : Nat} (ha : s.liveW a = true) (hb : s.liveW b = true) :
    (WeakPtr.Swap a b s).heap = s.heap ∧
    (WeakPtr.Swap a b s).trace = s.trace ∧
    (WeakPtr.Swap a b s).shared = s.shared ∧
    (WeakPtr.Swap a b s).getW a = s.getW b ∧
    (WeakPtr.Swap a b s).getW b = s.getW a ∧
    (∀ j, j ≠ a → j ≠ b → (WeakPtr.Swap a b s).getW j = s.getW j) ∧
    (∀ j, s.liveW j = true → (WeakPtr.Swap a b s).liveW j = true) := by
  have han : a ≠ s.weak.length := ne_length_of_liveW ha
  have hbn : b ≠ s.weak.length := ne_length_of_liveW hb
  have h1 := ctorMoveW_effect ha
  have l1 : ∀ j, s.liveW j = true ∨ j = s.weak.length →
      (WeakPtr.ctorMove a s).liveW j = true := fun j hj => liveW_ctorMove ha hj
  have len1 : (WeakPtr.ctorMove a s).weak.length = s.weak.length + 1 := by
    rw [ctorMoveW_eq]; simp [State.setW, State.newW]
  have e2 : WeakPtr.assignMove a b (WeakPtr.ctorMove a s) =
      ((WeakPtr.ctorMove a s).setW a ((WeakPtr.ctorMove a s).getW b)).setW b
        { block_ := none, ptr_ := none } :=
    assignMoveW_empty b (by rw [h1.2.1])
  have ha1 : a < (WeakPtr.ctorMove a s).weak.length := liveW_lt (l1 a (Or.inl ha))
  have hb1 : b < (WeakPtr.ctorMove a s).weak.length := liveW_lt (l1 b (Or.inl hb))
  have hn1 : s.weak.length < (WeakPtr.ctorMove a s).weak.length := by rw [len1]; omega
  have g2 : ∀ j, (WeakPtr.assignMove a b (WeakPtr.ctorMove a s)).getW j =
      if j = b then { block_ := none, ptr_ := none }
      else if j = a then (WeakPtr.ctorMove a s).getW b
      else (WeakPtr.ctorMove a s).getW j := by
    intro j
    rw [e2, getW_setW (by rw [length_setW]; exact hb1), getW_setW ha1]
  have l2 : ∀ j, s.liveW j = true ∨ j = s.weak.length →
      (WeakPtr.assignMove a b (WeakPtr.ctorMove a s)).liveW j = true :=
    fun j hj => liveW_assignMove (l1 a (Or.inl ha)) (l1 b (Or.inl hb)) (l1 j hj)
  have len2 : (WeakPtr.assignMove a b (WeakPtr.ctorMove a s)).weak.length =
      s.weak.length + 1 := by
    rw [e2, length_setW, length_setW, len1]
  have e3 : WeakPtr.assignMove b s.weak.length
      (WeakPtr.assignMove a b (WeakPtr.ctorMove a s)) =
      ((WeakPtr.assignMove a b (WeakPtr.ctorMove a s)).setW b
        ((WeakPtr.assignMove a b (WeakPtr.ctorMove a s)).getW s.weak.length)).setW
        s.weak.length { block_ := none, ptr_ := none } :=
    assignMoveW_empty s.weak.length (by rw [g2]; simp)
  have gn2 : (WeakPtr.assignMove a b (WeakPtr.ctorMove a s)).getW s.weak.length =
      s.getW a := by
    rw [g2]
    simp only [Ne.symm hbn, Ne.symm han, if_false]
    exact h1.1
  have hb2 : b < (WeakPtr.assignMove a b (WeakPtr.ctorMove a s)).weak.length := by
    rw [len2]; have := liveW_lt hb; omega
  have hn2 : s.weak.length <
      (WeakPtr.assignMove a b (WeakPtr.ctorMove a s)).weak.length := by
    rw [len2]; omega
  have g3 : ∀ j, (WeakPtr.assignMove b s.weak.length
      (WeakPtr.assignMove a b (WeakPtr.ctorMove a s))).getW j =
      if j = s.weak.length then { block_ := none, ptr_ := none }
      else if j = b then s.getW a
      else (WeakPtr.assignMove a b (WeakPtr.ctorMove a s)).getW j := by
    intro j
    rw [e3, getW_setW (by rw [length_setW]; exact hn2), getW_setW hb2, gn2]
  have l3 : ∀ j, s.liveW j = true ∨ j = s.weak.length →
      (WeakPtr.assignMove b s.weak.length
        (WeakPtr.assignMove a b (WeakPtr.ctorMove a s))).liveW j = true :=
    fun j hj => liveW_assignMove (l2 b (Or.inl hb)) (l2 _ (Or.inr rfl)) (l2 j hj)
  have e4 : WeakPtr.Swap a b s = (WeakPtr.assignMove b s.weak.length
      (WeakPtr.assignMove a b (WeakPtr.ctorMove a s))).endW s.weak.length := by
    unfold WeakPtr.Swap
    simp only []
    exact dtorW_empty (by rw [g3]; simp)
  have hheap : (WeakPtr.Swap a b s).heap = s.heap ∧ (WeakPtr.Swap a b s).trace = s.trace ∧
      (WeakPtr.Swap a b s).shared = s.shared := by
    rw [e4, e3, e2]
    exact ⟨h1.2.2.1, h1.2.2.2.1, h1.2.2.2.2.1⟩
  have g4 : ∀ j, j ≠ s.weak.length → (WeakPtr.Swap a b s).getW j =
      if j = b then s.getW a
      else (WeakPtr.assignMove a b (WeakPtr.ctorMove a s)).getW j := by
    intro j hj
    rw [e4, getW_endW j hj, g3]
    simp only [hj, if_false]
  refine ⟨hheap.1, hheap.2.1, hheap.2.2, ?_, ?_, ?_, ?_⟩
  · rw [g4 a han]
    by_cases e : a = b
    · subst e; simp
    · rw [if_neg e, g2]
      simp only [e, if_false, if_true]
      rw [h1.2.2.2.2.2 b (fun h => e h.symm) hbn]
  · rw [g4 b hbn]; simp
  · intro j hja hjb
    by_cases hjn : j = s.weak.length
    · rw [hjn, e4]
      have hdead : ((WeakPtr.assignMove b s.weak.length
          (WeakPtr.assignMove a b (WeakPtr.ctorMove a s))).endW s.weak.length).getW
          s.weak.length = { block_ := none, ptr_ := none } := by
        unfold State.getW State.endW
        have hlt : s.weak.length < (WeakPtr.assignMove b s.weak.length
            (WeakPtr.assignMove a b (WeakPtr.ctorMove a s))).weak.length :=
          liveW_lt (l3 _ (Or.inr rfl))
        simp [hlt]
      rw [hdead, getW_of_le (Nat.le_refl _)]
    · rw [g4 j hjn, if_neg hjb, g2]
      simp only [hjb, hja, if_false]
      exact h1.2.2.2.2.2 j hja hjn
  · intro j hj
    rw [e4, liveW_endW j (ne_length_of_liveW hj)]
    exact l3 j (Or.inl hj)

/-! ### Managed objects that hold handles -/

theorem shared_update (s : State) (b : BlockId) (f : ControlBlockBase → ControlBlockBase) :
    (s.update b f).shared = s.shared := by
  unfold State.update; split <;> rfl

theorem weak_update (s : State) (b : BlockId) (f : ControlBlockBase → ControlBlockBase) :
    (s.update b f).weak = s.weak := by
  unfold State.update; split <;> rfl

theorem trace_update (s : State) (b : BlockId) (f : ControlBlockBase → ControlBlockBase) :
    (s.update b f).trace = s.trace := by
  unfold State.update; split <;> rfl

theorem length_update (s : State) (b : BlockId) (f : ControlBlockBase → ControlBlockBase) :
    (s.update b f).heap.length = s.heap.length := by
  unfold State.update; split <;> simp

theorem heap_update_ne (s : State) {b x : BlockId} (f : ControlBlockBase → ControlBlockBase)
    (h : x ≠ b) : (s.update b f).heap[x]? = s.heap[x]? := by
  unfold State.update
  split
  · simp [List.getElem?_set_ne (Ne.symm h)]
  · rfl

theorem heap_update_self (s : State) (b : BlockId) (f : ControlBlockBase → ControlBlockBase) :
    (s.update b f).heap[b]? = (s.heap[b]?).map f := by
  unfold State.update
  split
  · rename_i c hc
    have hlt : b < s.heap.length := (List.getElem?_eq_some_iff.mp hc).1
    simp [List.getElem?_set, hlt, hc]
  · rename_i hc
    simp [hc]

theorem getS_update (s : State) (b : BlockId) (f : ControlBlockBase → ControlBlockBase)
    (i : Nat) : (s.update b f).getS i = s.getS i := by
  unfold State.getS; rw [shared_update]

theorem liveS_update (s : State) (b : BlockId) (f : ControlBlockBase → ControlBlockBase)
    (i : Nat) : (s.update b f).liveS i = s.liveS i := by
  unfold State.liveS; rw [shared_update]

theorem getW_update (s : State) (b : BlockId) (f : ControlBlockBase → ControlBlockBase)
    (i : Nat) : (s.update b f).getW i = s.getW i := by
  unfold State.getW; rw [weak_update]

theorem liveW_update (s : State) (b : BlockId) (f : ControlBlockBase → ControlBlockBase)
    (i : Nat) : (s.update b f).liveW i = s.liveW i := by
  unfold State.liveW; rw [weak_update]

theorem Strong_update_ne (s : State) {b x : BlockId} (f : ControlBlockBase → ControlBlockBase)
    (h : x ≠ b) : (s.update b f).Strong x = s.Strong x := by
  unfold State.Strong; rw [heap_update_ne s f h]

theorem Weak_update_ne (s : State) {b x : BlockId} (f : ControlBlockBase → ControlBlockBase)
    (h : x ≠ b) : (s.update b f).Weak x = s.Weak x := by
  unfold State.Weak; rw [heap_update_ne s f h]

theorem Strong_decStrong (c : ControlBlockBase) : c.decStrong.Strong = c.Strong - 1 := by
  cases c <;> rfl

theorem Weak_decStrong (c : ControlBlockBase) : c.decStrong.Weak = c.Weak := by
  cases c <;> rfl

theorem Strong_afterDestroy (c : ControlBlockBase) : c.afterDestroy.Strong = c.Strong := by
  cases c <;> rfl

theorem Weak_afterDestroy (c : ControlBlockBase) : c.afterDestroy.Weak = c.Weak := by
  cases c <;> rfl

/-- The strong counters after `--strong_` on the block at `b`. -/
theorem Strong_update_dec (s : State) (b x : BlockId) :
    (s.update b ControlBlockBase.decStrong).Strong x =
      s.Strong x - (if x = b ∧ b < s.heap.length then 1 else 0) := by
  by_cases h : x = b
  · subst h
    unfold State.Strong
    rw [heap_update_self]
    rcases hc : s.heap[x]? with _ | c
    · have : ¬ x < s.heap.length := Nat.not_lt.mpr (List.getElem?_eq_none_iff.mp hc)
      simp [this]
    · have : x < s.heap.length := (List.getElem?_eq_some_iff.mp hc).1
      simp [this, Strong_decStrong]
  · rw [Strong_update_ne s _ h]; simp [h]

theorem Weak_update_dec (s : State) (b x : BlockId) :
    (s.update b ControlBlockBase.decStrong).Weak x = s.Weak x := by
  by_cases h : x = b
  · subst h
    unfold State.Weak
    rw [heap_update_self]
    rcases hc : s.heap[x]? with _ | c
    · rfl
    · simp [Weak_decStrong]
  · exact Weak_update_ne s _ h

theorem Strong_update_after (s : State) (b x : BlockId) :
    (s.update b ControlBlockBase.afterDestroy).Strong x = s.Strong x := by
  by_cases h : x = b
  · subst h
    unfold State.Strong
    rw [heap_update_self]
    rcases hc : s.heap[x]? with _ | c
    · rfl
    · simp [Strong_afterDestroy]
  · exact Strong_update_ne s _ h

theorem Weak_update_after (s : State) (b x : BlockId) :
    (s.update b ControlBlockBase.afterDestroy).Weak x = s.Weak x := by
  by_cases h : x = b
  · subst h
    unfold State.Weak
    rw [heap_update_self]
    rcases hc : s.heap[x]? with _ | c
    · rfl
    · simp [Weak_afterDestroy]
  · exact Weak_update_ne s _ h

/-! #### Only destructors run inside `MinusStrong` -/

theorem cascade_refl (s : State) : s.Cascade s :=
  ⟨rfl, rfl, rfl, fun _ _ => rfl, fun _ _ => rfl, fun _ => le_refl _, ⟨[], by simp⟩⟩

theorem liveS_of_slot {s t : State} {i : Nat} (h : t.shared[i]? = s.shared[i]?) :
    t.liveS i = s.liveS i ∧ t.getS i = s.getS i := by
  unfold State.liveS State.getS; rw [h]; exact ⟨rfl, rfl⟩

theorem liveW_of_slot {s t : State} {i : Nat} (h : t.weak[i]? = s.weak[i]?) :
    t.liveW i = s.liveW i ∧ t.getW i = s.getW i := by
  unfold State.liveW State.getW; rw [h]; exact ⟨rfl, rfl⟩

/-- A handle that survives a cascade was alive before it, with the same members. -/
theorem Cascade_liveS {s t : State} (h : s.Cascade t) {i : Nat} (hl : t.liveS i = true) :
    s.liveS i = true ∧ t.getS i = s.getS i := by
  have e := liveS_of_slot (h.shared_of_live i hl)
  exact ⟨by rw [← e.1]; exact hl, e.2⟩

theorem Cascade_liveW {s t : State} (h : s.Cascade t) {j : Nat} (hl : t.liveW j = true) :
    s.liveW j = true ∧ t.getW j = s.getW j := by
  have e := liveW_of_slot (h.weak_of_live j hl)
  exact ⟨by rw [← e.1]; exact hl, e.2⟩

theorem cascade_trans {s t u : State} (h1 : s.Cascade t) (h2 : t.Cascade u) : s.Cascade u := by
  refine ⟨h2.heap_len.trans h1.heap_len, h2.shared_len.trans h1.shared_len,
    h2.weak_len.trans h1.weak_len, ?_, ?_, fun x => le_trans (h2.strong_le x) (h1.strong_le x),
    ?_⟩
  · intro i hi
    rw [h2.shared_of_live i hi]
    exact h1.shared_of_live i (Cascade_liveS h2 hi).1
  · intro j hj
    rw [h2.weak_of_live j hj]
    exact h1.weak_of_live j (Cascade_liveW h2 hj).1
  · obtain ⟨l1, e1⟩ := h1.trace_ext
    obtain ⟨l2, e2⟩ := h2.trace_ext
    exact ⟨l1 ++ l2, by rw [e2, e1, List.append_assoc]⟩

theorem cascade_update_dec (s : State) (b : BlockId) :
    s.Cascade (s.update b ControlBlockBase.decStrong) := by
  refine ⟨length_update _ _ _, by rw [shared_update], by rw [weak_update],
    fun i _ => by rw [shared_update], fun j _ => by rw [weak_update], ?_,
    ⟨[], by rw [trace_update]; simp⟩⟩
  intro x
  rw [Strong_update_dec]
  split_ifs <;> omega

theorem cascade_update_after (s : State) (b : BlockId) :
    s.Cascade (s.update b ControlBlockBase.afterDestroy) := by
  refine ⟨length_update _ _ _, by rw [shared_update], by rw [weak_update],
    fun i _ => by rw [shared_update], fun j _ => by rw [weak_update], ?_,
    ⟨[], by rw [trace_update]; simp⟩⟩
  intro x
  rw [Strong_update_after]

theorem cascade_emit (s : State) (e : Event) : s.Cascade (s.emit e) :=
  ⟨rfl, rfl, rfl, fun _ _ => rfl, fun _ _ => rfl, fun _ => le_refl _, ⟨[e], rfl⟩⟩

theorem cascade_endS (s : State) (i : Nat) : s.Cascade (s.endS i) := by
  refine ⟨rfl, by simp [State.endS], rfl, ?_, fun _ _ => rfl, fun _ => le_refl _, ⟨[], by simp⟩⟩
  intro j hj
  by_cases e : j = i
  · subst e
    exfalso
    unfold State.liveS State.endS at hj
    simp only [List.getElem?_set] at hj
    split_ifs at hj
  · unfold State.endS
    simp [List.getElem?_set_ne (Ne.symm e)]

theorem cascade_endW (s : State) (i : Nat) : s.Cascade (s.endW i) := by
  refine ⟨rfl, rfl, by simp [State.endW], fun _ _ => rfl, ?_, fun _ => le_refl _, ⟨[], by simp⟩⟩
  intro j hj
  by_cases e : j = i
  · subst e
    exfalso
    unfold State.liveW State.endW at hj
    simp only [List.getElem?_set] at hj
    split_ifs at hj
  · unfold State.endW
    simp [List.getElem?_set_ne (Ne.symm e)]

theorem cascade_MinusWeak (s : State) (j : Nat) : s.Cascade (WeakPtr.MinusWeak j s) := by
  refine ⟨length_MinusWeak s j, by rw [shared_MinusWeak], by rw [weak_MinusWeak_state],
    fun i _ => by rw [shared_MinusWeak], fun i _ => by rw [weak_MinusWeak_state], ?_, ?_⟩
  · intro x
    unfold WeakPtr.MinusWeak
    split
    · rw [Strong_MinusWeak]
    · exact le_refl _
  · unfold WeakPtr.MinusWeak
    split
    · rename_i b _
      by_cases hb : b < s.heap.length
      · exact ⟨_, trace_invoke hb _⟩
      · rw [invoke_of_le (Nat.le_of_not_lt hb)]; exact ⟨[], by simp⟩
    · exact ⟨[], by simp⟩

theorem cascade_dtorW (s : State) (j : Nat) : s.Cascade (WeakPtr.dtor j s) :=
  cascade_trans (cascade_MinusWeak s j) (cascade_endW _ j)

theorem cascade_destroy {cb : BlockId → State → State} (hcb : ∀ (b : BlockId) (s : State), s.Cascade (cb b s))
    (s : State) (m : Member) : s.Cascade (Member.destroy cb s m) := by
  cases m with
  | shared i =>
    simp only [Member.destroy]
    split_ifs
    · refine cascade_trans ?_ (cascade_endS _ i)
      split
      · exact hcb _ _
      · exact cascade_refl s
    · exact cascade_refl s
  | weak j =>
    simp only [Member.destroy]
    split_ifs
    · exact cascade_dtorW s j
    · exact cascade_refl s

theorem cascade_foldl {cb : BlockId → State → State} (hcb : ∀ (b : BlockId) (s : State), s.Cascade (cb b s))
    (ms : List Member) (s : State) : s.Cascade (ms.foldl (Member.destroy cb) s) := by
  induction ms generalizing s with
  | nil => exact cascade_refl s
  | cons m rest ih => exact cascade_trans (cascade_destroy hcb s m) (ih _)

theorem cascade_destroyT (M : Members) {cb : BlockId → State → State}
    (hcb : ∀ (b : BlockId) (s : State), s.Cascade (cb b s)) (p : Option Addr) (s : State) :
    s.Cascade (destroyT M cb p s) := by
  unfold destroyT
  split
  · exact cascade_foldl hcb _ s
  · exact cascade_refl s

theorem cascade_OnZeroStrong (M : Members) {cb : BlockId → State → State}
    (hcb : ∀ (b : BlockId) (s : State), s.Cascade (cb b s)) (b : BlockId) (s : State) :
    s.Cascade (s.OnZeroStrong M cb b) := by
  unfold State.OnZeroStrong
  split
  · exact cascade_trans (cascade_trans (cascade_emit s _) (cascade_destroyT M hcb _ _))
      (cascade_update_after _ b)
  · exact cascade_refl s

theorem cascade_ifZeroStrong (M : Members) {cb : BlockId → State → State}
    (hcb : ∀ (b : BlockId) (s : State), s.Cascade (cb b s)) (b : BlockId) (s : State) :
    s.Cascade (s.ifZeroStrong M cb b) := by
  unfold State.ifZeroStrong
  split_ifs
  · exact cascade_OnZeroStrong M hcb b s
  · exact cascade_refl s

theorem cascade_ifZeroBoth (b : BlockId) (s : State) : s.Cascade (s.ifZeroBoth b) := by
  unfold State.ifZeroBoth
  split_ifs
  · exact cascade_emit s _
  · exact cascade_refl s

theorem MinusStrongFuel_succ (M : Members) (k : Nat) (b : BlockId) (s : State) :
    MinusStrongFuel M (k + 1) b s =
      if b < s.heap.length then
        ((s.update b ControlBlockBase.decStrong).ifZeroStrong M (MinusStrongFuel M k) b).ifZeroBoth
          b
      else s := by
  rw [MinusStrongFuel]
  split
  · rename_i c hc
    rw [if_pos (List.getElem?_eq_some_iff.mp hc).1]
  · rename_i hc
    rw [if_neg (Nat.not_lt.mpr (List.getElem?_eq_none_iff.mp hc))]

/-- Whatever the fuel, `MinusStrong` only runs destructors. -/
theorem cascade_MinusStrongFuel (M : Members) (fuel : Nat) :
    ∀ (b : BlockId) (s : State), s.Cascade (MinusStrongFuel M fuel b s) := by
  induction fuel with
  | zero => intro b s; exact cascade_refl s
  | succ k ih =>
    intro b s
    rw [MinusStrongFuel_succ]
    split_ifs
    · exact cascade_trans (cascade_trans (cascade_update_dec s b)
        (cascade_ifZeroStrong M ih b _)) (cascade_ifZeroBoth b _)
    · exact cascade_refl s

theorem cascade_MinusStrong (M : Members) (b : BlockId) (s : State) :
    s.Cascade (s.MinusStrong M b) :=
  cascade_MinusStrongFuel M _ b s

theorem cascade_MinusSharedT (M : Members) (i : Nat) (s : State) :
    s.Cascade (SharedPtr.MinusSharedT M i s) := by
  unfold SharedPtr.MinusSharedT
  split
  · exact cascade_MinusStrong M _ s
  · exact cascade_refl s

/-! #### The fuel of `MinusStrong` -/

theorem countP_le_of_imp {α : Type} (p : α → Bool) :
    ∀ (l1 l2 : List α), l2.length = l1.length →
      (∀ i (h1 : i < l1.length) (h2 : i < l2.length), p l2[i] = true → p l1[i] = true) →
      l2.countP p ≤ l1.countP p := by
  intro l1
  induction l1 with
  | nil =>
    intro l2 hl _
    have : l2 = [] := List.length_eq_zero.mp hl
    subst this
    exact le_refl _
  | cons a l1 ih =>
    intro l2 hl h
    cases l2 with
    | nil => simp at hl
    | cons b l2 =>
      have hlen : l2.length = l1.length := by simpa using hl
      have hrest := ih l2 hlen (fun i h1 h2 hp =>
        h (i + 1) (by simp; omega) (by simp; omega) (by simpa using hp))
      have h0 := h 0 (by simp) (by simp)
      simp only [List.getElem_cons_zero] at h0
      rw [List.countP_cons, List.countP_cons]
      by_cases hb : p b = true
      · rw [if_pos hb, if_pos (h0 hb)]; omega
      · rw [if_neg hb]; split_ifs <;> omega

/-- A cascade does not raise the number of owned blocks. -/
theorem owned_le_of_cascade {s t : State} (h : s.Cascade t) : t.owned ≤ s.owned := by
  unfold State.owned
  apply countP_le_of_imp _ _ _ h.heap_len
  intro i h1 h2 hp
  have e1 : s.heap[i].Strong = s.Strong i := Strong_get h1
  have e2 : t.heap[i].Strong = t.Strong i := Strong_get h2
  have hle := h.strong_le i
  simp only [decide_eq_true_eq] at hp ⊢
  rw [e1]; rw [e2] at hp
  exact le_trans hp hle

/-- The decrement that brings a strong counter to zero lowers the number of owned blocks. -/
theorem owned_update_dec {s : State} {b : BlockId} (hb : b < s.heap.length)
    (h0 : (s.update b ControlBlockBase.decStrong).Strong b = 0) :
    (s.update b ControlBlockBase.decStrong).owned + 1 ≤ s.owned := by
  have hc : s.heap[b]? = some s.heap[b] := List.getElem?_eq_getElem hb
  have hS : s.heap[b].Strong = 1 := by
    rw [Strong_update_dec, if_pos ⟨rfl, hb⟩] at h0
    rw [Strong_get hb]
    have h1 : s.Strong b - 1 = 0 := h0
    have h2 := sub_eq_zero.mp h1
    exact h2
  have hu : (s.update b ControlBlockBase.decStrong).heap =
      s.heap.set b s.heap[b].decStrong := by
    unfold State.update
    rw [hc]
  unfold State.owned
  rw [hu, List.countP_set _ _ _ _ hb]
  have hp : (decide (1 ≤ s.heap[b].Strong)) = true := by rw [hS]; decide
  have hq : (decide (1 ≤ s.heap[b].decStrong.Strong)) = false := by
    rw [Strong_decStrong, hS]; decide
  have hpos : 0 < s.heap.countP (fun c => decide (1 ≤ c.Strong)) :=
    List.countP_pos_iff.mpr ⟨s.heap[b], List.getElem_mem hb, hp⟩
  simp only [hp, hq, if_true]
  simp only [Bool.false_eq_true, if_false]
  omega

theorem destroy_congr {cb1 cb2 : BlockId → State → State} (Q : State → Prop)
    (hagree : ∀ (b : BlockId) (u : State), Q u → cb1 b u = cb2 b u)
    (u : State) (hu : Q u) (m : Member) :
    Member.destroy cb1 u m = Member.destroy cb2 u m := by
  cases m with
  | shared i =>
    simp only [Member.destroy]
    split_ifs
    · split
      · rw [hagree _ _ hu]
      · rfl
    · rfl
  | weak j => rfl

theorem foldl_congr {cb1 cb2 : BlockId → State → State} (Q : State → Prop)
    (hQ : ∀ (u t : State), Q u → u.Cascade t → Q t)
    (hagree : ∀ (b : BlockId) (u : State), Q u → cb1 b u = cb2 b u)
    (hc : ∀ (b : BlockId) (u : State), u.Cascade (cb2 b u)) (ms : List Member) :
    ∀ (u : State), Q u →
      ms.foldl (Member.destroy cb1) u = ms.foldl (Member.destroy cb2) u := by
  induction ms with
  | nil => intro u _; rfl
  | cons m rest ih =>
    intro u hu
    simp only [List.foldl_cons]
    rw [destroy_congr Q hagree u hu m]
    exact ih _ (hQ _ _ hu (cascade_destroy hc u m))

theorem OnZeroStrong_congr (M : Members) {cb1 cb2 : BlockId → State → State}
    (Q : State → Prop) (hQ : ∀ (u t : State), Q u → u.Cascade t → Q t)
    (hagree : ∀ (b : BlockId) (u : State), Q u → cb1 b u = cb2 b u)
    (hc : ∀ (b : BlockId) (u : State), u.Cascade (cb2 b u)) (b : BlockId) (u : State)
    (hu : Q u) : u.OnZeroStrong M cb1 b = u.OnZeroStrong M cb2 b := by
  unfold State.OnZeroStrong
  split
  · simp only []
    have e : ∀ p, destroyT M cb1 p (u.emit (Event.OnZeroStrong b)) =
        destroyT M cb2 p (u.emit (Event.OnZeroStrong b)) := by
      intro p
      unfold destroyT
      split
      · exact foldl_congr Q hQ hagree hc _ _ (hQ _ _ hu (cascade_emit u _))
      · rfl
    rw [e]
  · rfl

/-- One more unit of fuel changes nothing once the fuel exceeds the number of owned blocks:
every nested call is made after a strong counter has just dropped to zero. -/
theorem MinusStrongFuel_step (M : Members) (k : Nat) :
    ∀ (b : BlockId) (s : State), s.owned < k →
      MinusStrongFuel M (k + 1) b s = MinusStrongFuel M k b s := by
  induction k with
  | zero => intro b s h; exact absurd h (Nat.not_lt_zero _)
  | succ k ih =>
    intro b s h
    rw [MinusStrongFuel_succ M (k + 1), MinusStrongFuel_succ M k]
    split_ifs with hb
    · congr 1
      unfold State.ifZeroStrong
      split_ifs with h0
      · have hlt : (s.update b ControlBlockBase.decStrong).owned < k := by
          have := owned_update_dec hb h0
          omega
        exact OnZeroStrong_congr M (fun u => u.owned < k)
          (fun u t hu hct => lt_of_le_of_lt (owned_le_of_cascade hct) hu)
          (fun b' u hu => ih b' u hu) (cascade_MinusStrongFuel M k) b _ hlt
      · rfl
    · rfl

theorem MinusStrongFuel_add (M : Members) (k n : Nat) (b : BlockId) (s : State)
    (h : s.owned < k) : MinusStrongFuel M (k + n) b s = MinusStrongFuel M k b s := by
  induction n with
  | zero => rfl
  | succ n ih =>
    rw [← Nat.add_assoc, MinusStrongFuel_step M (k + n) b s (by omega), ih]

theorem owned_le_length (s : State) : s.owned ≤ s.heap.length :=
  List.countP_le_length _

/-- Fuel beyond `heap.length + 1` gives the same result: `State.MinusStrong` is the virtual
call with all its nested destructor calls run to the end. -/
theorem MinusStrongFuel_stable (M : Members) {fuel : Nat} (b : BlockId) (s : State)
    (h : s.heap.length + 1 ≤ fuel) : MinusStrongFuel M fuel b s = s.MinusStrong M b := by
  obtain ⟨n, rfl⟩ := Nat.exists_eq_add_of_le h
  unfold State.MinusStrong
  exact MinusStrongFuel_add M _ n b s (by have := owned_le_length s; omega)

/-- The source body of `MinusStrong`, the nested calls being `MinusStrong` itself. -/
theorem MinusStrong_eq (M : Members) (b : BlockId) (s : State) :
    s.MinusStrong M b =
      if b < s.heap.length then
        ((s.update b ControlBlockBase.decStrong).ifZeroStrong M
          (fun b' u => u.MinusStrong M b') b).ifZeroBoth b
      else s := by
  unfold State.MinusStrong
  rw [MinusStrongFuel_succ]
  split_ifs with hb
  · congr 1
    unfold State.ifZeroStrong
    split_ifs with h0
    · have hlt : (s.update b ControlBlockBase.decStrong).owned < s.heap.length := by
        have := owned_update_dec hb h0
        have := owned_le_length s
        omega
      refine (OnZeroStrong_congr M
        (fun u => u.owned < s.heap.length ∧ u.heap.length = s.heap.length)
        (fun u t hu hct => ⟨lt_of_le_of_lt (owned_le_of_cascade hct) hu.1,
          hct.heap_len.trans hu.2⟩) ?_ (fun b' u => cascade_MinusStrongFuel M _ b' u) b _
        ⟨hlt, length_update _ _ _⟩).symm
      intro b' u hu
      show MinusStrongFuel M (u.heap.length + 1) b' u = MinusStrongFuel M s.heap.length b' u
      rw [hu.2]
      exact MinusStrongFuel_step M _ b' u hu.1
    · rfl
  · rfl

/-! #### Blocks that no member handle refers to -/

theorem mem_Members_of {M : Members} {a : Addr} {m : Member} (h : m ∈ Members.of M a) :
    ∃ e ∈ M, m ∈ e.2 := by
  induction M with
  | nil => simp [Members.of] at h
  | cons e rest ih =>
    obtain ⟨a', ms⟩ := e
    simp only [Members.of] at h
    split_ifs at h
    · exact ⟨(a', ms), List.mem_cons_self _ _, h⟩
    · obtain ⟨e, he, hm⟩ := ih h
      exact ⟨e, List.mem_cons_of_mem _ he, hm⟩

theorem refers_of_cascade {s t : State} (h : s.Cascade t) {b : BlockId} {m : Member}
    (hm : m.refers s b = false) : m.refers t b = false := by
  cases m with
  | shared i =>
    simp only [Member.refers] at hm ⊢
    by_cases hl : t.liveS i = true
    · have e := Cascade_liveS h hl
      rw [hl, e.2]
      rw [e.1] at hm
      exact hm
    · simp [hl]
  | weak j =>
    simp only [Member.refers] at hm ⊢
    by_cases hl : t.liveW j = true
    · have e := Cascade_liveW h hl
      rw [hl, e.2]
      rw [e.1] at hm
      exact hm
    · simp [hl]

/-- Destructors cannot make a member handle refer to a block. -/
theorem away_of_cascade {M : Members} {b : BlockId} {s t : State} (ha : M.away b s)
    (h : s.Cascade t) : M.away b t :=
  fun e he m hm => refers_of_cascade h (ha e he m hm)

theorem heap_invoke_ne (s : State) {a x : BlockId}
    (m : BlockId → ControlBlockBase → ControlBlockBase × List Event) (h : x ≠ a) :
    (s.invoke a m).heap[x]? = s.heap[x]? := by
  unfold State.invoke
  split
  · simp [List.getElem?_set_ne (Ne.symm h)]
  · rfl

theorem about_append (s : State) (b : BlockId) (l : List Event) (t : State)
    (h : t.trace = s.trace ++ l) :
    t.about b = s.about b ++ l.filter (fun e => decide (e.block = b)) := by
  unfold State.about; rw [h, List.filter_append]

theorem about_emit (s : State) (b : BlockId) (e : Event) :
    (s.emit e).about b = s.about b ++ (if e.block = b then [e] else []) := by
  rw [about_append s b [e] _ rfl]
  by_cases h : e.block = b <;> simp [List.filter, h]

theorem about_of_trace {s t : State} (h : t.trace = s.trace) (b : BlockId) :
    t.about b = s.about b := by
  unfold State.about; rw [h]

/-- The block at `b` and the hook calls on it are the same in `s` and `t`. -/
theorem frame_trans {b : BlockId} {s t u : State}
    (h1 : t.heap[b]? = s.heap[b]? ∧ t.about b = s.about b)
    (h2 : u.heap[b]? = t.heap[b]? ∧ u.about b = t.about b) :
    u.heap[b]? = s.heap[b]? ∧ u.about b = s.about b :=
  ⟨h2.1.trans h1.1, h2.2.trans h1.2⟩

theorem frame_MinusWeak {s : State} {j : Nat} {b : BlockId}
    (h : (s.getW j).block_ ≠ some b) :
    (WeakPtr.MinusWeak j s).heap[b]? = s.heap[b]? ∧ (WeakPtr.MinusWeak j s).about b = s.about b := by
  unfold WeakPtr.MinusWeak
  split
  · rename_i a ha
    have hne : b ≠ a := fun e => h (by rw [ha, e])
    refine ⟨heap_invoke_ne s _ hne, ?_⟩
    by_cases hlt : a < s.heap.length
    · rw [about_append s b _ _ (trace_invoke hlt _), events_MinusWeak]
      split_ifs
      · simp [List.filter, Event.block, Ne.symm hne]
      · simp
    · rw [invoke_of_le (Nat.le_of_not_lt hlt)]
  · exact ⟨rfl, rfl⟩

theorem frame_destroy {M : Members} {b : BlockId} {cb : BlockId → State → State}
    (hcb : ∀ (b' : BlockId) (u : State), b' ≠ b → M.away b u →
      (cb b' u).heap[b]? = u.heap[b]? ∧ (cb b' u).about b = u.about b)
    (u : State) (hu : M.away b u) (m : Member) (hm : ∃ e ∈ M, m ∈ e.2) :
    (Member.destroy cb u m).heap[b]? = u.heap[b]? ∧
      (Member.destroy cb u m).about b = u.about b := by
  obtain ⟨e, he, hme⟩ := hm
  have hr := hu e he m hme
  cases m with
  | shared i =>
    simp only [Member.destroy]
    split_ifs with hl
    · simp only [Member.refers, hl, Bool.true_and, decide_eq_false_iff_not] at hr
      split
      · rename_i b' hb'
        have hne : b' ≠ b := fun e => hr (by rw [hb', e])
        exact hcb b' u hne hu
      · exact ⟨rfl, rfl⟩
    · exact ⟨rfl, rfl⟩
  | weak j =>
    simp only [Member.destroy]
    split_ifs with hl
    · simp only [Member.refers, hl, Bool.true_and, decide_eq_false_iff_not] at hr
      exact frame_MinusWeak hr
    · exact ⟨rfl, rfl⟩

theorem frame_foldl {M : Members} {b : BlockId} {cb : BlockId → State → State}
    (hc : ∀ (b' : BlockId) (u : State), u.Cascade (cb b' u))
    (hcb : ∀ (b' : BlockId) (u : State), b' ≠ b → M.away b u →
      (cb b' u).heap[b]? = u.heap[b]? ∧ (cb b' u).about b = u.about b)
    (ms : List Member) (hms : ∀ m ∈ ms, ∃ e ∈ M, m ∈ e.2) :
    ∀ (u : State), M.away b u →
      (ms.foldl (Member.destroy cb) u).heap[b]? = u.heap[b]? ∧
        (ms.foldl (Member.destroy cb) u).about b = u.about b := by
  induction ms with
  | nil => intro u _; exact ⟨rfl, rfl⟩
  | cons m rest ih =>
    intro u hu
    simp only [List.foldl_cons]
    have h1 := frame_destroy hcb u hu m (hms m (List.mem_cons_self _ _))
    have h2 := ih (fun x hx => hms x (List.mem_cons_of_mem _ hx)) _
      (away_of_cascade hu (cascade_destroy hc u m))
    exact frame_trans h1 h2

theorem frame_destroyT {M : Members} {b : BlockId} {cb : BlockId → State → State}
    (hc : ∀ (b' : BlockId) (u : State), u.Cascade (cb b' u))
    (hcb : ∀ (b' : BlockId) (u : State), b' ≠ b → M.away b u →
      (cb b' u).heap[b]? = u.heap[b]? ∧ (cb b' u).about b = u.about b)
    (p : Option Addr) (u : State) (hu : M.away b u) :
    (destroyT M cb p u).heap[b]? = u.heap[b]? ∧ (destroyT M cb p u).about b = u.about b := by
  unfold destroyT
  split
  · exact frame_foldl hc hcb _ (fun m hm => mem_Members_of (List.mem_reverse.mp hm)) u hu
  · exact ⟨rfl, rfl⟩

theorem away_emit {M : Members} {b : BlockId} {s : State} (h : M.away b s) (e : Event) :
    M.away b (s.emit e) :=
  away_of_cascade h (cascade_emit s e)

/-- The call `MinusStrong` on another block leaves the block `b` and the hook calls on `b` as they
are, when no member handle refers to `b`. -/
theorem frame_MinusStrongFuel (M : Members) (b : BlockId) (fuel : Nat) :
    ∀ (b' : BlockId) (u : State), b' ≠ b → M.away b u →
      (MinusStrongFuel M fuel b' u).heap[b]? = u.heap[b]? ∧
        (MinusStrongFuel M fuel b' u).about b = u.about b := by
  induction fuel with
  | zero => intro b' u _ _; exact ⟨rfl, rfl⟩
  | succ k ih =>
    intro b' u hne hu
    rw [MinusStrongFuel_succ]
    split_ifs with hb
    · have f1 : (u.update b' ControlBlockBase.decStrong).heap[b]? = u.heap[b]? ∧
          (u.update b' ControlBlockBase.decStrong).about b = u.about b :=
        ⟨heap_update_ne u _ (Ne.symm hne), about_of_trace (trace_update _ _ _) b⟩
      have a1 : M.away b (u.update b' ControlBlockBase.decStrong) :=
        away_of_cascade hu (cascade_update_dec u b')
      have f2 : ∀ (v : State), M.away b v →
          (v.ifZeroStrong M (MinusStrongFuel M k) b').heap[b]? = v.heap[b]? ∧
            (v.ifZeroStrong M (MinusStrongFuel M k) b').about b = v.about b := by
        intro v hv
        unfold State.ifZeroStrong
        split_ifs
        · unfold State.OnZeroStrong
          split
          · rename_i c _
            simp only []
            have g1 : (v.emit (Event.OnZeroStrong b')).heap[b]? = v.heap[b]? ∧
                (v.emit (Event.OnZeroStrong b')).about b = v.about b := by
              refine ⟨rfl, ?_⟩
              rw [about_emit, if_neg (by simpa [Event.block] using hne)]; simp
            have g2 := frame_destroyT (cascade_MinusStrongFuel M k) ih
              (ControlBlockBase.managed b' c) (v.emit (Event.OnZeroStrong b'))
              (away_emit hv _)
            refine frame_trans (frame_trans g1 g2) ?_
            exact ⟨heap_update_ne _ _ (Ne.symm hne), about_of_trace (trace_update _ _ _) b⟩
          · exact ⟨rfl, rfl⟩
        · exact ⟨rfl, rfl⟩
      have f3 : ∀ (v : State), (v.ifZeroBoth b').heap[b]? = v.heap[b]? ∧
          (v.ifZeroBoth b').about b = v.about b := by
        intro v
        unfold State.ifZeroBoth State.OnZeroWeak
        split_ifs
        · refine ⟨rfl, ?_⟩
          rw [about_emit, if_neg (by simpa [Event.block] using hne)]; simp
        · exact ⟨rfl, rfl⟩
      exact frame_trans (frame_trans f1 (f2 _ a1)) (f3 _)
    · exact ⟨rfl, rfl⟩

theorem Strong_of_heap {s t : State} {b : BlockId} (h : t.heap[b]? = s.heap[b]?) :
    t.Strong b = s.Strong b ∧ t.Weak b = s.Weak b := by
  unfold State.Strong State.Weak; rw [h]; exact ⟨rfl, rfl⟩

/-- The call `MinusStrong` on the block `b` itself, when no member handle refers to `b`:
the block after the call and the hooks called on it. -/
theorem MinusStrong_effect (M : Members) {s : State} {b : BlockId} {c : ControlBlockBase}
    (hc : s.heap[b]? = some c) (ha : M.away b s) :
    (s.MinusStrong M b).heap[b]? =
      some (if c.Strong - 1 = 0 then c.decStrong.afterDestroy else c.decStrong) ∧
    (s.MinusStrong M b).about b = s.about b ++
      (if c.Strong - 1 = 0 then
        (if c.Weak = 0 then [Event.OnZeroStrong b, Event.OnZeroWeak b]
          else [Event.OnZeroStrong b])
        else []) ∧
    (c.Strong - 1 ≠ 0 → s.MinusStrong M b = s.update b ControlBlockBase.decStrong) := by
  have hb : b < s.heap.length := (List.getElem?_eq_some_iff.mp hc).1
  have h1 : (s.update b ControlBlockBase.decStrong).heap[b]? = some c.decStrong := by
    rw [heap_update_self, hc]; rfl
  have hS1 : (s.update b ControlBlockBase.decStrong).Strong b = c.Strong - 1 := by
    unfold State.Strong; rw [h1]; exact Strong_decStrong c
  have a1 : M.away b (s.update b ControlBlockBase.decStrong) :=
    away_of_cascade ha (cascade_update_dec s b)
  unfold State.MinusStrong
  rw [MinusStrongFuel_succ, if_pos hb]
  unfold State.ifZeroStrong
  by_cases h0 : c.Strong - 1 = 0
  · rw [if_pos (by rw [hS1]; exact h0)]
    unfold State.OnZeroStrong
    rw [h1]
    simp only []
    have g2 := frame_destroyT (cascade_MinusStrongFuel M s.heap.length)
      (frame_MinusStrongFuel M b s.heap.length)
      (ControlBlockBase.managed b c.decStrong)
      ((s.update b ControlBlockBase.decStrong).emit (Event.OnZeroStrong b)) (away_emit a1 _)
    have k1 : ((destroyT M (MinusStrongFuel M s.heap.length)
        (ControlBlockBase.managed b c.decStrong)
        ((s.update b ControlBlockBase.decStrong).emit (Event.OnZeroStrong b))).update b
        ControlBlockBase.afterDestroy).heap[b]? = some c.decStrong.afterDestroy := by
      rw [heap_update_self, g2.1]
      show Option.map ControlBlockBase.afterDestroy
        (s.update b ControlBlockBase.decStrong).heap[b]? = _
      rw [h1]; rfl
    have k2 : ((destroyT M (MinusStrongFuel M s.heap.length)
        (ControlBlockBase.managed b c.decStrong)
        ((s.update b ControlBlockBase.decStrong).emit (Event.OnZeroStrong b))).update b
        ControlBlockBase.afterDestroy).about b = s.about b ++ [Event.OnZeroStrong b] := by
      rw [about_of_trace (trace_update _ _ _) b, g2.2, about_emit,
        about_of_trace (trace_update _ _ _) b]
      simp [Event.block]
    have kS : ((destroyT M (MinusStrongFuel M s.heap.length)
        (ControlBlockBase.managed b c.decStrong)
        ((s.update b ControlBlockBase.decStrong).emit (Event.OnZeroStrong b))).update b
        ControlBlockBase.afterDestroy).Strong b = 0 := by
      unfold State.Strong; rw [k1]
      show c.decStrong.afterDestroy.Strong = 0
      rw [Strong_afterDestroy, Strong_decStrong]; exact h0
    have kW : ((destroyT M (MinusStrongFuel M s.heap.length)
        (ControlBlockBase.managed b c.decStrong)
        ((s.update b ControlBlockBase.decStrong).emit (Event.OnZeroStrong b))).update b
        ControlBlockBase.afterDestroy).Weak b = c.Weak := by
      unfold State.Weak; rw [k1]
      show c.decStrong.afterDestroy.Weak = c.Weak
      rw [Weak_afterDestroy, Weak_decStrong]
    unfold State.ifZeroBoth State.OnZeroWeak
    rw [kS, kW]
    refine ⟨?_, ?_, fun h => absurd h0 h⟩
    · rw [if_pos h0]
      split_ifs <;> exact k1
    · rw [if_pos h0]
      by_cases hw : c.Weak = 0
      · rw [if_pos ⟨rfl, hw⟩, if_pos hw, about_emit, k2]
        simp [Event.block]
      · rw [if_neg (fun h => hw h.2), if_neg hw, k2]
  · rw [if_neg (by rw [hS1]; exact h0)]
    unfold State.ifZeroBoth
    rw [if_neg (by rw [hS1]; exact fun h => h0 h.1)]
    refine ⟨by rw [if_neg h0]; exact h1, ?_, fun _ => rfl⟩
    rw [if_neg h0, about_of_trace (trace_update _ _ _) b]; simp

/-- A call of `MinusStrong` that does not bring the strong counter to zero only lowers it. -/
theorem MinusStrong_quiet (M : Members) {s : State} {b : BlockId} (hb : b < s.heap.length)
    (h : s.Strong b - 1 ≠ 0) : s.MinusStrong M b = s.update b ControlBlockBase.decStrong := by
  have hS1 : (s.update b ControlBlockBase.decStrong).Strong b = s.Strong b - 1 := by
    rw [Strong_update_dec, if_pos ⟨rfl, hb⟩]
  unfold State.MinusStrong
  rw [MinusStrongFuel_succ, if_pos hb]
  unfold State.ifZeroStrong
  rw [if_neg (by rw [hS1]; exact h)]
  unfold State.ifZeroBoth
  rw [if_neg (by rw [hS1]; exact fun x => h x.1)]

/-! #### Assignment when the release destroys handles -/

/-- The statements `ptr_ = p; block_ = B; PlusShared();` on a live handle. -/
theorem rebind_effect {u : State} {this : Nat} (hl : u.liveS this = true) (B : Option BlockId)
    (p : Option Addr) (hB : ∀ x, B = some x → x < u.heap.length) :
    (SharedPtr.PlusShared this (u.setS this { block_ := B, ptr_ := p })).getS this =
      { block_ := B, ptr_ := p } ∧
    (∀ j, j ≠ this →
      (SharedPtr.PlusShared this (u.setS this { block_ := B, ptr_ := p })).getS j = u.getS j) ∧
    (∀ x, (SharedPtr.PlusShared this (u.setS this { block_ := B, ptr_ := p })).Strong x =
      u.Strong x + (if B = some x then 1 else 0)) ∧
    (∀ x, (SharedPtr.PlusShared this (u.setS this { block_ := B, ptr_ := p })).Weak x =
      u.Weak x) ∧
    (SharedPtr.PlusShared this (u.setS this { block_ := B, ptr_ := p })).trace = u.trace := by
  have hlt : this < u.shared.length := liveS_lt hl
  have hg : ∀ j, (u.setS this { block_ := B, ptr_ := p }).getS j =
      if j = this then { block_ := B, ptr_ := p } else u.getS j := fun j => getS_setS hlt _ j
  cases B with
  | none =>
    rw [PlusShared_none (by rw [hg]; simp)]
    refine ⟨by rw [hg]; simp, fun j hj => by rw [hg]; simp [hj], fun x => by simp,
      fun x => by simp, rfl⟩
  | some a =>
    rw [PlusShared_some (a := a) (by rw [hg]; simp)]
    refine ⟨by rw [getS_invoke, hg]; simp, fun j hj => by rw [getS_invoke, hg]; simp [hj],
      ?_, fun x => by rw [Weak_PlusStrong, Weak_setS], by rw [trace_PlusStrong]; rfl⟩
    intro x
    rw [Strong_PlusStrong _ _ _ (by simpa using hB a rfl), Strong_setS]
    by_cases e1 : x = a
    · subst e1; simp
    · have e2 : ¬ (a = x) := fun h => e1 h.symm
      simp [e1, e2]

theorem assignCopyT_ne (M : Members) {s : State} {this other : Nat}
    (hne : (s.getS this).ptr_ ≠ (s.getS other).ptr_) :
    SharedPtr.assignCopyT M this other s =
      SharedPtr.PlusShared this ((SharedPtr.MinusSharedT M this s).setS this
        { block_ := ((SharedPtr.MinusSharedT M this s).getS other).block_,
          ptr_ := ((SharedPtr.MinusSharedT M this s).getS other).ptr_ }) := by
  unfold SharedPtr.assignCopyT
  rw [if_pos hne]
  simp only []
  rw [block_getS_setSPtr, setSPtr_setSBlock]

theorem assignMoveT_eq (M : Members) (this other : Nat) (s : State) :
    SharedPtr.assignMoveT M this other s =
      ((SharedPtr.MinusSharedT M this s).setS this
        ((SharedPtr.MinusSharedT M this s).getS other)).setS other
        { block_ := none, ptr_ := none } := by
  unfold SharedPtr.assignMoveT
  simp only []
  rw [block_getS_setSPtr, setSPtr_setSBlock, setSPtr_setSBlock]

/-- The counters of a block that no member handle refers to, after `MinusShared()`. -/
theorem MinusSharedT_counters (M : Members) {s : State} {this : Nat} (hs : Inv s)
    (ht : s.liveS this = true) {x : BlockId} (hx : M.away x s) :
    (SharedPtr.MinusSharedT M this s).Strong x =
      s.Strong x - (if (s.getS this).block_ = some x then 1 else 0) ∧
    (SharedPtr.MinusSharedT M this s).Weak x = s.Weak x := by
  unfold SharedPtr.MinusSharedT
  rcases hA : (s.getS this).block_ with _ | A
  · simp
  · simp only []
    have hlt : A < s.heap.length := block_lt_of_liveS hs ht hA
    by_cases e : A = x
    · subst e
      have hc : s.heap[A]? = some s.heap[A] := List.getElem?_eq_getElem hlt
      have h := (MinusStrong_effect M hc hx).1
      have hS : s.Strong A = s.heap[A].Strong := (Strong_get hlt).symm
      have hW : s.Weak A = s.heap[A].Weak := (Weak_get hlt).symm
      have hS2 : (s.MinusStrong M A).Strong A = s.heap[A].Strong - 1 := by
        unfold State.Strong
        rw [h]
        simp only []
        split_ifs
        · rw [Strong_afterDestroy, Strong_decStrong]
        · rw [Strong_decStrong]
      have hW2 : (s.MinusStrong M A).Weak A = s.heap[A].Weak := by
        unfold State.Weak
        rw [h]
        simp only []
        split_ifs
        · rw [Weak_afterDestroy, Weak_decStrong]
        · rw [Weak_decStrong]
      rw [hS2, hW2, hS, hW]
      simp
    · have h := (frame_MinusStrongFuel M x (s.heap.length + 1) A s e hx).1
      have h2 := Strong_of_heap h
      unfold State.MinusStrong
      rw [h2.1, h2.2]
      have e2 : ¬ (some A = some x) := fun h => e (Option.some.inj h)
      simp [e2]

/-- The taken branch of the copy assignment, when `this` and `other` survive the release. -/
theorem assignCopyT_effect (M : Members) {s : State} {this other : Nat} (hs : Inv s)
    (ho : s.liveS other = true) (hne : (s.getS this).ptr_ ≠ (s.getS other).ptr_)
    (h1 : (SharedPtr.MinusSharedT M this s).liveS this = true)
    (h2 : (SharedPtr.MinusSharedT M this s).liveS other = true) :
    (SharedPtr.assignCopyT M this other s).getS this = s.getS other ∧
    (SharedPtr.assignCopyT M this other s).getS other = s.getS other ∧
    (∀ x, (SharedPtr.assignCopyT M this other s).Strong x =
      (SharedPtr.MinusSharedT M this s).Strong x +
        (if (s.getS other).block_ = some x then 1 else 0)) ∧
    (∀ x, (SharedPtr.assignCopyT M this other s).Weak x =
      (SharedPtr.MinusSharedT M this s).Weak x) ∧
    (SharedPtr.assignCopyT M this other s).trace = (SharedPtr.MinusSharedT M this s).trace := by
  have hc := cascade_MinusSharedT M this s
  have e : other ≠ this := by
    intro h; subst h; exact hne rfl
  have hg : (SharedPtr.MinusSharedT M this s).getS other = s.getS other :=
    (Cascade_liveS hc h2).2
  have hB : ∀ x, (s.getS other).block_ = some x →
      x < (SharedPtr.MinusSharedT M this s).heap.length := by
    intro x hx
    rw [hc.heap_len]
    exact block_lt_of_liveS hs ho hx
  rw [assignCopyT_ne M hne, hg]
  have h := rebind_effect h1 (s.getS other).block_ (s.getS other).ptr_ hB
  refine ⟨h.1, ?_, h.2.2.1, h.2.2.2.1, h.2.2.2.2⟩
  rw [h.2.1 other e, hg]

/-- The move assignment between two different objects that survive the release. -/
theorem assignMoveT_effect (M : Members) {s : State} {this other : Nat}
    (hne : this ≠ other)
    (h1 : (SharedPtr.MinusSharedT M this s).liveS this = true)
    (h2 : (SharedPtr.MinusSharedT M this s).liveS other = true) :
    (SharedPtr.assignMoveT M this other s).getS this = s.getS other ∧
    (SharedPtr.assignMoveT M this other s).getS other = { block_ := none, ptr_ := none } ∧
    (SharedPtr.assignMoveT M this other s).heap = (SharedPtr.MinusSharedT M this s).heap ∧
    (SharedPtr.assignMoveT M this other s).trace = (SharedPtr.MinusSharedT M this s).trace ∧
    (SharedPtr.assignMoveT M this other s).weak = (SharedPtr.MinusSharedT M this s).weak := by
  have hc := cascade_MinusSharedT M this s
  have hg : (SharedPtr.MinusSharedT M this s).getS other = s.getS other :=
    (Cascade_liveS hc h2).2
  have hlt : this < (SharedPtr.MinusSharedT M this s).shared.length := liveS_lt h1
  have hlo : other < ((SharedPtr.MinusSharedT M this s).setS this
      ((SharedPtr.MinusSharedT M this s).getS other)).shared.length := by
    have := liveS_lt h2
    simpa [State.setS] using this
  rw [assignMoveT_eq]
  refine ⟨?_, ?_, rfl, rfl, rfl⟩
  · rw [getS_setS hlo, getS_setS hlt, hg]
    simp [hne]
  · rw [getS_setS hlo]; simp

/-! #### Managed objects without handle members -/

theorem state_ext {s t : State} (h1 : s.heap = t.heap) (h2 : s.trace = t.trace)
    (h3 : s.shared = t.shared) (h4 : s.weak = t.weak) : s = t := by
  cases s; cases t; simp_all

theorem destroyT_nil (cb : BlockId → State → State) (p : Option Addr) (s : State) :
    destroyT [] cb p s = s := by
  unfold destroyT; cases p <;> simp [Members.of]

theorem block_MinusStrong (b : BlockId) (c : ControlBlockBase) :
    (c.MinusStrong b).1 =
      if c.Strong - 1 = 0 then c.decStrong.afterDestroy else c.decStrong := by
  cases c <;>
    simp only [ControlBlockBase.MinusStrong, ControlBlockBase.Strong,
      ControlBlockBase.decStrong, ControlBlockBase.afterDestroy,
      ControlBlockPointer.MinusStrong, ControlBlockPointer.OnZeroStrong,
      ControlBlockPointer.OnZeroWeak, ControlBlockMakeShared.MinusStrong,
      ControlBlockMakeShared.OnZeroStrong, ControlBlockMakeShared.OnZeroWeak] <;>
    split_ifs <;> simp_all

theorem update_some {s : State} {b : BlockId} {c : ControlBlockBase}
    (hc : s.heap[b]? = some c) (f : ControlBlockBase → ControlBlockBase) :
    s.update b f = { s with heap := s.heap.set b (f c) } := by
  unfold State.update; rw [hc]

theorem invoke_some {s : State} {b : BlockId} {c : ControlBlockBase}
    (hc : s.heap[b]? = some c)
    (m : BlockId → ControlBlockBase → ControlBlockBase × List Event) :
    s.invoke b m = { s with heap := s.heap.set b (m b c).1, trace := s.trace ++ (m b c).2 } := by
  unfold State.invoke; rw [hc]

/-- Without handle members the nested `MinusStrong` is the one-step `MinusStrong` of the
first part. -/
theorem MinusStrongFuel_nil (k : Nat) (b : BlockId) (s : State) :
    MinusStrongFuel [] (k + 1) b s = s.invoke b ControlBlockBase.MinusStrong := by
  rw [MinusStrongFuel_succ]
  by_cases hb : b < s.heap.length
  · rw [if_pos hb]
    have hc : s.heap[b]? = some s.heap[b] := List.getElem?_eq_getElem hb
    have h1 : (s.update b ControlBlockBase.decStrong).heap[b]? = some s.heap[b].decStrong := by
      rw [heap_update_self, hc]; rfl
    have hS1 : (s.update b ControlBlockBase.decStrong).Strong b = s.heap[b].Strong - 1 := by
      unfold State.Strong; rw [h1]; exact Strong_decStrong _
    have hW1 : (s.update b ControlBlockBase.decStrong).Weak b = s.heap[b].Weak := by
      unfold State.Weak; rw [h1]; exact Weak_decStrong _
    rw [invoke_some hc, block_MinusStrong, events_MinusStrong]
    unfold State.ifZeroStrong
    by_cases h0 : s.heap[b].Strong - 1 = 0
    · rw [if_pos (by rw [hS1]; exact h0), if_pos h0, if_pos h0]
      unfold State.OnZeroStrong
      rw [h1]
      simp only []
      rw [destroyT_nil]
      have h2 : ((s.update b ControlBlockBase.decStrong).emit (Event.OnZeroStrong b)).heap[b]? =
          some s.heap[b].decStrong := h1
      have h3 : (((s.update b ControlBlockBase.decStrong).emit (Event.OnZeroStrong b)).update b
          ControlBlockBase.afterDestroy).heap[b]? = some s.heap[b].decStrong.afterDestroy := by
        rw [heap_update_self, h2]; rfl
      have hS3 : (((s.update b ControlBlockBase.decStrong).emit (Event.OnZeroStrong b)).update b
          ControlBlockBase.afterDestroy).Strong b = 0 := by
        unfold State.Strong; rw [h3]
        show s.heap[b].decStrong.afterDestroy.Strong = 0
        rw [Strong_afterDestroy, Strong_decStrong]; exact h0
      have hW3 : (((s.update b ControlBlockBase.decStrong).emit (Event.OnZeroStrong b)).update b
          ControlBlockBase.afterDestroy).Weak b = s.heap[b].Weak := by
        unfold State.Weak; rw [h3]
        show s.heap[b].decStrong.afterDestroy.Weak = _
        rw [Weak_afterDestroy, Weak_decStrong]
      unfold State.ifZeroBoth State.OnZeroWeak
      rw [hS3, hW3, update_some h2, update_some hc]
      by_cases hw : s.heap[b].Weak = 0
      · rw [if_pos ⟨rfl, hw⟩, if_pos ⟨h0, hw⟩]
        apply state_ext <;> simp [State.emit]
      · rw [if_neg (fun h => hw h.2), if_neg (fun h => hw h.2)]
        apply state_ext <;> simp [State.emit]
    · rw [if_neg (by rw [hS1]; exact h0), if_neg h0, if_neg h0]
      unfold State.ifZeroBoth
      rw [if_neg (by rw [hS1]; exact fun h => h0 h.1), if_neg (fun h => h0 h.1),
        update_some hc]
      apply state_ext <;> simp
  · rw [if_neg hb, invoke_of_le (Nat.le_of_not_lt hb)]

theorem MinusSharedT_nil (i : Nat) (s : State) :
    SharedPtr.MinusSharedT [] i s = SharedPtr.MinusShared i s := by
  unfold SharedPtr.MinusSharedT SharedPtr.MinusShared State.MinusStrong
  rcases (s.getS i).block_ with _ | b
  · rfl
  · exact MinusStrongFuel_nil _ _ _

theorem execT_nil (op : Op) (s : State) : Op.execT [] op s = op.exec s := by
  cases op <;>
    simp only [Op.execT, Op.exec, SharedPtr.assignCopyT, SharedPtr.assignCopy,
      SharedPtr.assignMoveT, SharedPtr.assignMove, SharedPtr.dtorT, SharedPtr.dtor,
      SharedPtr.ResetT, SharedPtr.Reset, SharedPtr.ResetPtrT, SharedPtr.ResetPtr,
      SharedPtr.SwapT, SharedPtr.Swap, MinusSharedT_nil]

/-- A program whose managed objects have no handle members runs as in the first part. -/
theorem runT_nil (ops : List Op) (s : State) : runT [] ops s = run ops s := by
  unfold runT run
  congr 1
  funext u op
  unfold stepT step
  rw [execT_nil]

/-! ### Claims on `MinusStrong` and on assignment, for managed objects that hold handles -/

/-- C5 fails on the code: a node holds a `WeakPtr` to itself (strong counter 1, weak counter 1,
no hook called yet).  Destroying the only owner calls `OnZeroStrong`; while the object is being
destroyed the member's destructor brings the weak counter to zero and calls `OnZeroWeak`, and
after `OnZeroStrong` has returned `MinusStrong` finds both counters zero and calls `OnZeroWeak`
a second time. -/
theorem C5_block_released_twice :
    (run selfObserverProgram State.init).Strong 0 = 1 ∧
    (run selfObserverProgram State.init).Weak 0 = 1 ∧
    (run selfObserverProgram State.init).trace = [] ∧
    runT selfObserver selfObserverProgram State.init = run selfObserverProgram State.init ∧
    (runT selfObserver (selfObserverProgram ++ [Op.sharedDtor 0]) State.init).trace =
      [Event.OnZeroStrong 0, Event.OnZeroWeak 0, Event.OnZeroWeak 0] ∧
    (runT selfObserver (selfObserverProgram ++ [Op.sharedDtor 0])
      State.init).trace.count (Event.OnZeroWeak 0) = 2 := by
  refine ⟨by decide, by decide, by decide, by decide, by decide, by decide⟩

/-- Without handle members in the managed objects the lifecycle of every block is as
specified, on every program: each hook is called at most once per block, a released block
has both counters at zero and its object released, and the object goes first. -/
theorem lifecycle_without_members (ops : List Op) (b : BlockId) :
    (runT [] ops State.init).trace.count (Event.OnZeroStrong b) ≤ 1 ∧
    (runT [] ops State.init).trace.count (Event.OnZeroWeak b) ≤ 1 ∧
    ((runT [] ops State.init).blockReleased b →
      (runT [] ops State.init).Strong b = 0 ∧ (runT [] ops State.init).Weak b = 0 ∧
      (runT [] ops State.init).objectReleased b) ∧
    objectFirst (runT [] ops State.init).trace := by
  rw [runT_nil]
  have h := lifecycle_plain ops b
  exact ⟨h.1, h.2.1, h.2.2.1, h.2.2.2.1⟩

/-- The assignment `head = head->next` on a list whose nodes are owned by `head` alone:
`MinusShared()` releases the first node, whose member `next` (the right-hand side of the
assignment) is destroyed with it, and with it the second node; the statements that follow
`MinusShared()` then read a destroyed object. -/
theorem assign_from_member :
    (run (listProgram ++ [Op.sharedDtor 3]) State.init).liveS 0 = true ∧
    (SharedPtr.MinusSharedT listNodes 2
      (run (listProgram ++ [Op.sharedDtor 3]) State.init)).liveS 0 = false ∧
    (SharedPtr.MinusSharedT listNodes 2
      (run (listProgram ++ [Op.sharedDtor 3]) State.init)).trace =
      [Event.OnZeroStrong 0, Event.OnZeroStrong 1, Event.OnZeroWeak 1, Event.OnZeroWeak 0] := by
  refine ⟨by decide, by decide, by decide⟩

/-- C12 as stated fails: `a` wraps object 1, `c` wraps object 2 and `b` aliases `c` with the
address of object 1.  The copy assignment `a = b` finds equal observed addresses and does
nothing, so `a` keeps its own block and `a.UseCount()` is 1 while `b.UseCount()` is 2.  The
same happens when a default-constructed `a` is assigned a handle that wraps a null pointer. -/
theorem C12_counterexample :
    (run [Op.sharedRaw (some (Addr.raw 1)), Op.sharedRaw (some (Addr.raw 2)),
      Op.sharedAlias 1 (some (Addr.raw 1))] State.init).liveS 0 = true ∧
    (run [Op.sharedRaw (some (Addr.raw 1)), Op.sharedRaw (some (Addr.raw 2)),
      Op.sharedAlias 1 (some (Addr.raw 1))] State.init).liveS 2 = true ∧
    ((SharedPtr.assignCopyT [] 0 2 (run [Op.sharedRaw (some (Addr.raw 1)),
      Op.sharedRaw (some (Addr.raw 2)), Op.sharedAlias 1 (some (Addr.raw 1))]
      State.init)).getS 0).block_ = some 0 ∧
    ((SharedPtr.assignCopyT [] 0 2 (run [Op.sharedRaw (some (Addr.raw 1)),
      Op.sharedRaw (some (Addr.raw 2)), Op.sharedAlias 1 (some (Addr.raw 1))]
      State.init)).getS 2).block_ = some 1 ∧
    SharedPtr.UseCount 0 (SharedPtr.assignCopyT [] 0 2 (run [Op.sharedRaw (some (Addr.raw 1)),
      Op.sharedRaw (some (Addr.raw 2)), Op.sharedAlias 1 (some (Addr.raw 1))]
      State.init)) = 1 ∧
    SharedPtr.UseCount 2 (SharedPtr.assignCopyT [] 0 2 (run [Op.sharedRaw (some (Addr.raw 1)),
      Op.sharedRaw (some (Addr.raw 2)), Op.sharedAlias 1 (some (Addr.raw 1))]
      State.init)) = 2 ∧
    SharedPtr.UseCount 0 (SharedPtr.assignCopyT [] 0 2 (run [Op.sharedRaw (some (Addr.raw 1)),
      Op.sharedRaw (some (Addr.raw 2)), Op.sharedAlias 1 (some (Addr.raw 1))]
      State.init)) ≠
      SharedPtr.UseCount 2 (SharedPtr.assignCopyT [] 0 2 (run [Op.sharedRaw (some (Addr.raw 1)),
        Op.sharedRaw (some (Addr.raw 2)), Op.sharedAlias 1 (some (Addr.raw 1))]
        State.init)) ∧
    SharedPtr.UseCount 0 (SharedPtr.assignCopyT [] 0 1
      (run [Op.sharedDefault, Op.sharedRaw none] State.init)) = 0 ∧
    SharedPtr.UseCount 1 (SharedPtr.assignCopyT [] 0 1
      (run [Op.sharedDefault, Op.sharedRaw none] State.init)) = 1 := by
  refine ⟨by decide, by decide, by decide, by decide, by decide, by decide, by decide,
    by decide, by decide⟩

/-- C12, amended: in a state satisfying the invariant, copy construction from a live handle `b`
gives the new handle the block and the observed address of `b` (so `Get()` and `UseCount()`
agree) and increments the strong counter of that block by one.  The copy assignment `a = b`,
when the observed addresses of `a` and `b` differ before the call and neither `a` nor `b` is
destroyed by the release of the object `a` held (neither is stored inside an object that only
`a` kept alive), gives `a` the block and the observed address of `b`: `MinusShared()` runs
first, then the strong counter of the block of `b` is incremented by one.  For every block that
no handle stored inside a managed object refers to, the strong counter ends one lower when `a`
held the block before and one higher when `b` holds it (no net change when both).  When the
observed addresses are equal the assignment changes nothing and `a` keeps its block. -/
theorem C12_copy_shares_block (M : Members) (s : State) (a b : Nat) (hs : Inv s)
    (hb : s.liveS b = true) :
    ((SharedPtr.ctorCopy b s).getS s.shared.length = s.getS b ∧
      (SharedPtr.ctorCopy b s).getS b = s.getS b ∧
      SharedPtr.Get s.shared.length (SharedPtr.ctorCopy b s) =
        SharedPtr.Get b (SharedPtr.ctorCopy b s) ∧
      SharedPtr.UseCount s.shared.length (SharedPtr.ctorCopy b s) =
        SharedPtr.UseCount b (SharedPtr.ctorCopy b s) ∧
      (∀ x, (SharedPtr.ctorCopy b s).Strong x =
        s.Strong x + (if (s.getS b).block_ = some x then 1 else 0))) ∧
    (s.liveS a = true → (s.getS a).ptr_ ≠ (s.getS b).ptr_ →
      (SharedPtr.MinusSharedT M a s).liveS a = true →
      (SharedPtr.MinusSharedT M a s).liveS b = true →
      (SharedPtr.assignCopyT M a b s).getS a = s.getS b ∧
      (SharedPtr.assignCopyT M a b s).getS b = s.getS b ∧
      SharedPtr.Get a (SharedPtr.assignCopyT M a b s) =
        SharedPtr.Get b (SharedPtr.assignCopyT M a b s) ∧
      SharedPtr.UseCount a (SharedPtr.assignCopyT M a b s) =
        SharedPtr.UseCount b (SharedPtr.assignCopyT M a b s) ∧
      (∀ x, (SharedPtr.assignCopyT M a b s).Strong x =
        (SharedPtr.MinusSharedT M a s).Strong x +
          (if (s.getS b).block_ = some x then 1 else 0)) ∧
      (∀ x, M.away x s → (SharedPtr.assignCopyT M a b s).Strong x =
        s.Strong x - (if (s.getS a).block_ = some x then 1 else 0) +
          (if (s.getS b).block_ = some x then 1 else 0))) ∧
    ((s.getS a).ptr_ = (s.getS b).ptr_ → SharedPtr.assignCopyT M a b s = s) := by
  refine ⟨?_, ?_, ?_⟩
  · have he := bind_effect s (s.getS b).block_ (s.getS b).ptr_
      (fun x hx => block_lt_of_liveS hs hb hx)
    have hf := promote_frame s (s.getS b).block_ (s.getS b).ptr_ b (ne_length_of_liveS hb)
    rw [ctorCopy_eq]
    refine ⟨he.2.1, hf.1, ?_, ?_, he.2.2.1⟩
    · unfold SharedPtr.Get; rw [he.2.1, hf.1]
    · unfold SharedPtr.UseCount; rw [he.2.1, hf.1]
  · intro ha hne h1 h2
    have he := assignCopyT_effect M hs hb hne h1 h2
    refine ⟨he.1, he.2.1, ?_, ?_, he.2.2.1, ?_⟩
    · unfold SharedPtr.Get; rw [he.1, he.2.1]
    · unfold SharedPtr.UseCount; rw [he.1, he.2.1]
    · intro x hx
      rw [he.2.2.1 x, (MinusSharedT_counters M hs ha hx).1]
  · intro heq
    unfold SharedPtr.assignCopyT
    rw [if_neg (fun h => h heq)]

/-- C12 (amended) on a two-node list: `head = c`, where `c` owns the second node, releases the
first node and with it its member `next`; `head` gets the block and address of `c`, the strong
counter of that block is 2 again (`next` gone, `head` added) and the block `head` left has
strong counter 0. -/
theorem C12_copy_shares_block_witness :
    (SharedPtr.assignCopyT listNodes 2 3 (run listProgram State.init)).getS 2 =
      { block_ := some 1, ptr_ := some (Addr.raw 2) } ∧
    (SharedPtr.assignCopyT listNodes 2 3 (run listProgram State.init)).Strong 1 = 2 ∧
    (SharedPtr.assignCopyT listNodes 2 3 (run listProgram State.init)).Strong 0 = 0 := by
  have h := (C12_copy_shares_block listNodes (run listProgram State.init) 2 3
    (inv_run listProgram inv_init) (by decide)).2.1 (by decide) (by decide) (by decide)
    (by decide)
  exact ⟨h.1, by rw [h.2.2.2.2.1 1]; decide, by rw [h.2.2.2.2.2 0 (by decide)]; decide⟩

/-- C14 as stated fails: two handles share one block (strong counter 2); after the move
assignment `t = std::move(s)` between them the strong counter of the block `s` held is 1. -/
theorem C14_counterexample :
    (run [Op.sharedRaw (some (Addr.raw 1)), Op.sharedCopy 0] State.init).liveS 0 = true ∧
    (run [Op.sharedRaw (some (Addr.raw 1)), Op.sharedCopy 0] State.init).liveS 1 = true ∧
    ((run [Op.sharedRaw (some (Addr.raw 1)), Op.sharedCopy 0] State.init).getS 1).block_ =
      some 0 ∧
    (run [Op.sharedRaw (some (Addr.raw 1)), Op.sharedCopy 0] State.init).Strong 0 = 2 ∧
    (SharedPtr.assignMoveT [] 0 1
      (run [Op.sharedRaw (some (Addr.raw 1)), Op.sharedCopy 0] State.init)).Strong 0 = 1 ∧
    (SharedPtr.assignMoveT [] 0 1
      (run [Op.sharedRaw (some (Addr.raw 1)), Op.sharedCopy 0] State.init)).Strong 0 ≠
      (run [Op.sharedRaw (some (Addr.raw 1)), Op.sharedCopy 0] State.init).Strong 0 := by
  refine ⟨by decide, by decide, by decide, by decide, by decide, by decide⟩

/-- C14, amended: in a state satisfying the invariant, move construction from a live handle `s`
leaves `s` empty (null block, null observed address, `UseCount()` 0, `operator bool` false),
gives the new handle the block and observed address `s` held, and changes neither the heap nor
the trace.  Move assignment `t = std::move(s)` to a different live handle `t`, when neither
`t` nor `s` is destroyed by the release of the object `t` held, leaves `s` empty and gives `t`
the block and observed address `s` held; the counters and the trace are those `MinusShared()`
on `t` leaves.  For every block that no handle stored inside a managed object refers to, the
weak counter is unchanged and the strong counter is unchanged when `t` did not hold that block
and decremented by one when `t` held it; so for the block `s` held. -/
theorem C14_move (M : Members) (s : State) (t o : Nat) (hs : Inv s) (ho : s.liveS o = true) :
    ((SharedPtr.ctorMove o s).getS s.shared.length = s.getS o ∧
      (SharedPtr.ctorMove o s).getS o = { block_ := none, ptr_ := none } ∧
      SharedPtr.UseCount o (SharedPtr.ctorMove o s) = 0 ∧
      SharedPtr.toBool o (SharedPtr.ctorMove o s) = false ∧
      (SharedPtr.ctorMove o s).heap = s.heap ∧ (SharedPtr.ctorMove o s).trace = s.trace) ∧
    (s.liveS t = true → t ≠ o →
      (SharedPtr.MinusSharedT M t s).liveS t = true →
      (SharedPtr.MinusSharedT M t s).liveS o = true →
      (SharedPtr.assignMoveT M t o s).getS t = s.getS o ∧
      (SharedPtr.assignMoveT M t o s).getS o = { block_ := none, ptr_ := none } ∧
      SharedPtr.UseCount o (SharedPtr.assignMoveT M t o s) = 0 ∧
      SharedPtr.toBool o (SharedPtr.assignMoveT M t o s) = false ∧
      (∀ x, (SharedPtr.assignMoveT M t o s).Strong x = (SharedPtr.MinusSharedT M t s).Strong x ∧
        (SharedPtr.assignMoveT M t o s).Weak x = (SharedPtr.MinusSharedT M t s).Weak x) ∧
      (SharedPtr.assignMoveT M t o s).trace = (SharedPtr.MinusSharedT M t s).trace ∧
      (∀ x, M.away x s →
        (SharedPtr.assignMoveT M t o s).Strong x =
          s.Strong x - (if (s.getS t).block_ = some x then 1 else 0) ∧
        (SharedPtr.assignMoveT M t o s).Weak x = s.Weak x) ∧
      (∀ B, (s.getS o).block_ = some B → (s.getS t).block_ ≠ some B → M.away B s →
        (SharedPtr.assignMoveT M t o s).Strong B = s.Strong B)) := by
  constructor
  · have he := ctorMove_effect ho
    refine ⟨he.1, he.2.1, ?_, ?_, he.2.2.1, he.2.2.2.1⟩
    · unfold SharedPtr.UseCount; rw [he.2.1]
    · unfold SharedPtr.toBool; rw [he.2.1]; rfl
  · intro ht hne h1 h2
    have he := assignMoveT_effect M hne h1 h2
    have hSW : ∀ x, (SharedPtr.assignMoveT M t o s).Strong x =
        (SharedPtr.MinusSharedT M t s).Strong x ∧
        (SharedPtr.assignMoveT M t o s).Weak x = (SharedPtr.MinusSharedT M t s).Weak x := by
      intro x
      unfold State.Strong State.Weak
      rw [he.2.2.1]
      exact ⟨rfl, rfl⟩
    refine ⟨he.1, he.2.1, ?_, ?_, hSW, he.2.2.2.1, ?_, ?_⟩
    · unfold SharedPtr.UseCount; rw [he.2.1]
    · unfold SharedPtr.toBool; rw [he.2.1]; rfl
    · intro x hx
      have hc := MinusSharedT_counters M hs ht hx
      exact ⟨by rw [(hSW x).1, hc.1], by rw [(hSW x).2, hc.2]⟩
    · intro B _ hB hx
      rw [(hSW B).1, (MinusSharedT_counters M hs ht hx).1, if_neg hB]; simp

/-- C14 (amended) on a two-node list: `head = std::move(c)`, where `c` owns the second node,
releases the first node and with it its member `next`; `head` gets the block and address of
`c`, `c` is empty, and the strong counter of the block `c` held is 1: `head` is its only
owner. -/
theorem C14_move_witness :
    (SharedPtr.assignMoveT listNodes 2 3 (run listProgram State.init)).getS 2 =
      { block_ := some 1, ptr_ := some (Addr.raw 2) } ∧
    (SharedPtr.assignMoveT listNodes 2 3 (run listProgram State.init)).getS 3 =
      { block_ := none, ptr_ := none } ∧
    (SharedPtr.assignMoveT listNodes 2 3 (run listProgram State.init)).Strong 0 = 0 := by
  have h := (C14_move listNodes (run listProgram State.init) 2 3
    (inv_run listProgram inv_init) (by decide)).2 (by decide) (by decide) (by decide)
    (by decide)
  exact ⟨h.1, h.2.1, by rw [(h.2.2.2.2.2.2.1 0 (by decide)).1]; decide⟩

/-! #### Swap runs no destructor of a managed object -/

theorem MinusSharedT_empty (M : Members) {s : State} {i : Nat}
    (hb : (s.getS i).block_ = none) : SharedPtr.MinusSharedT M i s = s := by
  unfold SharedPtr.MinusSharedT; rw [hb]

theorem assignMoveT_empty (M : Members) {s : State} {this : Nat} (other : Nat)
    (hb : (s.getS this).block_ = none) :
    SharedPtr.assignMoveT M this other s = SharedPtr.assignMove this other s := by
  unfold SharedPtr.assignMoveT SharedPtr.assignMove
  rw [MinusSharedT_empty M hb, MinusShared_none hb]

theorem dtorT_empty (M : Members) {s : State} {i : Nat} (hb : (s.getS i).block_ = none) :
    SharedPtr.dtorT M i s = SharedPtr.dtor i s := by
  unfold SharedPtr.dtorT SharedPtr.dtor
  rw [MinusSharedT_empty M hb, MinusShared_none hb]

/-- Every `MinusShared()` inside `std::swap` runs on a handle that has just been emptied, so
`Swap` is the same whatever the managed objects hold. -/
theorem SwapT_eq (M : Members) {s : State} {a b : Nat} (ha : s.liveS a = true)
    (hb : s.liveS b = true) : SharedPtr.SwapT M a b s = SharedPtr.Swap a b s := by
  have han : a ≠ s.shared.length := ne_length_of_liveS ha
  have hbn : b ≠ s.shared.length := ne_length_of_liveS hb
  have h1 := ctorMove_effect ha
  have l1 : ∀ j, s.liveS j = true ∨ j = s.shared.length →
      (SharedPtr.ctorMove a s).liveS j = true := fun j hj => liveS_ctorMove ha hj
  have len1 : (SharedPtr.ctorMove a s).shared.length = s.shared.length + 1 := by
    rw [ctorMove_eq]; simp [State.setS, State.newS]
  have k1 : ((SharedPtr.ctorMove a s).getS a).block_ = none := by rw [h1.2.1]
  have e2 : SharedPtr.assignMove a b (SharedPtr.ctorMove a s) =
      ((SharedPtr.ctorMove a s).setS a ((SharedPtr.ctorMove a s).getS b)).setS b
        { block_ := none, ptr_ := none } :=
    assignMove_empty b k1
  have ha1 : a < (SharedPtr.ctorMove a s).shared.length := liveS_lt (l1 a (Or.inl ha))
  have hb1 : b < (SharedPtr.ctorMove a s).shared.length := liveS_lt (l1 b (Or.inl hb))
  have g2 : ∀ j, (SharedPtr.assignMove a b (SharedPtr.ctorMove a s)).getS j =
      if j = b then { block_ := none, ptr_ := none }
      else if j = a then (SharedPtr.ctorMove a s).getS b
      else (SharedPtr.ctorMove a s).getS j := by
    intro j
    rw [e2, getS_setS (by rw [length_setS]; exact hb1), getS_setS ha1]
  have k2 : ((SharedPtr.assignMove a b (SharedPtr.ctorMove a s)).getS b).block_ = none := by
    rw [g2]; simp
  have len2 : (SharedPtr.assignMove a b (SharedPtr.ctorMove a s)).shared.length =
      s.shared.length + 1 := by
    rw [e2, length_setS, length_setS, len1]
  have e3 : SharedPtr.assignMove b s.shared.length
      (SharedPtr.assignMove a b (SharedPtr.ctorMove a s)) =
      ((SharedPtr.assignMove a b (SharedPtr.ctorMove a s)).setS b
        ((SharedPtr.assignMove a b (SharedPtr.ctorMove a s)).getS s.shared.length)).setS
        s.shared.length { block_ := none, ptr_ := none } :=
    assignMove_empty s.shared.length k2
  have hb2 : b < (SharedPtr.assignMove a b (SharedPtr.ctorMove a s)).shared.length := by
    rw [len2]; have := liveS_lt hb; omega
  have hn2 : s.shared.length <
      (SharedPtr.assignMove a b (SharedPtr.ctorMove a s)).shared.length := by
    rw [len2]; omega
  have k3 : ((SharedPtr.assignMove b s.shared.length
      (SharedPtr.assignMove a b (SharedPtr.ctorMove a s))).getS s.shared.length).block_ =
      none := by
    rw [e3, getS_setS (by rw [length_setS]; exact hn2)]; simp
  unfold SharedPtr.SwapT SharedPtr.Swap
  simp only []
  rw [assignMoveT_empty M b k1, assignMoveT_empty M s.shared.length k2, dtorT_empty M k3]

/-- C20: for live `SharedPtr` objects `a` and `b` (possibly the same object), in any state,
`a.Swap(b)` exchanges their `(block_, ptr_)` pairs, leaves every other handle, the heap (hence
every strong and weak counter) and the trace (no hook is called) unchanged; swapping twice
restores both handles; this is so whatever handles the managed objects hold, every
`MinusShared()` inside `std::swap` being run on a handle that has just been emptied.  The same
holds for `WeakPtr::Swap` on live `WeakPtr` objects `w` and `v`, in any state. -/
theorem C20_swap (s : State) (a b w v : Nat) :
    (s.liveS a = true → s.liveS b = true →
      (SharedPtr.Swap a b s).getS a = s.getS b ∧
      (SharedPtr.Swap a b s).getS b = s.getS a ∧
      (∀ j, j ≠ a → j ≠ b → (SharedPtr.Swap a b s).getS j = s.getS j) ∧
      (SharedPtr.Swap a b s).heap = s.heap ∧
      (SharedPtr.Swap a b s).trace = s.trace ∧
      (SharedPtr.Swap a b s).weak = s.weak ∧
      (∀ x, (SharedPtr.Swap a b s).Strong x = s.Strong x ∧
        (SharedPtr.Swap a b s).Weak x = s.Weak x) ∧
      (SharedPtr.Swap a b (SharedPtr.Swap a b s)).getS a = s.getS a ∧
      (SharedPtr.Swap a b (SharedPtr.Swap a b s)).getS b = s.getS b ∧
      (∀ M : Members, SharedPtr.SwapT M a b s = SharedPtr.Swap a b s)) ∧
    (s.liveW w = true → s.liveW v = true →
      (WeakPtr.Swap w v s).getW w = s.getW v ∧
      (WeakPtr.Swap w v s).getW v = s.getW w ∧
      (∀ j, j ≠ w → j ≠ v → (WeakPtr.Swap w v s).getW j = s.getW j) ∧
      (WeakPtr.Swap w v s).heap = s.heap ∧
      (WeakPtr.Swap w v s).trace = s.trace ∧
      (WeakPtr.Swap w v s).shared = s.shared ∧
      (∀ x, (WeakPtr.Swap w v s).Strong x = s.Strong x ∧
        (WeakPtr.Swap w v s).Weak x = s.Weak x) ∧
      (WeakPtr.Swap w v (WeakPtr.Swap w v s)).getW w = s.getW w ∧
      (WeakPtr.Swap w v (WeakPtr.Swap w v s)).getW v = s.getW v) := by
  constructor
  · intro ha hb
    have h1 := Swap_effect ha hb
    have h2 := Swap_effect (h1.2.2.2.2.2.2 a ha) (h1.2.2.2.2.2.2 b hb)
    refine ⟨h1.2.2.2.1, h1.2.2.2.2.1, h1.2.2.2.2.2.1, h1.1, h1.2.1, h1.2.2.1, ?_, ?_, ?_,
      fun M => SwapT_eq M ha hb⟩
    · intro x
      unfold State.Strong State.Weak
      rw [h1.1]
      exact ⟨rfl, rfl⟩
    · rw [h2.2.2.2.1, h1.2.2.2.2.1]
    · rw [h2.2.2.2.2.1, h1.2.2.2.1]
  · intro hw hv
    have k1 := SwapW_effect hw hv
    have k2 := SwapW_effect (k1.2.2.2.2.2.2 w hw) (k1.2.2.2.2.2.2 v hv)
    refine ⟨k1.2.2.2.1, k1.2.2.2.2.1, k1.2.2.2.2.2.1, k1.1, k1.2.1, k1.2.2.1, ?_, ?_, ?_⟩
    · intro x
      unfold State.Strong State.Weak
      rw [k1.1]
      exact ⟨rfl, rfl⟩
    · rw [k2.2.2.2.1, k1.2.2.2.2.1]
    · rw [k2.2.2.2.2.1, k1.2.2.2.1]

/-- C20 on two owners of different groups with no `WeakPtr` anywhere (the pairs are exchanged,
no hook is called, a handle swapped with itself keeps its pair), on the two owners of a
two-node list whose nodes hold handles, and on two observers whose owners have all been
destroyed (the pairs are exchanged, the trace is unchanged). -/
theorem C20_swap_witness :
    (SharedPtr.Swap 0 1 (run [Op.sharedRaw (some (Addr.raw 1)),
      Op.sharedRaw (some (Addr.raw 2))] State.init)).getS 0 =
      { block_ := some 1, ptr_ := some (Addr.raw 2) } ∧
    (SharedPtr.Swap 0 1 (run [Op.sharedRaw (some (Addr.raw 1)),
      Op.sharedRaw (some (Addr.raw 2))] State.init)).getS 1 =
      { block_ := some 0, ptr_ := some (Addr.raw 1) } ∧
    (SharedPtr.Swap 0 1 (run [Op.sharedRaw (some (Addr.raw 1)),
      Op.sharedRaw (some (Addr.raw 2))] State.init)).trace = [] ∧
    (SharedPtr.Swap 0 0 (run [Op.sharedRaw (some (Addr.raw 1)),
      Op.sharedRaw (some (Addr.raw 2))] State.init)).getS 0 =
      { block_ := some 0, ptr_ := some (Addr.raw 1) } ∧
    SharedPtr.SwapT listNodes 2 3 (run listProgram State.init) =
      SharedPtr.Swap 2 3 (run listProgram State.init) ∧
    (WeakPtr.Swap 0 1 (run [Op.sharedRaw (some (Addr.raw 1)),
      Op.sharedRaw (some (Addr.raw 2)), Op.weakDemote 0, Op.weakDemote 1, Op.sharedDtor 0,
      Op.sharedDtor 1] State.init)).getW 1 =
      { block_ := some 0, ptr_ := some (Addr.raw 1) } ∧
    (WeakPtr.Swap 0 1 (run [Op.sharedRaw (some (Addr.raw 1)),
      Op.sharedRaw (some (Addr.raw 2)), Op.weakDemote 0, Op.weakDemote 1, Op.sharedDtor 0,
      Op.sharedDtor 1] State.init)).trace =
      [Event.OnZeroStrong 0, Event.OnZeroStrong 1] :=
  ⟨((C20_swap (run [Op.sharedRaw (some (Addr.raw 1)), Op.sharedRaw (some (Addr.raw 2))]
      State.init) 0 1 0 0).1 (by decide) (by decide)).1,
    ((C20_swap (run [Op.sharedRaw (some (Addr.raw 1)), Op.sharedRaw (some (Addr.raw 2))]
      State.init) 0 1 0 0).1 (by decide) (by decide)).2.1,
    ((C20_swap (run [Op.sharedRaw (some (Addr.raw 1)), Op.sharedRaw (some (Addr.raw 2))]
      State.init) 0 1 0 0).1 (by decide) (by decide)).2.2.2.2.1,
    ((C20_swap (run [Op.sharedRaw (some (Addr.raw 1)), Op.sharedRaw (some (Addr.raw 2))]
      State.init) 0 0 0 0).1 (by decide) (by decide)).1,
    ((C20_swap (run listProgram State.init) 2 3 0 0).1 (by decide)
      (by decide)).2.2.2.2.2.2.2.2.2 listNodes,
    ((C20_swap (run [Op.sharedRaw (some (Addr.raw 1)), Op.sharedRaw (some (Addr.raw 2)),
      Op.weakDemote 0, Op.weakDemote 1, Op.sharedDtor 0, Op.sharedDtor 1] State.init)
      0 0 0 1).2 (by decide) (by decide)).2.1,
    ((C20_swap (run [Op.sharedRaw (some (Addr.raw 1)), Op.sharedRaw (some (Addr.raw 2)),
      Op.weakDemote 0, Op.weakDemote 1, Op.sharedDtor 0, Op.sharedDtor 1] State.init)
      0 0 0 1).2 (by decide) (by decide)).2.2.2.2.1⟩

/-! ### UniquePtr -/

theorem liveU_iff (s : UState) (i : Nat) :
    s.liveU i = true ↔ ∃ h, s.unique[i]? = some (some h) := by
  unfold UState.liveU
  split <;> simp_all

theorem liveU_get {s : UState} {i : Nat} (h : s.liveU i = true) :
    s.unique[i]? = some (some (s.getU i)) := by
  obtain ⟨x, hx⟩ := (liveU_iff s i).mp h
  simp [UState.getU, hx]

theorem liveU_lt {s : UState} {i : Nat} (h : s.liveU i = true) : i < s.unique.length :=
  (List.getElem?_eq_some_iff.mp (liveU_get h)).1

theorem getU_setU {s : UState} {i : Nat} (h : i < s.unique.length) (x : UniquePtr) (j : Nat) :
    (s.setU i x).getU j = if j = i then x else s.getU j := by
  unfold UState.getU UState.setU
  by_cases hji : j = i
  · subst hji; simp [h]
  · simp [hji, List.getElem?_set_ne (Ne.symm hji)]

theorem setU_setU (s : UState) (i : Nat) (x y : UniquePtr) :
    (s.setU i x).setU i y = s.setU i y := by
  simp [UState.setU, List.set_set]

theorem setU_getU {s : UState} {i : Nat} (h : s.liveU i = true) : s.setU i (s.getU i) = s := by
  have hlt := liveU_lt h
  have hg := liveU_get h
  have hi : s.unique[i] = some (s.getU i) := by
    rw [List.getElem?_eq_getElem hlt] at hg
    exact Option.some.inj hg
  have hl : s.unique.set i (some (s.getU i)) = s.unique := by
    apply List.ext_getElem (by simp)
    intro n h1 h2
    by_cases e : i = n
    · subst e; simp [hi]
    · simp [List.getElem_set_ne e]
  unfold UState.setU
  rw [hl]

theorem length_setU (s : UState) (i : Nat) (x : UniquePtr) :
    (s.setU i x).unique.length = s.unique.length := by
  simp [UState.setU]

/-- The state after `Release()`. -/
theorem Release_effect {s : UState} {u : Nat} (hu : s.liveU u = true) :
    (UniquePtr.Release u s).1 = UniquePtr.Get u s ∧
    (UniquePtr.Release u s).2 =
      s.setU u { ptr_ := { first := none, second := UniquePtr.GetDeleter u s } } ∧
    UniquePtr.Get u (UniquePtr.Release u s).2 = none ∧
    UniquePtr.GetDeleter u (UniquePtr.Release u s).2 = UniquePtr.GetDeleter u s ∧
    (UniquePtr.Release u s).2.calls = s.calls ∧
    (∀ j, j ≠ u → (UniquePtr.Release u s).2.getU j = s.getU j) := by
  have hlt := liveU_lt hu
  have e : (UniquePtr.Release u s).2 =
      s.setU u { ptr_ := { first := none, second := UniquePtr.GetDeleter u s } } := rfl
  refine ⟨rfl, e, ?_, ?_, rfl, ?_⟩
  · unfold UniquePtr.Get
    rw [e, getU_setU hlt]; simp [CompressedPair.GetFirst]
  · unfold UniquePtr.GetDeleter
    rw [e, getU_setU hlt]; simp [CompressedPair.GetSecond, UniquePtr.GetDeleter]
  · intro j hj
    rw [e, getU_setU hlt]; simp [hj]

/-- The state after `Reset(q)`. -/
theorem ResetU_effect {s : UState} {u : Nat} (hu : s.liveU u = true) (q : Option Addr) :
    UniquePtr.Get u (UniquePtr.Reset u q s) = q ∧
    UniquePtr.GetDeleter u (UniquePtr.Reset u q s) = UniquePtr.GetDeleter u s ∧
    (UniquePtr.Reset u q s).calls = s.calls ++
      (if UniquePtr.Get u s = none then []
        else [{ deleter := UniquePtr.GetDeleter u s, ptr := UniquePtr.Get u s }]) ∧
    (UniquePtr.Reset u q s).unique =
      s.unique.set u (some { ptr_ := { first := q, second := UniquePtr.GetDeleter u s } }) ∧
    (∀ j, j ≠ u → (UniquePtr.Reset u q s).getU j = s.getU j) := by
  have hlt := liveU_lt hu
  have hg : (s.setFirst u q).getU u =
      { ptr_ := { first := q, second := (s.getU u).ptr_.second } } := by
    unfold UState.setFirst
    rw [getU_setU hlt]; simp
  unfold UniquePtr.Reset UniquePtr.Get UniquePtr.GetDeleter
  simp only []
  by_cases hp : (s.getU u).ptr_.GetFirst = none
  · rw [if_neg (fun h => h hp), if_pos hp]
    refine ⟨?_, ?_, by rw [List.append_nil]; rfl, rfl, ?_⟩
    · rw [hg]; rfl
    · rw [hg]; rfl
    · intro j hj
      unfold UState.setFirst
      rw [getU_setU hlt]; simp [hj]
  · rw [if_pos hp, if_neg hp]
    refine ⟨?_, ?_, ?_, rfl, ?_⟩
    · show ((s.setFirst u q).getU u).ptr_.GetFirst = q
      rw [hg]; rfl
    · show ((s.setFirst u q).getU u).ptr_.GetSecond = _
      rw [hg]; rfl
    · rw [hg]; rfl
    · intro j hj
      show (s.setFirst u q).getU j = _
      unfold UState.setFirst
      rw [getU_setU hlt]; simp [hj]

theorem liveU_setU {s : UState} {i : Nat} (h : s.liveU i = true) (x : UniquePtr) (j : Nat) :
    (s.setU i x).liveU j = s.liveU j := by
  have hlt := liveU_lt h
  by_cases hji : j = i
  · subst hji
    rw [h]; simp [UState.liveU, UState.setU, hlt]
  · simp [UState.liveU, UState.setU, List.getElem?_set_ne (Ne.symm hji)]

theorem ResetU_of_null {s : UState} {u : Nat} (q : Option Addr)
    (h : UniquePtr.Get u s = none) : UniquePtr.Reset u q s = s.setFirst u q := by
  unfold UniquePtr.Reset
  simp only []
  rw [if_neg (fun hp => hp h)]

/-- Self move assignment `u = std::move(u)`: `Release()` empties `u`, `Reset` puts the pointer
back and finds nothing to delete, and the deleter is assigned to itself. -/
theorem assignMoveU_self {s : UState} {u : Nat} (hu : s.liveU u = true) :
    UniquePtr.assignMove u u s = s := by
  have hlt := liveU_lt hu
  have hr := Release_effect hu
  have hlt1 : u < (UniquePtr.Release u s).2.unique.length := by
    rw [hr.2.1, length_setU]; exact hlt
  have e1 : UniquePtr.Reset u (UniquePtr.Release u s).1 (UniquePtr.Release u s).2 =
      s.setU u (s.getU u) := by
    rw [ResetU_of_null _ hr.2.2.1]
    unfold UState.setFirst
    rw [hr.2.1, getU_setU hlt, setU_setU, hr.1]
    simp only [if_true]
    rfl
  unfold UniquePtr.assignMove
  simp only []
  rw [e1, setU_getU hu]
  unfold UState.setSecond UniquePtr.GetDeleter
  exact setU_getU hu

/-- The state after the move assignment between two different objects. -/
theorem assignMoveU_effect {s : UState} {t u : Nat} (ht : s.liveU t = true)
    (hu : s.liveU u = true) (hne : t ≠ u) :
    UniquePtr.Get t (UniquePtr.assignMove t u s) = UniquePtr.Get u s ∧
    UniquePtr.Get u (UniquePtr.assignMove t u s) = none ∧
    UniquePtr.GetDeleter t (UniquePtr.assignMove t u s) = UniquePtr.GetDeleter u s ∧
    (UniquePtr.assignMove t u s).calls = s.calls ++
      (if UniquePtr.Get t s = none then []
        else [{ deleter := UniquePtr.GetDeleter t s, ptr := UniquePtr.Get t s }]) ∧
    (∀ j, j ≠ t → j ≠ u → (UniquePtr.assignMove t u s).getU j = s.getU j) := by
  have hr := Release_effect hu
  have ht1 : (UniquePtr.Release u s).2.liveU t = true := by
    rw [hr.2.1, liveU_setU hu]; exact ht
  have hgt1 : (UniquePtr.Release u s).2.getU t = s.getU t := hr.2.2.2.2.2 t hne
  have hs := ResetU_effect ht1 (UniquePtr.Release u s).1
  have hlt2 : t < (UniquePtr.Reset t (UniquePtr.Release u s).1
      (UniquePtr.Release u s).2).unique.length := by
    rw [hs.2.2.2.1]
    simpa using liveU_lt ht1
  have hgu2 : (UniquePtr.Reset t (UniquePtr.Release u s).1 (UniquePtr.Release u s).2).getU u =
      (UniquePtr.Release u s).2.getU u := hs.2.2.2.2 u (Ne.symm hne)
  have hg3 : ∀ j, (UniquePtr.assignMove t u s).getU j =
      if j = t then
        { ptr_ := { first := UniquePtr.Get u s, second := UniquePtr.GetDeleter u s } }
      else (UniquePtr.Reset t (UniquePtr.Release u s).1 (UniquePtr.Release u s).2).getU j := by
    intro j
    unfold UniquePtr.assignMove UState.setSecond
    simp only []
    rw [getU_setU hlt2]
    split_ifs with hj
    · have h1 : UniquePtr.GetDeleter u (UniquePtr.Reset t (UniquePtr.Release u s).1
          (UniquePtr.Release u s).2) = UniquePtr.GetDeleter u s := by
        unfold UniquePtr.GetDeleter
        rw [hgu2]
        exact hr.2.2.2.1
      have h2 : ((UniquePtr.Reset t (UniquePtr.Release u s).1
          (UniquePtr.Release u s).2).getU t).ptr_.first = UniquePtr.Get u s := by
        have := hs.1
        rw [hr.1] at this
        exact this
      rw [h1]
      simp only [h2]
    · rfl
  have hcalls : (UniquePtr.assignMove t u s).calls =
      (UniquePtr.Reset t (UniquePtr.Release u s).1 (UniquePtr.Release u s).2).calls := rfl
  refine ⟨?_, ?_, ?_, ?_, ?_⟩
  · unfold UniquePtr.Get
    rw [hg3]; simp [CompressedPair.GetFirst]
    rfl
  · unfold UniquePtr.Get
    rw [hg3, if_neg (Ne.symm hne), hgu2]
    exact hr.2.2.1
  · unfold UniquePtr.GetDeleter
    rw [hg3]; simp [CompressedPair.GetSecond]
    rfl
  · rw [hcalls, hs.2.2.1, hr.2.2.2.2.1]
    unfold UniquePtr.Get UniquePtr.GetDeleter
    rw [hgt1]
  · intro j hjt hju
    rw [hg3, if_neg hjt, hs.2.2.2.2 j hjt]
    exact hr.2.2.2.2.2 j hju

/-- C21: for a live `UniquePtr` `u` holding pointer `p`: `Release()` returns `p`, leaves
`u.Get()` null and calls no deleter; `Reset(q)` leaves `u.Get() == q` and calls the deleter of
`u` once on `p` when `p` is non-null and not at all when `p` is null, so a call on `q` is only
added when `q == p`.  Move assignment `t = std::move(u)` to a different live `UniquePtr` `t`
calls the deleter `t` had, once, on the pointer `t` held before when that pointer is non-null
and makes no call otherwise, and leaves `t.Get() == p` and `u.Get()` null.  Self move
assignment `u = std::move(u)` leaves the state as it was: `u.Get() == p` and no deleter call. -/
theorem C21_unique_ownership (s : UState) (u : Nat) (q : Option Addr)
    (hu : s.liveU u = true) :
    ((UniquePtr.Release u s).1 = UniquePtr.Get u s ∧
      UniquePtr.Get u (UniquePtr.Release u s).2 = none ∧
      (UniquePtr.Release u s).2.calls = s.calls) ∧
    (UniquePtr.Get u (UniquePtr.Reset u q s) = q ∧
      (UniquePtr.Reset u q s).calls = s.calls ++
        (if UniquePtr.Get u s = none then []
          else [{ deleter := UniquePtr.GetDeleter u s, ptr := UniquePtr.Get u s }]) ∧
      (q ≠ UniquePtr.Get u s → ∀ d : Deleter,
        ({ deleter := d, ptr := q } : DeleterCall) ∈ (UniquePtr.Reset u q s).calls →
        ({ deleter := d, ptr := q } : DeleterCall) ∈ s.calls)) ∧
    (∀ t : Nat, s.liveU t = true → t ≠ u →
      UniquePtr.Get t (UniquePtr.assignMove t u s) = UniquePtr.Get u s ∧
      UniquePtr.Get u (UniquePtr.assignMove t u s) = none ∧
      (UniquePtr.assignMove t u s).calls = s.calls ++
        (if UniquePtr.Get t s = none then []
          else [{ deleter := UniquePtr.GetDeleter t s, ptr := UniquePtr.Get t s }])) ∧
    (UniquePtr.assignMove u u s = s ∧
      UniquePtr.Get u (UniquePtr.assignMove u u s) = UniquePtr.Get u s ∧
      (UniquePtr.assignMove u u s).calls = s.calls) := by
  have hr := Release_effect hu
  have hs := ResetU_effect hu q
  have hself := assignMoveU_self hu
  refine ⟨⟨hr.1, hr.2.2.1, hr.2.2.2.2.1⟩, ⟨hs.1, hs.2.2.1, ?_⟩, fun t ht hne =>
      ⟨(assignMoveU_effect ht hu hne).1, (assignMoveU_effect ht hu hne).2.1,
        (assignMoveU_effect ht hu hne).2.2.2.1⟩,
    ⟨hself, by rw [hself], by rw [hself]⟩⟩
  intro hq d hd
  rw [hs.2.2.1] at hd
  rcases List.mem_append.mp hd with h | h
  · exact h
  · split_ifs at h with hp
    · simp at h
    · simp only [List.mem_singleton] at h
      have : q = UniquePtr.Get u s := congrArg DeleterCall.ptr h
      exact absurd this hq

/-- C21 on two objects with different deleters: `t = std::move(u)` calls the old deleter of `t`
on the old pointer of `t`; `Reset` to another pointer calls the deleter on the old pointer
only; self move assignment changes nothing. -/
theorem C21_unique_ownership_witness :
    (UniquePtr.assignMove 0 1 (UniquePtr.ctorDeleter (some (Addr.raw 2)) { id := 7 }
      (UniquePtr.ctorDeleter (some (Addr.raw 1)) { id := 5 } UState.init))).calls =
      [{ deleter := { id := 5 }, ptr := some (Addr.raw 1) }] ∧
    UniquePtr.Get 0 (UniquePtr.assignMove 0 1 (UniquePtr.ctorDeleter (some (Addr.raw 2))
      { id := 7 } (UniquePtr.ctorDeleter (some (Addr.raw 1)) { id := 5 } UState.init))) =
      some (Addr.raw 2) ∧
    (UniquePtr.Reset 1 (some (Addr.raw 3)) (UniquePtr.ctorDeleter (some (Addr.raw 2))
      { id := 7 } (UniquePtr.ctorDeleter (some (Addr.raw 1)) { id := 5 } UState.init))).calls =
      [{ deleter := { id := 7 }, ptr := some (Addr.raw 2) }] ∧
    UniquePtr.assignMove 1 1 (UniquePtr.ctorDeleter (some (Addr.raw 2)) { id := 7 }
      (UniquePtr.ctorDeleter (some (Addr.raw 1)) { id := 5 } UState.init)) =
      UniquePtr.ctorDeleter (some (Addr.raw 2)) { id := 7 }
        (UniquePtr.ctorDeleter (some (Addr.raw 1)) { id := 5 } UState.init) :=
  ⟨((C21_unique_ownership (UniquePtr.ctorDeleter (some (Addr.raw 2)) { id := 7 }
      (UniquePtr.ctorDeleter (some (Addr.raw 1)) { id := 5 } UState.init)) 1
      (some (Addr.raw 3)) (by decide)).2.2.1 0 (by decide) (by decide)).2.2,
    ((C21_unique_ownership (UniquePtr.ctorDeleter (some (Addr.raw 2)) { id := 7 }
      (UniquePtr.ctorDeleter (some (Addr.raw 1)) { id := 5 } UState.init)) 1
      (some (Addr.raw 3)) (by decide)).2.2.1 0 (by decide) (by decide)).1,
    (C21_unique_ownership (UniquePtr.ctorDeleter (some (Addr.raw 2)) { id := 7 }
      (UniquePtr.ctorDeleter (some (Addr.raw 1)) { id := 5 } UState.init)) 1
      (some (Addr.raw 3)) (by decide)).2.1.2.1,
    (C21_unique_ownership (UniquePtr.ctorDeleter (some (Addr.raw 2)) { id := 7 }
      (UniquePtr.ctorDeleter (some (Addr.raw 1)) { id := 5 } UState.init)) 1
      (some (Addr.raw 3)) (by decide)).2.2.2.1⟩

end SmartPtrs
